import Mathlib

/-!
# Structured fault handling on Cortex-M

A shallow embedding of `faultHandling.h` and `faultHandling.c`.

* Machine words are natural numbers taken modulo `W32`; pointer arithmetic wraps.
* The dump buffer is a map from byte offsets (relative to `dumpBuffer`) to characters, so that
  a store past the end of the application's array is representable.
* Every routine is modelled by the sequence of memory events it performs, in program order;
  the buffer after a routine is obtained by replaying its stores (`applyTrace`).
* Stack memory is a map from byte addresses to words and is disjoint from the dump buffer.
* The scan loop of `FaultHandler_C` has no loop variant that survives address wrap-around,
  so it takes fuel; `none` means the fuel ran out.
* `cortexM` is the value of the CMSIS define `__CORTEX_M` (0 on CM0+, 3 on CM3, 4 on CM4).
-/

namespace FaultHandling

/-! ## Machine words and memory -/

/-- Modulus of `uint32_t` and of pointers on the 32-bit target. -/
def W32 : Nat := 4294967296

/-- Stack memory: the word stored at a byte address. -/
abbrev Memory := Nat → Nat

/-- A `uint32_t` read through a pointer: the address and the value are 32-bit quantities. -/
def load (mem : Memory) (addr : Nat) : Nat := mem (addr % W32) % W32

/-- Contents of the bytes reachable from `dumpBuffer`, by offset. -/
abbrev Buffer := Nat → Char

/-- Observable steps of the routines. -/
inductive Event where
  /-- Store `dumpBuffer[off] = c`. -/
  | store (off : Nat) (c : Char)
  /-- Read of one of the eight stacked words, `stack[i]`, at this address. -/
  | readFrame (addr : Nat)
  /-- Read of a scan candidate, `*fp`, at this address. -/
  | readScan (addr : Nat)
  /-- Call of the registered dump processor. -/
  | callback (p : Nat)
  /-- Call of `NVIC_SystemReset()`. -/
  | reset
  /-- Execution of `BKPT #0`. -/
  | bkpt
  deriving DecidableEq

/-- Effect of one event on the buffer. -/
def applyEvent (buf : Buffer) : Event → Buffer
  | .store off c => fun i => if i = off then c else buf i
  | _ => buf

/-- Effect of a sequence of events on the buffer. -/
def applyTrace (buf : Buffer) (tr : List Event) : Buffer := tr.foldl applyEvent buf

/-- Offsets stored to by a trace, in program order. -/
def storeOffsets : List Event → List Nat
  | [] => []
  | .store off _ :: tr => off :: storeOffsets tr
  | _ :: tr => storeOffsets tr

/-- Addresses read as scan candidates by a trace, in program order. -/
def scanReads : List Event → List Nat
  | [] => []
  | .readScan a :: tr => a :: scanReads tr
  | _ :: tr => scanReads tr

/-- The first `n` bytes of the buffer. -/
def bufferBytes (buf : Buffer) (n : Nat) : List Char := (List.range n).map buf

/-! ## faultHandling.h -/

/-- Values of the enum `faultHandlingPostFaultAction`. -/
def POSTHANDLER_LOOP : Nat := 0
def POSTHANDLER_RESET : Nat := 1
def POSTHANDLER_DEBUG : Nat := 2
def POSTHANDLER_RETURN : Nat := 3

/-- Enumerators of the enum `faultHandlingRegIndex` that name a register. -/
inductive faultHandlingRegIndex where
  | R7 | SP | EXCRT | PSR
  | HFSR | CFSR | MMFAR | BFAR
  | SHCSR
  | STKR0 | STKR1 | STKR2 | STKR3 | STKR12 | STKLR | STKPC | STKPSR
  deriving DecidableEq

open faultHandlingRegIndex

/-- The enumerators in declaration order for the given `__CORTEX_M`; the enumerator
`FAULT_HANDLING_CPUREG_COUNT` follows them. -/
def regIndexEnumerators (cortexM : Nat) : List faultHandlingRegIndex :=
  [R7, SP, EXCRT, PSR]
    ++ (if cortexM > 0 then [HFSR, CFSR, MMFAR, BFAR] else [])
    ++ [SHCSR, STKR0, STKR1, STKR2, STKR3, STKR12, STKLR, STKPC, STKPSR]

/-- Value of the final enumerator: the number of enumerators before it. -/
def FAULT_HANDLING_CPUREG_COUNT (cortexM : Nat) : Nat := (regIndexEnumerators cortexM).length

/-- Integer value of an enumerator (`R7=0`, then counting up). -/
def regIndexValue (cortexM : Nat) (r : faultHandlingRegIndex) : Nat :=
  (regIndexEnumerators cortexM).indexOf r

def FAULT_HANDLING_CALLSTACK_ENTRIES : Nat := 4

def FAULT_HANDLING_CPUREG_ROWSIZE : Nat := 15

def FAULT_HANDLING_CALLSTACK_ROWSIZE : Nat := 18

def FAULT_HANDLING_DUMP_SIZE (cortexM : Nat) : Nat :=
  FAULT_HANDLING_CPUREG_COUNT cortexM * FAULT_HANDLING_CPUREG_ROWSIZE
    + FAULT_HANDLING_CALLSTACK_ENTRIES * FAULT_HANDLING_CALLSTACK_ROWSIZE + 1

/-! ## faultHandling.c: statics -/

/-- The file-scope statics. `dumpBuffer` holds the contents of the memory the pointer refers
to; `dumpProcessor` is `none` for `NULL` and `some p` for the function at address `p`. -/
structure Statics where
  dumpBuffer : Buffer
  dumpProcessor : Option Nat
  startText : Nat
  endText : Nat
  mspTop : Nat
  pspTop : Nat
  postFaultAction : Nat

/-- Values of the statics at program start, for a given content of memory. -/
def initialStatics (buf : Buffer) : Statics :=
  { dumpBuffer := buf, dumpProcessor := none, startText := 0, endText := 0,
    mspTop := 0, pspTop := 0, postFaultAction := POSTHANDLER_LOOP }

/-- Registers read from the System Control Block and the core at fault time, and the stack. -/
structure Hardware where
  HFSR : Nat
  CFSR : Nat
  BFAR : Nat
  MMFAR : Nat
  SHCSR : Nat
  xPSR : Nat
  mem : Memory

/-! ## faultHandling.c: private implementation -/

def cpuRegLabels (cortexM : Nat) : List String :=
  ["r7   ", "sp   ", "excrt", "psr  "]
    ++ (if cortexM > 0 then ["hfsr ", "cfsr ", "mmfar", "bfar "] else [])
    ++ ["shcsr", "s.r0 ", "s.r1 ", "s.r2 ", "s.r3 ", "s.r12", "s.lr ", "s.pc ", "s.psr"]

def hex : List Char :=
  ['0', '1', '2', '3', '4', '5', '6', '7', '8', '9', 'A', 'B', 'C', 'D', 'E', 'F']

/-- The terminator of a C string. -/
def NUL : Char := Char.ofNat 0

/-- Stores of `dumpBuffer[cursor+i] = hex[(value >> (28-4*i)) & 0xf]` for `i` from `i` up to 7. -/
def formatRegValueLoop (cursor value : Nat) : Nat → Nat → List Event
  | 0, _ => []
  | n + 1, i =>
    let nibble := (value >>> (28 - 4 * i)) &&& 0xf
    Event.store (cursor + i) (hex.getD nibble NUL) :: formatRegValueLoop cursor value n (i + 1)

/-- Format one register value into the fault table string. -/
def formatRegValue (index value : Nat) : List Event :=
  let cursor := 15 * index + 6
  formatRegValueLoop cursor value 8 0

/-- The loop of `formatCallStackPair`, from `i` up to 7. -/
def formatCallStackPairLoop (cursor addr val : Nat) : Nat → Nat → List Event
  | 0, _ => []
  | n + 1, i =>
    let nibbleA := (addr >>> (28 - 4 * i)) &&& 0xf
    let nibbleV := (val >>> (28 - 4 * i)) &&& 0xf
    Event.store (cursor + i) (hex.getD nibbleA NUL)
      :: Event.store (cursor + 9 + i) (hex.getD nibbleV NUL)
      :: formatCallStackPairLoop cursor addr val n (i + 1)

def formatCallStackPair (cortexM index addr val : Nat) : List Event :=
  let cursor := FAULT_HANDLING_CPUREG_ROWSIZE * FAULT_HANDLING_CPUREG_COUNT cortexM
    + FAULT_HANDLING_CALLSTACK_ROWSIZE * index
  formatCallStackPairLoop cursor addr val 8 0

/-- The stores of `strcpy(dumpBuffer + dst, src)`: the characters, then the terminator. -/
def strcpy (dst : Nat) (src : List Char) : List Event :=
  (List.range (src.length + 1)).map fun i => Event.store (dst + i) (src.getD i NUL)

/-- First loop of `faultDumpPrepare`, from `i` for `n` more rounds; returns the stores and the
cursor after the loop. -/
def prepareRegRows (cortexM : Nat) : Nat → Nat → Nat → List Event × Nat
  | 0, _, cursor => ([], cursor)
  | n + 1, i, cursor =>
    let row := strcpy cursor ((cpuRegLabels cortexM).getD i "").toList
      ++ [Event.store (cursor + 5) ' ', Event.store (cursor + 14) '\n']
    let rest := prepareRegRows cortexM n (i + 1) (cursor + FAULT_HANDLING_CPUREG_ROWSIZE)
    (row ++ rest.1, rest.2)

/-- Second loop of `faultDumpPrepare`, from `i` for `n` more rounds. -/
def prepareCallRows (cortexM : Nat) : Nat → Nat → Nat → List Event × Nat
  | 0, _, cursor => ([], cursor)
  | n + 1, i, cursor =>
    let row := [Event.store (cursor + 8) ' ', Event.store (cursor + 17) '\n']
      ++ formatCallStackPair cortexM i 0 0
    let rest := prepareCallRows cortexM n (i + 1) (cursor + FAULT_HANDLING_CALLSTACK_ROWSIZE)
    (row ++ rest.1, rest.2)

def faultDumpPrepare (cortexM : Nat) : List Event :=
  let regs := prepareRegRows cortexM (FAULT_HANDLING_CPUREG_COUNT cortexM) 0 0
  let calls := prepareCallRows cortexM FAULT_HANDLING_CALLSTACK_ENTRIES 0 regs.2
  regs.1 ++ calls.1 ++ [Event.store calls.2 NUL]

/-! ## faultHandling.c: public interface -/

def faultHandlingSetDumpProcessor (cortexM : Nat) (s : Statics) (buf : Buffer)
    (p : Option Nat) : Statics :=
  { s with dumpBuffer := applyTrace buf (faultDumpPrepare cortexM), dumpProcessor := p }

def faultHandlingSetCallStackParameters (s : Statics) (textLo textHi mspTop_ pspTop_ : Nat) :
    Statics :=
  let mspTop := mspTop_ % W32
  { s with
    startText := textLo % W32
    endText := textHi % W32
    mspTop := mspTop
    pspTop := if pspTop_ = 0 then mspTop else pspTop_ % W32 }

def faultHandlingSetPostFaultAction (s : Statics) (pfa : Nat) : Statics :=
  { s with postFaultAction := pfa }

/-! ## faultHandling.c: the fault handler -/

/-- How a run of `FaultHandler_C` ends. -/
inductive Outcome where
  /-- The function returns to its caller. -/
  | returned
  /-- The function spins in `while(2);` forever. -/
  | spinning
  /-- The function has called `NVIC_SystemReset()`, which does not return (CMSIS). -/
  | resetting
  deriving DecidableEq

/-- A completed run: the events in program order and how the run ends. -/
structure Result where
  trace : List Event
  outcome : Outcome
  deriving DecidableEq

/-- The reads `stack[0]` .. `stack[7]` of the eight stacked registers. -/
def frameReads (stack : Nat) : List Event :=
  (List.range 8).map fun i => Event.readFrame ((stack + 4 * i) % W32)

/-- The calls `formatRegValue( index, value )` of `FaultHandler_C`, in program order, as pairs
of enumerator and value passed. -/
def capturedRegisters (cortexM : Nat) (hw : Hardware) (r7 stack excRet : Nat) :
    List (faultHandlingRegIndex × Nat) :=
  let hfsr := hw.HFSR
  let cfsr := hw.CFSR
  let bfar := hw.BFAR
  let mmfar := hw.MMFAR
  let shcsr := hw.SHCSR
  let sp := stack
  let r0 := load hw.mem (stack + 4 * 0)
  let r1 := load hw.mem (stack + 4 * 1)
  let r2 := load hw.mem (stack + 4 * 2)
  let r3 := load hw.mem (stack + 4 * 3)
  let r12 := load hw.mem (stack + 4 * 4)
  let lr := load hw.mem (stack + 4 * 5)
  let pc := load hw.mem (stack + 4 * 6)
  let psr := load hw.mem (stack + 4 * 7)
  let psrNow := hw.xPSR
  [(R7, r7), (SP, sp), (EXCRT, excRet), (PSR, psrNow)]
    ++ (if cortexM > 0 then [(HFSR, hfsr), (CFSR, cfsr), (MMFAR, mmfar), (BFAR, bfar)] else [])
    ++ [(SHCSR, shcsr), (STKR0, r0), (STKR1, r1), (STKR2, r2), (STKR3, r3), (STKR12, r12),
        (STKLR, lr), (STKPC, pc), (STKPSR, psr)]

/-- The stores of the `formatRegValue` calls of `FaultHandler_C`. -/
def formatRegisters (cortexM : Nat) (regs : List (faultHandlingRegIndex × Nat)) : List Event :=
  regs.flatMap fun rv => formatRegValue (regIndexValue cortexM rv.1) rv.2

/-- The bound `uint32_t TOS = excRet & 4 ? pspTop : mspTop`. -/
def TOS (s : Statics) (excRet : Nat) : Nat :=
  if excRet &&& 4 ≠ 0 then s.pspTop else s.mspTop

/-- The loop `for( fp = ...; fp < (uint32_t*)TOS; fp++ )`, entered at the loop test with the
current `fp` and `found`. One unit of fuel is spent per evaluation of the loop test. -/
def scanLoop (cortexM : Nat) (s : Statics) (mem : Memory) (tos : Nat) :
    Nat → Nat → Nat → Option (List Event)
  | 0, _, _ => none
  | fuel + 1, fp, found =>
    if fp < tos then
      let val := load mem fp
      if val < s.startText ∨ val > s.endText then
        (scanLoop cortexM s mem tos fuel ((fp + 4) % W32) found).map
          fun tr => Event.readScan fp :: tr
      else if val &&& 1 = 0 then
        (scanLoop cortexM s mem tos fuel ((fp + 4) % W32) found).map
          fun tr => Event.readScan fp :: tr
      else
        let row := formatCallStackPair cortexM found fp val
        let found := found + 1
        if found = FAULT_HANDLING_CALLSTACK_ENTRIES then
          some (Event.readScan fp :: row)
        else
          (scanLoop cortexM s mem tos fuel ((fp + 4) % W32) found).map
            fun tr => Event.readScan fp :: (row ++ tr)
    else
      some []

/-- The block `if( endText > 0 ) ...` of `FaultHandler_C`. -/
def callStackScan (cortexM fuel : Nat) (s : Statics) (mem : Memory) (stack excRet : Nat) :
    Option (List Event) :=
  if s.endText > 0 then
    scanLoop cortexM s mem (TOS s excRet) fuel ((stack + 4 * 8) % W32) 0
  else
    some []

/-- The `switch( postFaultAction )` of `FaultHandler_C`. -/
def postFaultDispatch (postFaultAction : Nat) : List Event × Outcome :=
  if postFaultAction = POSTHANDLER_LOOP then ([], Outcome.spinning)
  else if postFaultAction = POSTHANDLER_RESET then ([Event.reset], Outcome.resetting)
  else if postFaultAction = POSTHANDLER_DEBUG then ([Event.bkpt], Outcome.returned)
  else if postFaultAction = POSTHANDLER_RETURN then ([], Outcome.returned)
  else ([], Outcome.returned)

/-- The fault handler. `r7`, `stack` and `excRet` are the 32-bit arguments passed by the
assembly trampoline. The result is `none` when the scan loop outlives the fuel. -/
def FaultHandler_C (cortexM fuel : Nat) (s : Statics) (hw : Hardware) (r7 stack excRet : Nat) :
    Option Result :=
  match s.dumpProcessor with
  | none => some { trace := [], outcome := Outcome.returned }
  | some p =>
    let regs := capturedRegisters cortexM hw r7 stack excRet
    match callStackScan cortexM fuel s hw.mem stack excRet with
    | none => none
    | some scan =>
      let action := postFaultDispatch s.postFaultAction
      some { trace := frameReads stack ++ formatRegisters cortexM regs ++ scan
                        ++ [Event.callback p] ++ action.1
             outcome := action.2 }

/-- The statics after a run: only the memory behind `dumpBuffer` is written. -/
def afterFault (s : Statics) (r : Result) : Statics :=
  { s with dumpBuffer := applyTrace s.dumpBuffer r.trace }

/-! ## Vocabulary of the specification -/

/-- Upper-case hexadecimal digit of a number below 16. -/
def hexDigit (d : Nat) : Char :=
  if d < 10 then Char.ofNat (48 + d) else Char.ofNat (55 + d)

/-- The 4-bit field of `v` whose lowest bit is bit `k`. -/
def nibbleAt (v k : Nat) : Nat :=
  8 * (v.testBit (k + 3)).toNat + 4 * (v.testBit (k + 2)).toNat
    + 2 * (v.testBit (k + 1)).toNat + (v.testBit k).toNat

/-- Eight hexadecimal characters of a 32-bit value, most significant nibble first. -/
def hex8 (v : Nat) : List Char :=
  (List.range 8).map fun i => hexDigit (nibbleAt v (28 - 4 * i))

/-- A word qualifies as a pushed LR: within the code bounds, both inclusive, and odd. -/
def qualifies (codeLow codeHigh val : Nat) : Bool :=
  decide (codeLow ≤ val ∧ val ≤ codeHigh ∧ val % 2 = 1)

/-- Label of each register row, as the dump in the header comment of faultHandling.c lists
them. -/
def dumpLabel : faultHandlingRegIndex → String
  | R7 => "r7   "
  | SP => "sp   "
  | EXCRT => "excrt"
  | PSR => "psr  "
  | HFSR => "hfsr "
  | CFSR => "cfsr "
  | MMFAR => "mmfar"
  | BFAR => "bfar "
  | SHCSR => "shcsr"
  | STKR0 => "s.r0 "
  | STKR1 => "s.r1 "
  | STKR2 => "s.r2 "
  | STKR3 => "s.r3 "
  | STKR12 => "s.r12"
  | STKLR => "s.lr "
  | STKPC => "s.pc "
  | STKPSR => "s.psr"

/-- The value of each register at fault time: the trampoline arguments, the current PSR, the
System Control Block registers and the eight stacked words. -/
def capturedValue (hw : Hardware) (r7 stack excRet : Nat) : faultHandlingRegIndex → Nat
  | R7 => r7
  | SP => stack
  | EXCRT => excRet
  | PSR => hw.xPSR
  | HFSR => hw.HFSR
  | CFSR => hw.CFSR
  | MMFAR => hw.MMFAR
  | BFAR => hw.BFAR
  | SHCSR => hw.SHCSR
  | STKR0 => load hw.mem stack
  | STKR1 => load hw.mem (stack + 4)
  | STKR2 => load hw.mem (stack + 8)
  | STKR3 => load hw.mem (stack + 12)
  | STKR12 => load hw.mem (stack + 16)
  | STKLR => load hw.mem (stack + 20)
  | STKPC => load hw.mem (stack + 24)
  | STKPSR => load hw.mem (stack + 28)

/-- Order of the register rows in the dump: the fault-status rows only on CM3/CM4. -/
def dumpOrder (cortexM : Nat) : List faultHandlingRegIndex :=
  if cortexM > 0 then
    [R7, SP, EXCRT, PSR, HFSR, CFSR, MMFAR, BFAR, SHCSR,
      STKR0, STKR1, STKR2, STKR3, STKR12, STKLR, STKPC, STKPSR]
  else
    [R7, SP, EXCRT, PSR, SHCSR, STKR0, STKR1, STKR2, STKR3, STKR12, STKLR, STKPC, STKPSR]

/-- Text of a register row: label, space, eight hexadecimal characters, line end. -/
def registerRowText (label : String) (v : Nat) : List Char :=
  label.toList ++ [' '] ++ hex8 v ++ ['\n']

/-- Text of a call-stack row: address, space, value, line end. -/
def callStackRowText (e : Nat × Nat) : List Char :=
  hex8 e.1 ++ [' '] ++ hex8 e.2 ++ ['\n']

/-- Text of the whole dump for the given captured state and four call-stack entries, the
terminator included. -/
def dumpRecord (cortexM : Nat) (hw : Hardware) (r7 stack excRet : Nat)
    (calls : List (Nat × Nat)) : List Char :=
  (dumpOrder cortexM).flatMap
      (fun r => registerRowText (dumpLabel r) (capturedValue hw r7 stack excRet r))
    ++ calls.flatMap callStackRowText ++ [NUL]

/-- The stores of `formatCallStackPair` for the given entries, written to rows `j`, `j+1`, ..
in turn. -/
def callEntriesTrace (cortexM : Nat) : Nat → List (Nat × Nat) → List Event
  | _, [] => []
  | j, e :: es => formatCallStackPair cortexM j e.1 e.2 ++ callEntriesTrace cortexM (j + 1) es

/-- The store events of a trace. -/
def stores : List Event → List Event
  | [] => []
  | .store off ch :: tr => .store off ch :: stores tr
  | _ :: tr => stores tr

/-- The word addresses `start`, `start + 4`, .. that lie below `tos`. -/
def scanCandidates (start tos : Nat) : List Nat :=
  (List.range ((tos - start + 3) / 4)).map fun i => start + 4 * i

/-- Bytes `start .. start + len - 1` of the buffer. -/
def bufferSlice (buf : Buffer) (start len : Nat) : List Char :=
  (List.range len).map fun k => buf (start + k)

/-- Call-stack row `j` of the buffer. -/
def callStackRow (cortexM : Nat) (buf : Buffer) (j : Nat) : List Char :=
  bufferSlice buf (15 * FAULT_HANDLING_CPUREG_COUNT cortexM + 18 * j) 18

/-- Register row `i` of the buffer. -/
def registerRow (buf : Buffer) (i : Nat) : List Char :=
  bufferSlice buf (15 * i) 15

/-- The character last stored at offset `j` by the trace, if the trace stores there at all. -/
def lastStore : List Event → Nat → Option Char
  | [], _ => none
  | .store off ch :: tr, j =>
    match lastStore tr j with
    | some d => some d
    | none => if j = off then some ch else none
  | _ :: tr, j => lastStore tr j

/-- What the trace last stores at each of the offsets `start .. start + len - 1`. -/
def storedSlice (tr : List Event) (start len : Nat) : List (Option Char) :=
  (List.range len).map fun k => lastStore tr (start + k)

/-- The entries a scan records when it examines the given addresses: the qualifying words,
each with its address, in the order examined. -/
def recordedEntries (s : Statics) (mem : Memory) (reads : List Nat) : List (Nat × Nat) :=
  (reads.filter fun a => qualifies s.startText s.endText (load mem a)).map
    fun a => (a, load mem a)

/-- The dump shown in the header comment of faultHandling.c (CM3), line by line. -/
def sampleDump : String :=
  "r7    2001FFF0\n" ++
  "sp    2001FFD0\n" ++
  "excrt FFFFFFF9\n" ++
  "psr   20000003\n" ++
  "hfsr  40000000\n" ++
  "cfsr  00020000\n" ++
  "mmfar E000ED34\n" ++
  "bfar  E000ED38\n" ++
  "shcsr 00000000\n" ++
  "s.r0  00000002\n" ++
  "s.r1  0000000A\n" ++
  "s.r2  20000A3C\n" ++
  "s.r3  00000000\n" ++
  "s.r12 20000B38\n" ++
  "s.lr  000001AF\n" ++
  "s.pc  00000000\n" ++
  "s.psr 40000000\n" ++
  "20000FE4 00000317\n" ++
  "20000FEC 000002ED\n" ++
  "20000FF4 000002AF\n" ++
  "20000FFC 00000127\n"

/-- The stacked words behind the sample dump, at the stack address it shows. -/
def sampleMemory : Memory := fun a =>
  if a = 0x2001FFD0 then 0x00000002
  else if a = 0x2001FFD4 then 0x0000000A
  else if a = 0x2001FFD8 then 0x20000A3C
  else if a = 0x2001FFDC then 0x00000000
  else if a = 0x2001FFE0 then 0x20000B38
  else if a = 0x2001FFE4 then 0x000001AF
  else if a = 0x2001FFE8 then 0x00000000
  else if a = 0x2001FFEC then 0x40000000
  else 0

/-- The registers behind the sample dump. -/
def sampleHardware : Hardware :=
  { HFSR := 0x40000000, CFSR := 0x00020000, BFAR := 0xE000ED38, MMFAR := 0xE000ED34,
    SHCSR := 0, xPSR := 0x20000003, mem := sampleMemory }

/-- The addresses `q_1 < q_2 < ..` of the claim: the candidate word addresses from `start`
below `tos` whose word qualifies. -/
def qualifyingAddresses (s : Statics) (mem : Memory) (start tos : Nat) : List Nat :=
  (scanCandidates start tos).filter fun a => qualifies s.startText s.endText (load mem a)

/-- A stack for the concrete runs below: eight stacked words at `0x2000FFD0`, then four words up
to the stack top `0x20010000`, two of which look like return addresses. -/
def witnessMemory : Memory := fun a =>
  if a = 0x2000FFD0 then 0x00000002
  else if a = 0x2000FFE4 then 0x000001AF
  else if a = 0x2000FFEC then 0x40000000
  else if a = 0x2000FFF0 then 0x20000A3C
  else if a = 0x2000FFF4 then 0x00000317
  else if a = 0x2000FFF8 then 0x000002EC
  else if a = 0x2000FFFC then 0x000002ED
  else 0

/-- Registers for the concrete runs below. -/
def witnessHardware : Hardware :=
  { HFSR := 0x40000000, CFSR := 0x00020000, BFAR := 0xE000ED38, MMFAR := 0xE000ED34,
    SHCSR := 0, xPSR := 0x20000003, mem := witnessMemory }

/-- Statics for the concrete runs below: processor registered on a buffer of `#`, code bounds
`4 .. 0x1000`, main-stack top `0x20010000`, no process stack, action Return. -/
def witnessStatics : Statics :=
  faultHandlingSetPostFaultAction
    (faultHandlingSetCallStackParameters
      (faultHandlingSetDumpProcessor 3 (initialStatics fun _ => '#') (fun _ => '#') (some 1))
      4 0x1000 0x20010000 0)
    POSTHANDLER_RETURN

/-- The number of calls of the dump processor in a trace. -/
def callbackCount : List Event → Nat
  | [] => 0
  | .callback _ :: tr => callbackCount tr + 1
  | _ :: tr => callbackCount tr

/-- The reset requests and breakpoint traps of a trace, in program order. -/
def actionEvents : List Event → List Event
  | [] => []
  | .reset :: tr => .reset :: actionEvents tr
  | .bkpt :: tr => .bkpt :: actionEvents tr
  | _ :: tr => actionEvents tr

/-- Printable ASCII, or the line end. -/
def isPrintable (ch : Char) : Bool :=
  (decide (32 ≤ ch.toNat) && decide (ch.toNat ≤ 126)) || decide (ch = '\n')

/-- The offset lies in the value hole (bytes 6..13) of a register row. -/
def inRegisterHole (cortexM off : Nat) : Bool :=
  decide (off < 15 * FAULT_HANDLING_CPUREG_COUNT cortexM ∧ 6 ≤ off % 15 ∧ off % 15 < 14)

/-- The offset lies in one of the two value holes (bytes 0..7 and 9..16) of a call-stack
row. -/
def inCallStackHole (cortexM off : Nat) : Bool :=
  decide (15 * FAULT_HANDLING_CPUREG_COUNT cortexM ≤ off
    ∧ off < 15 * FAULT_HANDLING_CPUREG_COUNT cortexM + 72
    ∧ ((off - 15 * FAULT_HANDLING_CPUREG_COUNT cortexM) % 18 < 8
      ∨ (9 ≤ (off - 15 * FAULT_HANDLING_CPUREG_COUNT cortexM) % 18
        ∧ (off - 15 * FAULT_HANDLING_CPUREG_COUNT cortexM) % 18 < 17)))

/-- The stores of a trace that address the offsets `lo .. hi - 1`, in program order. -/
def storesInRange (tr : List Event) (lo hi : Nat) : List Event :=
  tr.filter fun e =>
    match e with
    | .store off _ => decide (lo ≤ off ∧ off < hi)
    | _ => false

/-- The fixed part of the record is in place: labels, separators and line ends of the register
rows, the terminator, and call-stack rows that read the given entries (zeros where the list
has none). -/
def Skeleton (cortexM : Nat) (buf : Buffer) (calls : List (Nat × Nat)) : Prop :=
  (∀ i, i < FAULT_HANDLING_CPUREG_COUNT cortexM →
      bufferSlice buf (15 * i) 6 = (dumpLabel ((dumpOrder cortexM).getD i R7)).toList ++ [' ']
        ∧ bufferSlice buf (15 * i + 14) 1 = ['\n'])
    ∧ (∀ j, j < 4 →
        bufferSlice buf (15 * FAULT_HANDLING_CPUREG_COUNT cortexM + 18 * j) 18
          = callStackRowText (calls.getD j (0, 0)))
    ∧ bufferSlice buf (15 * FAULT_HANDLING_CPUREG_COUNT cortexM + 72) 1 = [NUL]

/-- A stack like `witnessMemory` in which no word above the frame looks like a return
address. -/
def quietMemory : Memory := fun a =>
  if a = 0x2000FFD0 then 0x00000007
  else if a = 0x2000FFE4 then 0x000001B1
  else 0

/-- Registers of a second fault for the concrete runs below. -/
def quietHardware : Hardware :=
  { HFSR := 0x40000000, CFSR := 0x00000100, BFAR := 0xE000ED38, MMFAR := 0xE000ED34,
    SHCSR := 0, xPSR := 0x20000003, mem := quietMemory }

/-- A buffer of zero bytes, as a `static char` array holds before it is first written. -/
def zeroBuffer : Buffer := fun _ => NUL

/-- The buffer after two consecutive fault captures, with no re-initialisation in between. -/
def twoCaptures (cortexM fuel : Nat) (s : Statics) (hw1 : Hardware) (r7a stacka excReta : Nat)
    (hw2 : Hardware) (r7b stackb excRetb : Nat) : Option Buffer :=
  (FaultHandler_C cortexM fuel s hw1 r7a stacka excReta).bind fun r1 =>
    (FaultHandler_C cortexM fuel (afterFault s r1) hw2 r7b stackb excRetb).map fun r2 =>
      (afterFault (afterFault s r1) r2).dumpBuffer

/-- The buffer after one fault capture. -/
def oneCapture (cortexM fuel : Nat) (s : Statics) (hw : Hardware) (r7 stack excRet : Nat) :
    Option Buffer :=
  (FaultHandler_C cortexM fuel s hw r7 stack excRet).map fun r => (afterFault s r).dumpBuffer

/-- The trace stores at the offset, and what it stores last is printable. -/
def storedPrintable (tr : List Event) (off : Nat) : Bool :=
  match lastStore tr off with
  | some ch => isPrintable ch
  | none => false

/-! ## Further vocabulary -/

/-- A stack holding zero in every word. -/
def blankMemory : Memory := fun _ => 0

/-- Registers of a fault taken on the blank stack. -/
def blankHardware : Hardware :=
  { HFSR := 0x40000000, CFSR := 0x00000100, BFAR := 0xE000ED38, MMFAR := 0xE000ED34,
    SHCSR := 0, xPSR := 0x20000003, mem := blankMemory }

/-- Value of a character as a base-16 digit, `0`..`9` and `A`..`F`; any other character
counts as 0. -/
def hexCharValue (ch : Char) : Nat :=
  if 48 ≤ ch.toNat ∧ ch.toNat ≤ 57 then ch.toNat - 48
  else if 65 ≤ ch.toNat ∧ ch.toNat ≤ 70 then ch.toNat - 55
  else 0

/-- Value of a sequence of characters read as a base-16 numeral, most significant digit
first. -/
def readHex (cs : List Char) : Nat :=
  cs.foldl (fun acc ch => 16 * acc + hexCharValue ch) 0

/-- The fields of the struct `faultHandlingRegSet` of `faultHandling.h`, in declaration order,
for the given `__CORTEX_M`. -/
def faultHandlingRegSet (cortexM : Nat) : List String :=
  ["r7", "sp", "excrt"]
    ++ (if cortexM > 0 then ["hfsr", "cfsr", "mmfar", "bfar"] else [])
    ++ ["shcsr", "stkr0", "stkr1", "stkr2", "stkr3", "stkr12", "stklr", "stkpc", "stkpsr"]

/-- The identifier of each enumerator of `faultHandlingRegIndex`, in lower case, which is how
the struct `faultHandlingRegSet` spells its fields. -/
def regIndexName : faultHandlingRegIndex → String
  | R7 => "r7"
  | SP => "sp"
  | EXCRT => "excrt"
  | PSR => "psr"
  | HFSR => "hfsr"
  | CFSR => "cfsr"
  | MMFAR => "mmfar"
  | BFAR => "bfar"
  | SHCSR => "shcsr"
  | STKR0 => "stkr0"
  | STKR1 => "stkr1"
  | STKR2 => "stkr2"
  | STKR3 => "stkr3"
  | STKR12 => "stkr12"
  | STKLR => "stklr"
  | STKPC => "stkpc"
  | STKPSR => "stkpsr"

/-- Statics like `witnessStatics` with the main-stack top at the last byte of the address
space. -/
def lastWordStatics : Statics :=
  faultHandlingSetCallStackParameters witnessStatics 4 0x1000 0xFFFFFFFF 0

/-- Statics like `witnessStatics` with a main-stack top that is not word-aligned. -/
def unalignedTopStatics : Statics :=
  faultHandlingSetCallStackParameters witnessStatics 4 0x1000 0x20010002 0

/-- Statics like `witnessStatics` with the lower code bound 0, as `busFault.c` and
`stackSmashing.c` pass it. -/
def zeroTextLoStatics : Statics :=
  faultHandlingSetCallStackParameters witnessStatics 0 0x1000 0x20010000 0


/-- A stack for a frame at the top of the address space: zero in every word except four odd
words at the bottom of the address space. -/
def wrapMemory : Memory := fun a =>
  if a = 0x00000000 then 0x00000101
  else if a = 0x00000004 then 0x00000103
  else if a = 0x0000000C then 0x00000105
  else if a = 0x00000010 then 0x00000107
  else 0

/-- Registers of a fault taken on `wrapMemory`. -/
def wrapHardware : Hardware :=
  { HFSR := 0x40000000, CFSR := 0x00000100, BFAR := 0xE000ED38, MMFAR := 0xE000ED34,
    SHCSR := 0, xPSR := 0x20000003, mem := wrapMemory }

/-- A stack whose only non-zero words are four odd words in the frame at `0x2000FFD0`, the
stacked `r0` .. `r3`. -/
def frameHitMemory : Memory := fun a =>
  if a = 0x2000FFD0 then 0x00000101
  else if a = 0x2000FFD4 then 0x00000103
  else if a = 0x2000FFD8 then 0x00000105
  else if a = 0x2000FFDC then 0x00000107
  else 0

/-- Registers of a fault taken on `frameHitMemory`. -/
def frameHitHardware : Hardware :=
  { HFSR := 0x40000000, CFSR := 0x00000100, BFAR := 0xE000ED38, MMFAR := 0xE000ED34,
    SHCSR := 0, xPSR := 0x20000003, mem := frameHitMemory }

/-- Statics like `witnessStatics` with the main-stack top at `0xFFFFFFF4`, for a frame that
starts at `0xFFFFFFF0` and so extends past the end of the address space. -/
def highTopStatics : Statics :=
  faultHandlingSetCallStackParameters witnessStatics 4 0x1000 0xFFFFFFF4 0

/-! ## The two register-set variants -/

theorem regIndexEnumerators_of_pos {c : Nat} (h : c > 0) :
    regIndexEnumerators c = regIndexEnumerators 3 := by
  simp [regIndexEnumerators, h]

theorem cpuRegLabels_of_pos {c : Nat} (h : c > 0) : cpuRegLabels c = cpuRegLabels 3 := by
  simp [cpuRegLabels, h]

theorem cpuregCount_of_pos {c : Nat} (h : c > 0) :
    FAULT_HANDLING_CPUREG_COUNT c = FAULT_HANDLING_CPUREG_COUNT 3 := by
  simp [FAULT_HANDLING_CPUREG_COUNT, regIndexEnumerators_of_pos h]

theorem regIndexValue_of_pos {c : Nat} (h : c > 0) : regIndexValue c = regIndexValue 3 := by
  funext r
  simp [regIndexValue, regIndexEnumerators_of_pos h]

theorem dumpSize_of_pos {c : Nat} (h : c > 0) :
    FAULT_HANDLING_DUMP_SIZE c = FAULT_HANDLING_DUMP_SIZE 3 := by
  simp [FAULT_HANDLING_DUMP_SIZE, cpuregCount_of_pos h]

theorem formatCallStackPair_of_pos {c : Nat} (h : c > 0) :
    formatCallStackPair c = formatCallStackPair 3 := by
  funext index addr val
  simp [formatCallStackPair, cpuregCount_of_pos h]

theorem prepareRegRows_of_pos {c : Nat} (h : c > 0) (n i cursor : Nat) :
    prepareRegRows c n i cursor = prepareRegRows 3 n i cursor := by
  induction n generalizing i cursor with
  | zero => rfl
  | succ n ih => simp only [prepareRegRows, ih, cpuRegLabels_of_pos h]

theorem prepareCallRows_of_pos {c : Nat} (h : c > 0) (n i cursor : Nat) :
    prepareCallRows c n i cursor = prepareCallRows 3 n i cursor := by
  induction n generalizing i cursor with
  | zero => rfl
  | succ n ih => simp only [prepareCallRows, ih, formatCallStackPair_of_pos h]

theorem faultDumpPrepare_of_pos {c : Nat} (h : c > 0) :
    faultDumpPrepare c = faultDumpPrepare 3 := by
  simp only [faultDumpPrepare, prepareRegRows_of_pos h, prepareCallRows_of_pos h,
    cpuregCount_of_pos h]

theorem capturedRegisters_of_pos {c : Nat} (h : c > 0) :
    capturedRegisters c = capturedRegisters 3 := by
  funext hw r7 stack excRet
  simp [capturedRegisters, h]

theorem formatRegisters_of_pos {c : Nat} (h : c > 0) :
    formatRegisters c = formatRegisters 3 := by
  funext regs
  simp [formatRegisters, regIndexValue_of_pos h]

theorem scanLoop_of_pos {c : Nat} (h : c > 0) (s : Statics) (mem : Memory)
    (tos fuel fp found : Nat) :
    scanLoop c s mem tos fuel fp found = scanLoop 3 s mem tos fuel fp found := by
  induction fuel generalizing fp found with
  | zero => rfl
  | succ n ih => simp only [scanLoop, ih, formatCallStackPair_of_pos h]

theorem callStackScan_of_pos {c : Nat} (h : c > 0) :
    callStackScan c = callStackScan 3 := by
  funext fuel s mem stack excRet
  simp only [callStackScan, scanLoop_of_pos h]

theorem FaultHandler_C_of_pos {c : Nat} (h : c > 0) : FaultHandler_C c = FaultHandler_C 3 := by
  funext fuel s hw r7 stack excRet
  simp only [FaultHandler_C, capturedRegisters_of_pos h, formatRegisters_of_pos h,
    callStackScan_of_pos h]

/-- Either variant: `__CORTEX_M` is zero or positive. -/
theorem variant_cases (c : Nat) : c = 0 ∨ c > 0 := by omega

/-! ## Hexadecimal digits -/

theorem nibbleAt_eq (v k : Nat) : nibbleAt v k = v / 2 ^ k % 16 := by
  unfold nibbleAt
  simp only [Nat.toNat_testBit, pow_add, ← Nat.div_div_eq_div_mul]
  norm_num
  omega

theorem shift_mask_eq (v k : Nat) : (v >>> k) &&& 0xf = v / 2 ^ k % 16 := by
  have h := Nat.and_pow_two_sub_one_eq_mod (v >>> k) 4
  norm_num at h
  rw [h, Nat.shiftRight_eq_div_pow]

theorem getD_hex (d : Nat) (h : d < 16) : hex.getD d NUL = hexDigit d := by
  interval_cases d <;> rfl

theorem hex_lookup (v k : Nat) : hex.getD ((v >>> k) &&& 0xf) NUL = hexDigit (nibbleAt v k) := by
  rw [shift_mask_eq, nibbleAt_eq]
  exact getD_hex _ (Nat.mod_lt _ (by norm_num))

/-! ## Traces and buffers -/

theorem applyTrace_nil (buf : Buffer) : applyTrace buf [] = buf := rfl

theorem applyTrace_cons (buf : Buffer) (e : Event) (tr : List Event) :
    applyTrace buf (e :: tr) = applyTrace (applyEvent buf e) tr := rfl

theorem applyTrace_append (buf : Buffer) (t1 t2 : List Event) :
    applyTrace buf (t1 ++ t2) = applyTrace (applyTrace buf t1) t2 := by
  simp [applyTrace, List.foldl_append]

theorem storeOffsets_append (t1 t2 : List Event) :
    storeOffsets (t1 ++ t2) = storeOffsets t1 ++ storeOffsets t2 := by
  induction t1 with
  | nil => rfl
  | cons e t ih => cases e <;> simp [storeOffsets, ih]

theorem scanReads_append (t1 t2 : List Event) :
    scanReads (t1 ++ t2) = scanReads t1 ++ scanReads t2 := by
  induction t1 with
  | nil => rfl
  | cons e t ih => cases e <;> simp [scanReads, ih]

/-- A byte that no store of the trace addresses keeps its value. -/
theorem applyTrace_of_not_mem (tr : List Event) (buf : Buffer) (j : Nat)
    (h : j ∉ storeOffsets tr) : applyTrace buf tr j = buf j := by
  induction tr generalizing buf with
  | nil => rfl
  | cons e t ih =>
    cases e with
    | store off c =>
      simp only [storeOffsets, List.mem_cons, not_or] at h
      rw [applyTrace_cons, ih _ h.2]
      simp [applyEvent, h.1]
    | readFrame a => exact ih buf h
    | readScan a => exact ih buf h
    | callback p => exact ih buf h
    | reset => exact ih buf h
    | bkpt => exact ih buf h

/-- The loop of `formatRegValue` as one store per hexadecimal digit. -/
theorem formatRegValueLoop_eq (cursor v n i : Nat) :
    formatRegValueLoop cursor v n i
      = (List.range' i n).map fun k =>
          Event.store (cursor + k) (hexDigit (nibbleAt v (28 - 4 * k))) := by
  induction n generalizing i with
  | zero => rfl
  | succ n ih => simp only [formatRegValueLoop, ih, hex_lookup, List.range'_succ, List.map_cons]

/-- The loop of `formatCallStackPair` as two stores per round. -/
theorem formatCallStackPairLoop_eq (cursor a v n i : Nat) :
    formatCallStackPairLoop cursor a v n i
      = (List.range' i n).flatMap fun k =>
          [Event.store (cursor + k) (hexDigit (nibbleAt a (28 - 4 * k))),
           Event.store (cursor + 9 + k) (hexDigit (nibbleAt v (28 - 4 * k)))] := by
  induction n generalizing i with
  | zero => rfl
  | succ n ih =>
    simp only [formatCallStackPairLoop, ih, hex_lookup, List.range'_succ, List.flatMap_cons,
      List.cons_append, List.nil_append]

theorem formatRegValue_eq (index v : Nat) :
    formatRegValue index v
      = (List.range 8).map fun i =>
          Event.store (15 * index + 6 + i) (hexDigit (nibbleAt v (28 - 4 * i))) := by
  simp only [formatRegValue, formatRegValueLoop_eq, List.range_eq_range']

theorem formatCallStackPair_eq (c index a v : Nat) :
    formatCallStackPair c index a v
      = (List.range 8).flatMap fun i =>
          [Event.store (15 * FAULT_HANDLING_CPUREG_COUNT c + 18 * index + i)
             (hexDigit (nibbleAt a (28 - 4 * i))),
           Event.store (15 * FAULT_HANDLING_CPUREG_COUNT c + 18 * index + 9 + i)
             (hexDigit (nibbleAt v (28 - 4 * i)))] := by
  simp only [formatCallStackPair, formatCallStackPairLoop_eq, List.range_eq_range',
    FAULT_HANDLING_CPUREG_ROWSIZE, FAULT_HANDLING_CALLSTACK_ROWSIZE]

theorem hexDigit_mem (d : Nat) (h : d < 16) : hexDigit d ∈ "0123456789ABCDEF".toList := by
  interval_cases d <;> decide

theorem nibbleAt_lt (v k : Nat) : nibbleAt v k < 16 := by
  rw [nibbleAt_eq]
  exact Nat.mod_lt _ (by norm_num)

/-! ## Stack-top selection -/

theorem TOS_eq (s : Statics) (excRet : Nat) :
    TOS s excRet = if excRet.testBit 2 then s.pspTop else s.mspTop := by
  unfold TOS
  have h := Nat.and_two_pow excRet 2
  norm_num at h
  rw [h]
  cases excRet.testBit 2 <;> simp

theorem scanLoop_zero (c : Nat) (s : Statics) (mem : Memory) (tos fp found : Nat) :
    scanLoop c s mem tos 0 fp found = none := rfl

theorem scanLoop_succ (c : Nat) (s : Statics) (mem : Memory) (tos fuel fp found : Nat) :
    scanLoop c s mem tos (fuel + 1) fp found
      = if fp < tos then
          if load mem fp < s.startText ∨ load mem fp > s.endText then
            (scanLoop c s mem tos fuel ((fp + 4) % W32) found).map
              fun tr => Event.readScan fp :: tr
          else if load mem fp &&& 1 = 0 then
            (scanLoop c s mem tos fuel ((fp + 4) % W32) found).map
              fun tr => Event.readScan fp :: tr
          else if found + 1 = FAULT_HANDLING_CALLSTACK_ENTRIES then
            some (Event.readScan fp :: formatCallStackPair c found fp (load mem fp))
          else
            (scanLoop c s mem tos fuel ((fp + 4) % W32) (found + 1)).map
              fun tr => Event.readScan fp :: (formatCallStackPair c found fp (load mem fp) ++ tr)
        else some [] := rfl

theorem scanReads_formatCallStackPair (c index a v : Nat) :
    scanReads (formatCallStackPair c index a v) = [] := by
  rw [formatCallStackPair_eq]
  simp [List.range_succ, scanReads]

/-- Every candidate address read by the scan loop is below the bound it was given. -/
theorem scanLoop_reads_lt (c : Nat) (s : Statics) (mem : Memory) (tos fuel : Nat) :
    ∀ fp found tr, scanLoop c s mem tos fuel fp found = some tr →
      ∀ a ∈ scanReads tr, a < tos := by
  induction fuel with
  | zero => intro fp found tr h; simp [scanLoop_zero] at h
  | succ n ih =>
    intro fp found tr h a ha
    rw [scanLoop_succ] at h
    split_ifs at h with h1 h2 h3 h4
    · simp only [Option.map_eq_some'] at h
      obtain ⟨t, ht, rfl⟩ := h
      simp only [scanReads, List.mem_cons] at ha
      rcases ha with rfl | ha
      · exact h1
      · exact ih _ _ _ ht a ha
    · simp only [Option.map_eq_some'] at h
      obtain ⟨t, ht, rfl⟩ := h
      simp only [scanReads, List.mem_cons] at ha
      rcases ha with rfl | ha
      · exact h1
      · exact ih _ _ _ ht a ha
    · simp only [Option.some.injEq] at h
      subst h
      simp only [scanReads, List.mem_cons, scanReads_formatCallStackPair,
        List.not_mem_nil, or_false] at ha
      subst ha
      exact h1
    · simp only [Option.map_eq_some'] at h
      obtain ⟨t, ht, rfl⟩ := h
      simp only [scanReads, List.mem_cons, scanReads_append, scanReads_formatCallStackPair,
        List.nil_append] at ha
      rcases ha with rfl | ha
      · exact h1
      · exact ih _ _ _ ht a ha
    · simp only [Option.some.injEq] at h
      subst h
      simp [scanReads] at ha

/-! ## The template of either variant -/

set_option maxRecDepth 100000 in
theorem prepare_offsets_cm0 :
    ∀ off ∈ storeOffsets (faultDumpPrepare 0), off < FAULT_HANDLING_DUMP_SIZE 0 := by
  decide

set_option maxRecDepth 100000 in
theorem prepare_offsets_cm3 :
    ∀ off ∈ storeOffsets (faultDumpPrepare 3), off < FAULT_HANDLING_DUMP_SIZE 3 := by
  decide

/-! ## Shape of a run of the handler -/

theorem scanReads_formatRegValue (index v : Nat) : scanReads (formatRegValue index v) = [] := by
  rw [formatRegValue_eq]
  simp [List.range_succ, scanReads]

theorem scanReads_formatRegisters (c : Nat) (regs : List (faultHandlingRegIndex × Nat)) :
    scanReads (formatRegisters c regs) = [] := by
  induction regs with
  | nil => rfl
  | cons rv rest ih =>
    have h : formatRegisters c (rv :: rest)
        = formatRegValue (regIndexValue c rv.1) rv.2 ++ formatRegisters c rest := by
      simp [formatRegisters]
    rw [h, scanReads_append, scanReads_formatRegValue, ih]
    rfl

theorem scanReads_frameReads (stack : Nat) : scanReads (frameReads stack) = [] := by
  simp [frameReads, List.range_succ, scanReads]

theorem scanReads_postFaultDispatch (pfa : Nat) : scanReads (postFaultDispatch pfa).1 = [] := by
  unfold postFaultDispatch
  split_ifs <;> rfl

theorem FaultHandler_C_of_none (c fuel : Nat) (s : Statics) (hw : Hardware)
    (r7 stack excRet : Nat) (h : s.dumpProcessor = none) :
    FaultHandler_C c fuel s hw r7 stack excRet
      = some { trace := [], outcome := Outcome.returned } := by
  simp [FaultHandler_C, h]

theorem FaultHandler_C_of_some (c fuel : Nat) (s : Statics) (hw : Hardware)
    (r7 stack excRet p : Nat) (h : s.dumpProcessor = some p) :
    FaultHandler_C c fuel s hw r7 stack excRet
      = (callStackScan c fuel s hw.mem stack excRet).map fun scan =>
          { trace := frameReads stack
                       ++ formatRegisters c (capturedRegisters c hw r7 stack excRet) ++ scan
                       ++ [Event.callback p] ++ (postFaultDispatch s.postFaultAction).1
            outcome := (postFaultDispatch s.postFaultAction).2 } := by
  simp only [FaultHandler_C, h]
  cases callStackScan c fuel s hw.mem stack excRet <;> rfl

/-- The scan candidates read by a completed run are those of its call-stack scan. -/
theorem FaultHandler_C_scanReads (c fuel : Nat) (s : Statics) (hw : Hardware)
    (r7 stack excRet : Nat) (r : Result)
    (h : FaultHandler_C c fuel s hw r7 stack excRet = some r) :
    scanReads r.trace = [] ∨ ∃ scan, callStackScan c fuel s hw.mem stack excRet = some scan
      ∧ scanReads r.trace = scanReads scan := by
  cases hp : s.dumpProcessor with
  | none =>
    rw [FaultHandler_C_of_none c fuel s hw r7 stack excRet hp] at h
    simp only [Option.some.injEq] at h
    subst h
    exact Or.inl rfl
  | some p =>
    rw [FaultHandler_C_of_some c fuel s hw r7 stack excRet p hp] at h
    simp only [Option.map_eq_some'] at h
    obtain ⟨scan, hs, rfl⟩ := h
    refine Or.inr ⟨scan, hs, ?_⟩
    have hcb : scanReads [Event.callback p] = [] := rfl
    simp only [scanReads_append, scanReads_frameReads, scanReads_formatRegisters,
      scanReads_postFaultDispatch, hcb, List.nil_append, List.append_nil]

theorem FaultHandler_C_reads_lt (c fuel : Nat) (s : Statics) (hw : Hardware)
    (r7 stack excRet : Nat) (r : Result)
    (h : FaultHandler_C c fuel s hw r7 stack excRet = some r) :
    ∀ a ∈ scanReads r.trace, a < TOS s excRet := by
  intro a ha
  rcases FaultHandler_C_scanReads c fuel s hw r7 stack excRet r h with h0 | ⟨scan, hs, he⟩
  · rw [h0] at ha
    cases ha
  · rw [he] at ha
    unfold callStackScan at hs
    split_ifs at hs
    · exact scanLoop_reads_lt c s hw.mem _ fuel _ _ scan hs a ha
    · simp only [Option.some.injEq] at hs
      subst hs
      cases ha

/-! ## Slices of the buffer -/

theorem applyTrace_eq_lastStore (tr : List Event) (buf : Buffer) (j : Nat) :
    applyTrace buf tr j = (lastStore tr j).getD (buf j) := by
  induction tr generalizing buf with
  | nil => rfl
  | cons e t ih =>
    cases e with
    | store off c =>
      rw [applyTrace_cons, ih]
      simp only [lastStore, applyEvent]
      cases lastStore t j with
      | some d => rfl
      | none =>
        by_cases hj : j = off
        · simp [hj]
        · simp [hj]
    | readFrame a => exact ih buf
    | readScan a => exact ih buf
    | callback p => exact ih buf
    | reset => exact ih buf
    | bkpt => exact ih buf

/-- A slice of which every byte was stored by the trace reads what was stored. -/
theorem bufferSlice_of_stored (tr : List Event) (buf : Buffer) (start len : Nat)
    (l : List Char) (h : storedSlice tr start len = l.map some) :
    bufferSlice (applyTrace buf tr) start len = l := by
  have hlen : len = l.length := by
    have := congrArg List.length h
    simpa [storedSlice] using this
  apply List.ext_getElem
  · simp [bufferSlice, hlen]
  · intro n h1 h2
    have hn : n < len := by simpa [bufferSlice] using h1
    have h3 : (storedSlice tr start len)[n]? = (l.map some)[n]? := by rw [h]
    simp only [storedSlice, List.getElem?_map, List.getElem?_range hn, Option.map_some',
      List.getElem?_eq_getElem h2] at h3
    simp only [bufferSlice, List.getElem_map, List.getElem_range, applyTrace_eq_lastStore]
    rw [Option.some.inj h3]
    rfl

/-- A slice that no store of the trace touches keeps its bytes. -/
theorem bufferSlice_frame (tr : List Event) (buf : Buffer) (start len : Nat)
    (h : ∀ off ∈ storeOffsets tr, off < start ∨ start + len ≤ off) :
    bufferSlice (applyTrace buf tr) start len = bufferSlice buf start len := by
  unfold bufferSlice
  apply List.map_congr_left
  intro k hk
  have hk' : k < len := List.mem_range.mp hk
  apply applyTrace_of_not_mem
  intro hmem
  have := h _ hmem
  omega

theorem bufferSlice_add (buf : Buffer) (start a b : Nat) :
    bufferSlice buf start (a + b) = bufferSlice buf start a ++ bufferSlice buf (start + a) b := by
  simp only [bufferSlice, List.range_add, List.map_append, List.map_map]
  congr 1
  apply List.map_congr_left
  intro k _
  simp [Nat.add_assoc]

theorem bufferBytes_eq_slice (buf : Buffer) (n : Nat) : bufferBytes buf n = bufferSlice buf 0 n := by
  simp [bufferBytes, bufferSlice]

/-- A table of rows of equal width reads row by row. -/
theorem bufferSlice_rows (buf : Buffer) (w : Nat) (rows : List (List Char)) (start : Nat)
    (h : ∀ i (hi : i < rows.length), bufferSlice buf (start + w * i) w = rows[i]) :
    bufferSlice buf start (w * rows.length) = rows.flatten := by
  induction rows generalizing start with
  | nil => simp [bufferSlice]
  | cons r rest ih =>
    have h0 := h 0 (by simp)
    simp only [Nat.mul_zero, Nat.add_zero, List.getElem_cons_zero] at h0
    have hrest : bufferSlice buf (start + w) (w * rest.length) = rest.flatten := by
      apply ih
      intro i hi
      have := h (i + 1) (by simpa using hi)
      simp only [List.getElem_cons_succ] at this
      rw [← this]
      congr 1
      rw [Nat.mul_add, Nat.mul_one]
      omega
    rw [List.length_cons, Nat.mul_add, Nat.mul_one, Nat.add_comm (w * rest.length) w,
      bufferSlice_add, h0, hrest, List.flatten_cons]

theorem storeOffsets_formatRegValue (index v : Nat) :
    storeOffsets (formatRegValue index v) = List.range' (15 * index + 6) 8 := by
  rw [formatRegValue_eq]
  simp [List.range_succ, storeOffsets, List.range']

theorem mem_storeOffsets_formatRegValue (index v off : Nat)
    (h : off ∈ storeOffsets (formatRegValue index v)) :
    15 * index + 6 ≤ off ∧ off < 15 * index + 14 := by
  rw [storeOffsets_formatRegValue, List.mem_range'_1] at h
  omega

theorem mem_storeOffsets_formatCallStackPair (c index a v off : Nat)
    (h : off ∈ storeOffsets (formatCallStackPair c index a v)) :
    (15 * FAULT_HANDLING_CPUREG_COUNT c + 18 * index ≤ off
        ∧ off < 15 * FAULT_HANDLING_CPUREG_COUNT c + 18 * index + 8)
      ∨ (15 * FAULT_HANDLING_CPUREG_COUNT c + 18 * index + 9 ≤ off
        ∧ off < 15 * FAULT_HANDLING_CPUREG_COUNT c + 18 * index + 17) := by
  rw [formatCallStackPair_eq] at h
  simp only [List.range_succ, List.range_zero, List.nil_append, List.flatMap_cons,
    List.flatMap_nil, List.cons_append, List.flatMap_append, List.append_nil,
    storeOffsets, List.mem_cons, List.not_mem_nil, or_false] at h
  omega

theorem slice_formatRegValue (buf : Buffer) (index v : Nat) :
    bufferSlice (applyTrace buf (formatRegValue index v)) (15 * index + 6) 8 = hex8 v := by
  rw [formatRegValue_eq]
  simp [bufferSlice, hex8, List.range_succ, applyTrace, applyEvent, Nat.add_assoc]

theorem slice_formatCallStackPair_addr (buf : Buffer) (c index a v : Nat) :
    bufferSlice (applyTrace buf (formatCallStackPair c index a v))
      (15 * FAULT_HANDLING_CPUREG_COUNT c + 18 * index) 8 = hex8 a := by
  rw [formatCallStackPair_eq]
  simp [bufferSlice, hex8, List.range_succ, applyTrace, applyEvent, Nat.add_assoc]

theorem slice_formatCallStackPair_val (buf : Buffer) (c index a v : Nat) :
    bufferSlice (applyTrace buf (formatCallStackPair c index a v))
      (15 * FAULT_HANDLING_CPUREG_COUNT c + 18 * index + 9) 8 = hex8 v := by
  rw [formatCallStackPair_eq]
  simp [bufferSlice, hex8, List.range_succ, applyTrace, applyEvent, Nat.add_assoc]

/-! ## Register rows and call-stack rows written at fault time -/

theorem formatRegisters_cons (c : Nat) (rv : faultHandlingRegIndex × Nat)
    (rest : List (faultHandlingRegIndex × Nat)) :
    formatRegisters c (rv :: rest)
      = formatRegValue (regIndexValue c rv.1) rv.2 ++ formatRegisters c rest := by
  simp [formatRegisters]

theorem mem_storeOffsets_formatRegisters (c : Nat) (regs : List (faultHandlingRegIndex × Nat))
    (off : Nat) (h : off ∈ storeOffsets (formatRegisters c regs)) :
    ∃ rv ∈ regs, 15 * regIndexValue c rv.1 + 6 ≤ off ∧ off < 15 * regIndexValue c rv.1 + 14 := by
  induction regs with
  | nil => cases h
  | cons rv rest ih =>
    rw [formatRegisters_cons, storeOffsets_append, List.mem_append] at h
    rcases h with h | h
    · exact ⟨rv, List.mem_cons_self _ _, mem_storeOffsets_formatRegValue _ _ _ h⟩
    · obtain ⟨rv', hm, hb⟩ := ih h
      exact ⟨rv', List.mem_cons_of_mem _ hm, hb⟩

/-- Each formatted register fills the hole of its own row with its hexadecimal value. -/
theorem slice_formatRegisters (c : Nat) (regs : List (faultHandlingRegIndex × Nat))
    (hnd : (regs.map fun rv => regIndexValue c rv.1).Nodup) (buf : Buffer)
    (rv : faultHandlingRegIndex × Nat) (hrv : rv ∈ regs) :
    bufferSlice (applyTrace buf (formatRegisters c regs)) (15 * regIndexValue c rv.1 + 6) 8
      = hex8 rv.2 := by
  induction regs generalizing buf with
  | nil => cases hrv
  | cons hd rest ih =>
    rw [formatRegisters_cons, applyTrace_append]
    rw [List.map_cons, List.nodup_cons] at hnd
    by_cases hin : rv ∈ rest
    · exact ih hnd.2 _ hin
    · have heq : rv = hd := by
        rcases List.mem_cons.mp hrv with h | h
        · exact h
        · exact absurd h hin
      subst heq
      rw [bufferSlice_frame, slice_formatRegValue]
      intro off hoff
      obtain ⟨rv', hm, hb⟩ := mem_storeOffsets_formatRegisters c rest off hoff
      have hne : regIndexValue c rv'.1 ≠ regIndexValue c rv.1 := by
        intro he
        apply hnd.1
        rw [← he]
        exact List.mem_map_of_mem (fun rv => regIndexValue c rv.1) hm
      omega

theorem mem_storeOffsets_callEntriesTrace (c : Nat) (E : List (Nat × Nat)) (j0 off : Nat)
    (h : off ∈ storeOffsets (callEntriesTrace c j0 E)) :
    ∃ m, m < E.length
      ∧ ((15 * FAULT_HANDLING_CPUREG_COUNT c + 18 * (j0 + m) ≤ off
          ∧ off < 15 * FAULT_HANDLING_CPUREG_COUNT c + 18 * (j0 + m) + 8)
        ∨ (15 * FAULT_HANDLING_CPUREG_COUNT c + 18 * (j0 + m) + 9 ≤ off
          ∧ off < 15 * FAULT_HANDLING_CPUREG_COUNT c + 18 * (j0 + m) + 17)) := by
  induction E generalizing j0 with
  | nil => cases h
  | cons e es ih =>
    simp only [callEntriesTrace, storeOffsets_append, List.mem_append] at h
    rcases h with h | h
    · exact ⟨0, by simp, mem_storeOffsets_formatCallStackPair c j0 e.1 e.2 off h⟩
    · obtain ⟨m, hm, hb⟩ := ih (j0 + 1) h
      refine ⟨m + 1, by simpa using hm, ?_⟩
      have e1 : j0 + (m + 1) = j0 + 1 + m := by omega
      rw [e1]
      exact hb

/-- Each recorded entry fills the two holes of its own call-stack row. -/
theorem slice_callEntriesTrace (c : Nat) (E : List (Nat × Nat)) (j0 : Nat) (buf : Buffer)
    (m : Nat) (hm : m < E.length) :
    bufferSlice (applyTrace buf (callEntriesTrace c j0 E))
        (15 * FAULT_HANDLING_CPUREG_COUNT c + 18 * (j0 + m)) 8 = hex8 E[m].1
      ∧ bufferSlice (applyTrace buf (callEntriesTrace c j0 E))
        (15 * FAULT_HANDLING_CPUREG_COUNT c + 18 * (j0 + m) + 9) 8 = hex8 E[m].2 := by
  induction E generalizing j0 buf m with
  | nil => cases hm
  | cons e es ih =>
    simp only [callEntriesTrace, applyTrace_append]
    cases m with
    | zero =>
      simp only [Nat.add_zero, List.getElem_cons_zero]
      constructor
      · rw [bufferSlice_frame, slice_formatCallStackPair_addr]
        intro off hoff
        obtain ⟨k, _, hb⟩ := mem_storeOffsets_callEntriesTrace c es (j0 + 1) off hoff
        omega
      · rw [bufferSlice_frame, slice_formatCallStackPair_val]
        intro off hoff
        obtain ⟨k, _, hb⟩ := mem_storeOffsets_callEntriesTrace c es (j0 + 1) off hoff
        omega
    | succ k =>
      have hk : k < es.length := by simpa using hm
      have e1 : j0 + (k + 1) = j0 + 1 + k := by omega
      simp only [List.getElem_cons_succ, e1]
      exact ih (j0 + 1) _ k hk

/-! ## The template laid out by `faultDumpPrepare` -/

set_option maxRecDepth 100000 in
theorem template_cm0 :
    (∀ i, i < 13 →
        storedSlice (faultDumpPrepare 0) (15 * i) 6
            = ((dumpLabel ((dumpOrder 0).getD i R7)).toList ++ [' ']).map some
          ∧ storedSlice (faultDumpPrepare 0) (15 * i + 14) 1 = [some '\n'])
      ∧ (∀ j, j < 4 →
        storedSlice (faultDumpPrepare 0) (15 * 13 + 18 * j) 18
            = (callStackRowText (0, 0)).map some
          ∧ storedSlice (faultDumpPrepare 0) (15 * 13 + 18 * j + 8) 1 = [some ' ']
          ∧ storedSlice (faultDumpPrepare 0) (15 * 13 + 18 * j + 17) 1 = [some '\n'])
      ∧ storedSlice (faultDumpPrepare 0) (15 * 13 + 72) 1 = [some NUL] := by
  decide

set_option maxRecDepth 100000 in
theorem template_cm3 :
    (∀ i, i < 17 →
        storedSlice (faultDumpPrepare 3) (15 * i) 6
            = ((dumpLabel ((dumpOrder 3).getD i R7)).toList ++ [' ']).map some
          ∧ storedSlice (faultDumpPrepare 3) (15 * i + 14) 1 = [some '\n'])
      ∧ (∀ j, j < 4 →
        storedSlice (faultDumpPrepare 3) (15 * 17 + 18 * j) 18
            = (callStackRowText (0, 0)).map some
          ∧ storedSlice (faultDumpPrepare 3) (15 * 17 + 18 * j + 8) 1 = [some ' ']
          ∧ storedSlice (faultDumpPrepare 3) (15 * 17 + 18 * j + 17) 1 = [some '\n'])
      ∧ storedSlice (faultDumpPrepare 3) (15 * 17 + 72) 1 = [some NUL] := by
  decide

theorem cpuregCount_cases (c : Nat) (hc : c = 0 ∨ c = 3) :
    (c = 0 ∧ FAULT_HANDLING_CPUREG_COUNT c = 13) ∨ (c = 3 ∧ FAULT_HANDLING_CPUREG_COUNT c = 17) := by
  rcases hc with rfl | rfl
  · exact Or.inl ⟨rfl, rfl⟩
  · exact Or.inr ⟨rfl, rfl⟩

/-- The template, for either variant, in terms of the rows of the dump. -/
theorem template_rows (c : Nat) (hc : c = 0 ∨ c = 3) (buf0 : Buffer) :
    (∀ i, i < FAULT_HANDLING_CPUREG_COUNT c →
        bufferSlice (applyTrace buf0 (faultDumpPrepare c)) (15 * i) 6
            = (dumpLabel ((dumpOrder c).getD i R7)).toList ++ [' ']
          ∧ bufferSlice (applyTrace buf0 (faultDumpPrepare c)) (15 * i + 14) 1 = ['\n'])
      ∧ (∀ j, j < 4 →
        bufferSlice (applyTrace buf0 (faultDumpPrepare c))
            (15 * FAULT_HANDLING_CPUREG_COUNT c + 18 * j) 18 = callStackRowText (0, 0)
          ∧ bufferSlice (applyTrace buf0 (faultDumpPrepare c))
            (15 * FAULT_HANDLING_CPUREG_COUNT c + 18 * j + 8) 1 = [' ']
          ∧ bufferSlice (applyTrace buf0 (faultDumpPrepare c))
            (15 * FAULT_HANDLING_CPUREG_COUNT c + 18 * j + 17) 1 = ['\n'])
      ∧ bufferSlice (applyTrace buf0 (faultDumpPrepare c))
            (15 * FAULT_HANDLING_CPUREG_COUNT c + 72) 1 = [NUL] := by
  rcases cpuregCount_cases c hc with ⟨rfl, hn⟩ | ⟨rfl, hn⟩
  · rw [hn]
    obtain ⟨h1, h2, h3⟩ := template_cm0
    refine ⟨fun i hi => ⟨?_, ?_⟩, fun j hj => ⟨?_, ?_, ?_⟩, ?_⟩
    · exact bufferSlice_of_stored _ _ _ _ _ (h1 i hi).1
    · exact bufferSlice_of_stored _ _ _ _ _ (h1 i hi).2
    · exact bufferSlice_of_stored _ _ _ _ _ (h2 j hj).1
    · exact bufferSlice_of_stored _ _ _ _ _ (h2 j hj).2.1
    · exact bufferSlice_of_stored _ _ _ _ _ (h2 j hj).2.2
    · exact bufferSlice_of_stored _ _ _ _ _ h3
  · rw [hn]
    obtain ⟨h1, h2, h3⟩ := template_cm3
    refine ⟨fun i hi => ⟨?_, ?_⟩, fun j hj => ⟨?_, ?_, ?_⟩, ?_⟩
    · exact bufferSlice_of_stored _ _ _ _ _ (h1 i hi).1
    · exact bufferSlice_of_stored _ _ _ _ _ (h1 i hi).2
    · exact bufferSlice_of_stored _ _ _ _ _ (h2 j hj).1
    · exact bufferSlice_of_stored _ _ _ _ _ (h2 j hj).2.1
    · exact bufferSlice_of_stored _ _ _ _ _ (h2 j hj).2.2
    · exact bufferSlice_of_stored _ _ _ _ _ h3

/-- The registers formatted at fault time are those of the dump order, each with its value. -/
theorem capturedRegisters_eq (c : Nat) (hc : c = 0 ∨ c = 3) (hw : Hardware)
    (r7 stack excRet : Nat) :
    capturedRegisters c hw r7 stack excRet
      = (dumpOrder c).map fun r => (r, capturedValue hw r7 stack excRet r) := by
  rcases hc with rfl | rfl <;> rfl

theorem dumpOrder_index (c : Nat) (hc : c = 0 ∨ c = 3) :
    (dumpOrder c).map (regIndexValue c) = List.range (FAULT_HANDLING_CPUREG_COUNT c) := by
  rcases hc with rfl | rfl <;> decide

theorem dumpOrder_length (c : Nat) (hc : c = 0 ∨ c = 3) :
    (dumpOrder c).length = FAULT_HANDLING_CPUREG_COUNT c := by
  rcases hc with rfl | rfl <;> decide

/-! ## Layout of the dump after the stores of a fault -/

theorem regIndexValue_dumpOrder (c : Nat) (hc : c = 0 ∨ c = 3) (i : Nat)
    (hi : i < (dumpOrder c).length) : regIndexValue c (dumpOrder c)[i] = i := by
  have h := dumpOrder_index c hc
  have h2 : ((dumpOrder c).map (regIndexValue c))[i]? 
      = (List.range (FAULT_HANDLING_CPUREG_COUNT c))[i]? := by rw [h]
  rw [dumpOrder_length c hc] at hi
  simpa [List.getElem?_range hi, List.getElem?_map, dumpOrder_length c hc, hi] using h2

theorem storeOffsets_registers_bound (c : Nat) (hc : c = 0 ∨ c = 3) (hw : Hardware)
    (r7 stack excRet off : Nat)
    (h : off ∈ storeOffsets (formatRegisters c (capturedRegisters c hw r7 stack excRet))) :
    ∃ i, i < FAULT_HANDLING_CPUREG_COUNT c ∧ 15 * i + 6 ≤ off ∧ off < 15 * i + 14 := by
  obtain ⟨rv, hm, hb⟩ := mem_storeOffsets_formatRegisters c _ off h
  refine ⟨regIndexValue c rv.1, ?_, hb⟩
  rw [capturedRegisters_eq c hc, List.mem_map] at hm
  obtain ⟨r, hr, rfl⟩ := hm
  have : regIndexValue c r ∈ (dumpOrder c).map (regIndexValue c) := List.mem_map_of_mem _ hr
  rw [dumpOrder_index c hc] at this
  exact List.mem_range.mp this

/-- The hole of register row `i` after the registers are formatted. -/
theorem slice_registers (c : Nat) (hc : c = 0 ∨ c = 3) (hw : Hardware) (r7 stack excRet : Nat)
    (buf : Buffer) (i : Nat) (hi : i < (dumpOrder c).length) :
    bufferSlice (applyTrace buf (formatRegisters c (capturedRegisters c hw r7 stack excRet)))
        (15 * i + 6) 8
      = hex8 (capturedValue hw r7 stack excRet (dumpOrder c)[i]) := by
  have hnd : ((capturedRegisters c hw r7 stack excRet).map
      fun rv => regIndexValue c rv.1).Nodup := by
    rw [capturedRegisters_eq c hc, List.map_map]
    have : ((fun rv : faultHandlingRegIndex × Nat => regIndexValue c rv.1)
        ∘ fun r => (r, capturedValue hw r7 stack excRet r)) = regIndexValue c := rfl
    rw [this, dumpOrder_index c hc]
    exact List.nodup_range _
  have hmem : ((dumpOrder c)[i], capturedValue hw r7 stack excRet (dumpOrder c)[i])
      ∈ capturedRegisters c hw r7 stack excRet := by
    rw [capturedRegisters_eq c hc]
    exact List.mem_map_of_mem _ (List.getElem_mem hi)
  have := slice_formatRegisters c _ hnd buf _ hmem
  simpa only [regIndexValue_dumpOrder c hc i hi] using this

/-- Register row `i` after the template and the stores of one fault. -/
theorem registerRow_layout (c : Nat) (hc : c = 0 ∨ c = 3) (buf0 : Buffer) (hw : Hardware)
    (r7 stack excRet : Nat) (E : List (Nat × Nat)) (i : Nat) (hi : i < (dumpOrder c).length) :
    bufferSlice (applyTrace (applyTrace buf0 (faultDumpPrepare c))
        (formatRegisters c (capturedRegisters c hw r7 stack excRet) ++ callEntriesTrace c 0 E))
        (15 * i) 15
      = registerRowText (dumpLabel (dumpOrder c)[i])
          (capturedValue hw r7 stack excRet (dumpOrder c)[i]) := by
  have hn := dumpOrder_length c hc
  have hi' : i < FAULT_HANDLING_CPUREG_COUNT c := hn ▸ hi
  obtain ⟨ht, -, -⟩ := template_rows c hc buf0
  have hframe : ∀ start len, (start + len ≤ 15 * i + 6 ∨ 15 * i + 14 ≤ start) →
      start + len ≤ 15 * FAULT_HANDLING_CPUREG_COUNT c →
      bufferSlice (applyTrace (applyTrace buf0 (faultDumpPrepare c))
        (formatRegisters c (capturedRegisters c hw r7 stack excRet) ++ callEntriesTrace c 0 E))
        start len = bufferSlice (applyTrace buf0 (faultDumpPrepare c)) start len
        ∨ ∃ i2, i2 ≠ i ∧ 15 * i2 + 6 < start + len ∧ start < 15 * i2 + 14 := by
    intro start len h1 h2
    by_cases hex : ∃ i2, i2 ≠ i ∧ 15 * i2 + 6 < start + len ∧ start < 15 * i2 + 14
    · exact Or.inr hex
    · left
      apply bufferSlice_frame
      intro off hoff
      rw [storeOffsets_append, List.mem_append] at hoff
      rcases hoff with hoff | hoff
      · obtain ⟨i2, _, hb⟩ := storeOffsets_registers_bound c hc hw r7 stack excRet off hoff
        by_cases he : i2 = i
        · subst he; omega
        · by_contra hcon
          exact hex ⟨i2, he, by omega, by omega⟩
      · obtain ⟨m, _, hb⟩ := mem_storeOffsets_callEntriesTrace c E 0 off hoff
        omega
  have e15 : (15 : Nat) = 6 + 8 + 1 := rfl
  rw [e15, bufferSlice_add, bufferSlice_add]
  have ha : bufferSlice (applyTrace (applyTrace buf0 (faultDumpPrepare c))
        (formatRegisters c (capturedRegisters c hw r7 stack excRet) ++ callEntriesTrace c 0 E))
        (15 * i) 6 = (dumpLabel (dumpOrder c)[i]).toList ++ [' '] := by
    rcases hframe (15 * i) 6 (by omega) (by omega) with h | ⟨i2, hne, h1, h2⟩
    · rw [h, (ht i hi').1, List.getD_eq_getElem _ _ hi]
    · omega
  have hb : bufferSlice (applyTrace (applyTrace buf0 (faultDumpPrepare c))
        (formatRegisters c (capturedRegisters c hw r7 stack excRet) ++ callEntriesTrace c 0 E))
        (15 * i + 6) 8 = hex8 (capturedValue hw r7 stack excRet (dumpOrder c)[i]) := by
    rw [applyTrace_append, bufferSlice_frame, slice_registers c hc hw r7 stack excRet _ i hi]
    intro off hoff
    obtain ⟨m, _, hb⟩ := mem_storeOffsets_callEntriesTrace c E 0 off hoff
    omega
  have hcc : bufferSlice (applyTrace (applyTrace buf0 (faultDumpPrepare c))
        (formatRegisters c (capturedRegisters c hw r7 stack excRet) ++ callEntriesTrace c 0 E))
        (15 * i + 6 + 8) 1 = ['\n'] := by
    rcases hframe (15 * i + 6 + 8) 1 (by omega) (by omega) with h | ⟨i2, hne, h1, h2⟩
    · rw [h]
      exact (ht i hi').2
    · omega
  rw [ha, hb, hcc]
  rfl

theorem bufferSlice_split18 (buf : Buffer) (s : Nat) :
    bufferSlice buf s 18
      = bufferSlice buf s 8 ++ bufferSlice buf (s + 8) 1 ++ bufferSlice buf (s + 9) 8
          ++ bufferSlice buf (s + 17) 1 := by
  simp [bufferSlice, List.range_succ]

/-- Call-stack row `j` after the template and the stores of one fault. -/
theorem callStackRow_layout (c : Nat) (hc : c = 0 ∨ c = 3) (buf0 : Buffer) (hw : Hardware)
    (r7 stack excRet : Nat) (E : List (Nat × Nat)) (j : Nat) (hj : j < 4) :
    bufferSlice (applyTrace (applyTrace buf0 (faultDumpPrepare c))
        (formatRegisters c (capturedRegisters c hw r7 stack excRet) ++ callEntriesTrace c 0 E))
        (15 * FAULT_HANDLING_CPUREG_COUNT c + 18 * j) 18
      = callStackRowText ((E ++ List.replicate (4 - E.length) (0, 0)).getD j (0, 0)) := by
  obtain ⟨-, ht, -⟩ := template_rows c hc buf0
  have hsep : ∀ k, (k = 8 ∨ k = 17) →
      bufferSlice (applyTrace (applyTrace buf0 (faultDumpPrepare c))
        (formatRegisters c (capturedRegisters c hw r7 stack excRet) ++ callEntriesTrace c 0 E))
        (15 * FAULT_HANDLING_CPUREG_COUNT c + 18 * j + k) 1
      = bufferSlice (applyTrace buf0 (faultDumpPrepare c))
        (15 * FAULT_HANDLING_CPUREG_COUNT c + 18 * j + k) 1 := by
    intro k hk
    apply bufferSlice_frame
    intro off hoff
    rw [storeOffsets_append, List.mem_append] at hoff
    rcases hoff with hoff | hoff
    · obtain ⟨i2, _, hb⟩ := storeOffsets_registers_bound c hc hw r7 stack excRet off hoff
      omega
    · obtain ⟨m, _, hb⟩ := mem_storeOffsets_callEntriesTrace c E 0 off hoff
      omega
  by_cases hlt : j < E.length
  · have hget : (E ++ List.replicate (4 - E.length) (0, 0)).getD j (0, 0) = E[j] := by
      rw [List.getD_eq_getElem _ _ (by simp; omega), List.getElem_append_left hlt]
    rw [hget]
    have hh := slice_callEntriesTrace c E 0
      (applyTrace (applyTrace buf0 (faultDumpPrepare c))
        (formatRegisters c (capturedRegisters c hw r7 stack excRet))) j hlt
    rw [Nat.zero_add, ← applyTrace_append] at hh
    rw [bufferSlice_split18, hh.1, hh.2, hsep 8 (Or.inl rfl), hsep 17 (Or.inr rfl),
      (ht j hj).2.1, (ht j hj).2.2]
    rfl
  · have hget : (E ++ List.replicate (4 - E.length) (0, 0)).getD j (0, 0) = (0, 0) := by
      by_cases hj2 : j < (E ++ List.replicate (4 - E.length) (0, 0)).length
      · rw [List.getD_eq_getElem _ _ hj2, List.getElem_append_right (by omega)]
        simp
      · rw [List.getD_eq_default _ _ (by omega)]
    rw [hget, bufferSlice_frame, (ht j hj).1]
    intro off hoff
    rw [storeOffsets_append, List.mem_append] at hoff
    rcases hoff with hoff | hoff
    · obtain ⟨i2, _, hb⟩ := storeOffsets_registers_bound c hc hw r7 stack excRet off hoff
      omega
    · obtain ⟨m, _, hb⟩ := mem_storeOffsets_callEntriesTrace c E 0 off hoff
      omega

/-- The whole dump after the template and the stores of one fault: the register rows with the
captured values, the recorded entries, zero rows for the rest, and the terminator. -/
theorem dump_layout (c : Nat) (hc : c = 0 ∨ c = 3) (buf0 : Buffer) (hw : Hardware)
    (r7 stack excRet : Nat) (E : List (Nat × Nat)) (hE : E.length ≤ 4) :
    bufferBytes (applyTrace (applyTrace buf0 (faultDumpPrepare c))
        (formatRegisters c (capturedRegisters c hw r7 stack excRet) ++ callEntriesTrace c 0 E))
        (FAULT_HANDLING_DUMP_SIZE c)
      = dumpRecord c hw r7 stack excRet (E ++ List.replicate (4 - E.length) (0, 0)) := by
  have hn := dumpOrder_length c hc
  have hsize : FAULT_HANDLING_DUMP_SIZE c
      = 15 * ((dumpOrder c).map fun r => registerRowText (dumpLabel r)
            (capturedValue hw r7 stack excRet r)).length
        + 18 * ((E ++ List.replicate (4 - E.length) (0, 0)).map callStackRowText).length
        + 1 := by
    simp only [List.length_map, hn, List.length_append, List.length_replicate,
      FAULT_HANDLING_DUMP_SIZE, FAULT_HANDLING_CPUREG_ROWSIZE, FAULT_HANDLING_CALLSTACK_ENTRIES,
      FAULT_HANDLING_CALLSTACK_ROWSIZE]
    omega
  rw [bufferBytes_eq_slice, hsize, bufferSlice_add, bufferSlice_add, dumpRecord,
    List.flatMap_def, List.flatMap_def]
  congr 1
  · congr 1
    · apply bufferSlice_rows
      intro i hi
      have hi' : i < (dumpOrder c).length := by simpa using hi
      rw [Nat.zero_add, List.getElem_map]
      exact registerRow_layout c hc buf0 hw r7 stack excRet E i hi'
    · apply bufferSlice_rows
      intro j hj
      have hj' : j < 4 := by
        simp only [List.length_map, List.length_append, List.length_replicate] at hj
        omega
      have hlen : j < (E ++ List.replicate (4 - E.length) (0, 0)).length := by simpa using hj
      rw [List.getElem_map, ← List.getD_eq_getElem _ (0, 0) hlen]
      simp only [Nat.zero_add, List.length_map, hn]
      exact callStackRow_layout c hc buf0 hw r7 stack excRet E j hj'
  · obtain ⟨-, -, ht⟩ := template_rows c hc buf0
    have hlen : (E ++ List.replicate (4 - E.length) (0, 0)).length = 4 := by
      simp only [List.length_append, List.length_replicate]
      omega
    simp only [Nat.zero_add, List.length_map, hn, hlen]
    rw [bufferSlice_frame, ht]
    intro off hoff
    rw [storeOffsets_append, List.mem_append] at hoff
    rcases hoff with hoff | hoff
    · obtain ⟨i2, _, hb⟩ := storeOffsets_registers_bound c hc hw r7 stack excRet off hoff
      omega
    · obtain ⟨m, hm, hb⟩ := mem_storeOffsets_callEntriesTrace c E 0 off hoff
      omega

/-! ## The stores of a run -/

theorem stores_append (t1 t2 : List Event) : stores (t1 ++ t2) = stores t1 ++ stores t2 := by
  induction t1 with
  | nil => rfl
  | cons e t ih => cases e <;> simp [stores, ih]

theorem applyTrace_stores (tr : List Event) (buf : Buffer) :
    applyTrace buf tr = applyTrace buf (stores tr) := by
  induction tr generalizing buf with
  | nil => rfl
  | cons e t ih =>
    cases e with
    | store off ch => exact ih _
    | readFrame a => exact ih buf
    | readScan a => exact ih buf
    | callback p => exact ih buf
    | reset => exact ih buf
    | bkpt => exact ih buf

theorem stores_formatRegValue (index v : Nat) :
    stores (formatRegValue index v) = formatRegValue index v := by
  rw [formatRegValue_eq]
  simp [List.range_succ, stores]

theorem stores_formatCallStackPair (c index a v : Nat) :
    stores (formatCallStackPair c index a v) = formatCallStackPair c index a v := by
  rw [formatCallStackPair_eq]
  simp [List.range_succ, stores]

theorem stores_formatRegisters (c : Nat) (regs : List (faultHandlingRegIndex × Nat)) :
    stores (formatRegisters c regs) = formatRegisters c regs := by
  induction regs with
  | nil => rfl
  | cons rv rest ih => rw [formatRegisters_cons, stores_append, stores_formatRegValue, ih]

theorem stores_frameReads (stack : Nat) : stores (frameReads stack) = [] := by
  simp [frameReads, List.range_succ, stores]

theorem stores_postFaultDispatch (pfa : Nat) : stores (postFaultDispatch pfa).1 = [] := by
  unfold postFaultDispatch
  split_ifs <;> rfl

theorem qualifies_iff (s : Statics) (val : Nat) :
    qualifies s.startText s.endText val = true
      ↔ ¬(val < s.startText ∨ val > s.endText) ∧ ¬(val &&& 1 = 0) := by
  simp only [qualifies, decide_eq_true_eq, Nat.and_one_is_mod]
  omega

theorem recordedEntries_cons (s : Statics) (mem : Memory) (a : Nat) (reads : List Nat) :
    recordedEntries s mem (a :: reads)
      = if qualifies s.startText s.endText (load mem a) = true then
          (a, load mem a) :: recordedEntries s mem reads
        else recordedEntries s mem reads := by
  unfold recordedEntries
  by_cases h : qualifies s.startText s.endText (load mem a) = true
  · simp [List.filter_cons, h]
  · simp [List.filter_cons, h]

theorem scanReads_cons_readScan (a : Nat) (tr : List Event) :
    scanReads (Event.readScan a :: tr) = a :: scanReads tr := rfl

theorem stores_cons_readScan (a : Nat) (tr : List Event) :
    stores (Event.readScan a :: tr) = stores tr := rfl

/-- The stores of a completed scan are one `formatCallStackPair` per qualifying word examined,
written to consecutive rows, and no more rows are written than remain. -/
theorem scanLoop_stores (c : Nat) (s : Statics) (mem : Memory) (tos fuel : Nat) :
    ∀ fp found tr, found < 4 → scanLoop c s mem tos fuel fp found = some tr →
      stores tr = callEntriesTrace c found (recordedEntries s mem (scanReads tr))
        ∧ (recordedEntries s mem (scanReads tr)).length + found ≤ 4 := by
  induction fuel with
  | zero => intro fp found tr _ h; simp [scanLoop_zero] at h
  | succ n ih =>
    intro fp found tr hf h
    rw [scanLoop_succ] at h
    split_ifs at h with h1 h2 h3 h4
    · simp only [Option.map_eq_some'] at h
      obtain ⟨t, ht, rfl⟩ := h
      have hq : ¬ qualifies s.startText s.endText (load mem fp) = true := by
        rw [qualifies_iff]; tauto
      rw [scanReads_cons_readScan, stores_cons_readScan, recordedEntries_cons, if_neg hq]
      exact ih _ _ _ hf ht
    · simp only [Option.map_eq_some'] at h
      obtain ⟨t, ht, rfl⟩ := h
      have hq : ¬ qualifies s.startText s.endText (load mem fp) = true := by
        rw [qualifies_iff]; tauto
      rw [scanReads_cons_readScan, stores_cons_readScan, recordedEntries_cons, if_neg hq]
      exact ih _ _ _ hf ht
    · simp only [Option.some.injEq] at h
      subst h
      have hq : qualifies s.startText s.endText (load mem fp) = true := by
        rw [qualifies_iff]; exact ⟨h2, h3⟩
      rw [scanReads_cons_readScan, stores_cons_readScan, recordedEntries_cons, if_pos hq,
        scanReads_formatCallStackPair, stores_formatCallStackPair]
      have h4' : found + 1 = 4 := h4
      simp [recordedEntries, callEntriesTrace]
      omega
    · simp only [Option.map_eq_some'] at h
      obtain ⟨t, ht, rfl⟩ := h
      have hq : qualifies s.startText s.endText (load mem fp) = true := by
        rw [qualifies_iff]; exact ⟨h2, h3⟩
      have h4' : ¬ found + 1 = 4 := h4
      obtain ⟨ih1, ih2⟩ := ih _ (found + 1) _ (by omega) ht
      rw [scanReads_cons_readScan, stores_cons_readScan, recordedEntries_cons, if_pos hq,
        scanReads_append, scanReads_formatCallStackPair, List.nil_append, stores_append,
        stores_formatCallStackPair, ih1]
      refine ⟨rfl, ?_⟩
      rw [List.length_cons]
      omega
    · simp only [Option.some.injEq] at h
      subst h
      exact ⟨rfl, by simp [recordedEntries, scanReads]; omega⟩

/-- The stores of a completed run with a dump processor: the register rows, then one
`formatCallStackPair` per qualifying word examined, at most four. -/
theorem FaultHandler_C_stores (c fuel : Nat) (s : Statics) (hw : Hardware)
    (r7 stack excRet p : Nat) (r : Result) (hp : s.dumpProcessor = some p)
    (h : FaultHandler_C c fuel s hw r7 stack excRet = some r) :
    stores r.trace
        = formatRegisters c (capturedRegisters c hw r7 stack excRet)
            ++ callEntriesTrace c 0 (recordedEntries s hw.mem (scanReads r.trace))
      ∧ (recordedEntries s hw.mem (scanReads r.trace)).length ≤ 4 := by
  rw [FaultHandler_C_of_some c fuel s hw r7 stack excRet p hp] at h
  simp only [Option.map_eq_some'] at h
  obtain ⟨scan, hs, rfl⟩ := h
  have hcb : scanReads [Event.callback p] = [] := rfl
  have hcb2 : stores [Event.callback p] = [] := rfl
  simp only [scanReads_append, scanReads_frameReads, scanReads_formatRegisters,
    scanReads_postFaultDispatch, hcb, List.nil_append, List.append_nil, stores_append,
    stores_frameReads, stores_formatRegisters, stores_postFaultDispatch, hcb2]
  unfold callStackScan at hs
  split_ifs at hs
  · obtain ⟨h1, h2⟩ := scanLoop_stores c s hw.mem _ fuel _ 0 scan (by norm_num) hs
    exact ⟨by rw [h1], by omega⟩
  · simp only [Option.some.injEq] at hs
    subst hs
    exact ⟨rfl, by simp [recordedEntries, scanReads]⟩

theorem scanCandidates_cons (fp tos : Nat) (h : fp < tos) :
    scanCandidates fp tos = fp :: scanCandidates (fp + 4) tos := by
  unfold scanCandidates
  have e : (tos - fp + 3) / 4 = (tos - (fp + 4) + 3) / 4 + 1 := by omega
  rw [e, List.range_succ_eq_map, List.map_cons, List.map_map]
  congr 1
  apply List.map_congr_left
  intro i _
  simp only [Function.comp, Nat.succ_eq_add_one]
  omega

theorem scanCandidates_nil (fp tos : Nat) (h : ¬ fp < tos) : scanCandidates fp tos = [] := by
  unfold scanCandidates
  have e : (tos - fp + 3) / 4 = 0 := by omega
  rw [e]
  rfl

/-- A scan whose bound leaves room for one more word below the end of the address space ends
within one round per candidate word, and records the first qualifying candidates. -/
theorem scanLoop_terminates (c : Nat) (s : Statics) (mem : Memory) (tos : Nat)
    (ht : tos ≤ W32 - 4) :
    ∀ fuel fp found, (tos - fp + 3) / 4 < fuel → found < 4 →
      ∃ tr, scanLoop c s mem tos fuel fp found = some tr
        ∧ recordedEntries s mem (scanReads tr)
            = (recordedEntries s mem (scanCandidates fp tos)).take (4 - found) := by
  have hW : W32 = 4294967296 := rfl
  intro fuel
  induction fuel with
  | zero => intro fp found h; omega
  | succ n ih =>
    intro fp found hfuel hfound
    rw [scanLoop_succ]
    by_cases h1 : fp < tos
    · have hmod : (fp + 4) % W32 = fp + 4 := Nat.mod_eq_of_lt (by omega)
      have hn : (tos - (fp + 4) + 3) / 4 < n := by omega
      rw [if_pos h1, hmod, scanCandidates_cons fp tos h1, recordedEntries_cons]
      by_cases hq : qualifies s.startText s.endText (load mem fp) = true
      · have hq' := (qualifies_iff s _).mp hq
        rw [if_neg hq'.1, if_neg hq'.2, if_pos hq]
        by_cases h4 : found + 1 = FAULT_HANDLING_CALLSTACK_ENTRIES
        · have h4' : found + 1 = 4 := h4
          rw [if_pos h4]
          refine ⟨_, rfl, ?_⟩
          have e1 : 4 - found = 0 + 1 := by omega
          rw [scanReads_cons_readScan, scanReads_formatCallStackPair, recordedEntries_cons,
            if_pos hq, e1, List.take_succ_cons]
          simp [recordedEntries]
        · have h4' : ¬ found + 1 = 4 := h4
          rw [if_neg h4]
          obtain ⟨t, ht1, ht2⟩ := ih (fp + 4) (found + 1) hn (by omega)
          refine ⟨_, by rw [ht1]; rfl, ?_⟩
          have e1 : 4 - found = (4 - (found + 1)) + 1 := by omega
          rw [scanReads_cons_readScan, scanReads_append, scanReads_formatCallStackPair,
            List.nil_append, recordedEntries_cons, if_pos hq, ht2, e1, List.take_succ_cons]
      · obtain ⟨t, ht1, ht2⟩ := ih (fp + 4) found hn hfound
        have key : (if load mem fp < s.startText ∨ load mem fp > s.endText then
              (scanLoop c s mem tos n (fp + 4) found).map fun tr => Event.readScan fp :: tr
            else if load mem fp &&& 1 = 0 then
              (scanLoop c s mem tos n (fp + 4) found).map fun tr => Event.readScan fp :: tr
            else if found + 1 = FAULT_HANDLING_CALLSTACK_ENTRIES then
              some (Event.readScan fp :: formatCallStackPair c found fp (load mem fp))
            else
              (scanLoop c s mem tos n (fp + 4) (found + 1)).map
                fun tr => Event.readScan fp :: (formatCallStackPair c found fp (load mem fp) ++ tr))
            = some (Event.readScan fp :: t) := by
          have hq' : ¬(¬(load mem fp < s.startText ∨ load mem fp > s.endText)
              ∧ ¬(load mem fp &&& 1 = 0)) := fun hh => hq ((qualifies_iff s _).mpr hh)
          split_ifs with a1 a2
          · rw [ht1]; rfl
          · rw [ht1]; rfl
          · exact absurd ⟨a1, a2⟩ hq'
          · exact absurd ⟨a1, a2⟩ hq'
        rw [key, if_neg hq]
        exact ⟨_, rfl, by rw [scanReads_cons_readScan, recordedEntries_cons, if_neg hq, ht2]⟩
    · rw [if_neg h1, scanCandidates_nil fp tos h1]
      exact ⟨[], rfl, by simp [recordedEntries, scanReads]⟩

/-! ## Either variant -/

theorem callEntriesTrace_of_pos {c : Nat} (h : c > 0) (j : Nat) (E : List (Nat × Nat)) :
    callEntriesTrace c j E = callEntriesTrace 3 j E := by
  induction E generalizing j with
  | nil => rfl
  | cons e es ih => simp only [callEntriesTrace, ih, formatCallStackPair_of_pos h]

theorem dumpOrder_of_pos {c : Nat} (h : c > 0) : dumpOrder c = dumpOrder 3 := by
  simp [dumpOrder, h]

theorem dumpRecord_of_pos {c : Nat} (h : c > 0) : dumpRecord c = dumpRecord 3 := by
  funext hw r7 stack excRet calls
  simp only [dumpRecord, dumpOrder_of_pos h]

/-- The layout of the dump, for every value of `__CORTEX_M`. -/
theorem dump_layout_any (c : Nat) (buf0 : Buffer) (hw : Hardware)
    (r7 stack excRet : Nat) (E : List (Nat × Nat)) (hE : E.length ≤ 4) :
    bufferBytes (applyTrace (applyTrace buf0 (faultDumpPrepare c))
        (formatRegisters c (capturedRegisters c hw r7 stack excRet) ++ callEntriesTrace c 0 E))
        (FAULT_HANDLING_DUMP_SIZE c)
      = dumpRecord c hw r7 stack excRet (E ++ List.replicate (4 - E.length) (0, 0)) := by
  rcases variant_cases c with rfl | h
  · exact dump_layout 0 (Or.inl rfl) buf0 hw r7 stack excRet E hE
  · rw [faultDumpPrepare_of_pos h, formatRegisters_of_pos h, capturedRegisters_of_pos h,
      callEntriesTrace_of_pos h, dumpSize_of_pos h, dumpRecord_of_pos h]
    exact dump_layout 3 (Or.inr rfl) buf0 hw r7 stack excRet E hE

theorem callStackRow_layout_any (c : Nat) (buf0 : Buffer) (hw : Hardware)
    (r7 stack excRet : Nat) (E : List (Nat × Nat)) (j : Nat) (hj : j < 4) :
    callStackRow c (applyTrace (applyTrace buf0 (faultDumpPrepare c))
        (formatRegisters c (capturedRegisters c hw r7 stack excRet) ++ callEntriesTrace c 0 E)) j
      = callStackRowText ((E ++ List.replicate (4 - E.length) (0, 0)).getD j (0, 0)) := by
  unfold callStackRow
  rcases variant_cases c with rfl | h
  · exact callStackRow_layout 0 (Or.inl rfl) buf0 hw r7 stack excRet E j hj
  · rw [faultDumpPrepare_of_pos h, formatRegisters_of_pos h, capturedRegisters_of_pos h,
      callEntriesTrace_of_pos h, cpuregCount_of_pos h]
    exact callStackRow_layout 3 (Or.inr rfl) buf0 hw r7 stack excRet E j hj

theorem storeOffsets_registers_lt (c : Nat) (hw : Hardware) (r7 stack excRet off : Nat)
    (h : off ∈ storeOffsets (formatRegisters c (capturedRegisters c hw r7 stack excRet))) :
    off < 15 * FAULT_HANDLING_CPUREG_COUNT c := by
  rcases variant_cases c with rfl | hpos
  · obtain ⟨i, hi, hb⟩ := storeOffsets_registers_bound 0 (Or.inl rfl) hw r7 stack excRet off h
    omega
  · rw [formatRegisters_of_pos hpos, capturedRegisters_of_pos hpos] at h
    rw [cpuregCount_of_pos hpos]
    obtain ⟨i, hi, hb⟩ := storeOffsets_registers_bound 3 (Or.inr rfl) hw r7 stack excRet off h
    omega

theorem template_callRow_any (c : Nat) (buf0 : Buffer) (j : Nat) (hj : j < 4) :
    callStackRow c (applyTrace buf0 (faultDumpPrepare c)) j = callStackRowText (0, 0) := by
  unfold callStackRow
  rcases variant_cases c with rfl | h
  · exact ((template_rows 0 (Or.inl rfl) buf0).2.1 j hj).1
  · rw [faultDumpPrepare_of_pos h, cpuregCount_of_pos h]
    exact ((template_rows 3 (Or.inr rfl) buf0).2.1 j hj).1

theorem storeOffsets_stores (tr : List Event) : storeOffsets (stores tr) = storeOffsets tr := by
  induction tr with
  | nil => rfl
  | cons e t ih => cases e <;> simp [stores, storeOffsets, ih]

/-- With a scan that is disabled or cannot wrap, the handler completes on enough fuel. -/
theorem FaultHandler_C_total (c : Nat) (s : Statics) (hw : Hardware) (r7 stack excRet : Nat)
    (h : s.endText = 0 ∨ TOS s excRet ≤ W32 - 4) (fuel : Nat)
    (hfuel : (TOS s excRet - (stack + 32) % W32 + 3) / 4 < fuel) :
    ∃ r, FaultHandler_C c fuel s hw r7 stack excRet = some r
      ∧ recordedEntries s hw.mem (scanReads r.trace)
          = if s.dumpProcessor = none ∨ s.endText = 0 then []
            else (recordedEntries s hw.mem
              (scanCandidates ((stack + 32) % W32) (TOS s excRet))).take 4 := by
  cases hp : s.dumpProcessor with
  | none =>
    refine ⟨_, FaultHandler_C_of_none c fuel s hw r7 stack excRet hp, ?_⟩
    simp [recordedEntries, scanReads]
  | some p =>
    rw [FaultHandler_C_of_some c fuel s hw r7 stack excRet p hp]
    have hcb : scanReads [Event.callback p] = [] := rfl
    by_cases hE : s.endText = 0
    · have hs : callStackScan c fuel s hw.mem stack excRet = some [] := by
        simp [callStackScan, hE]
      rw [hs]
      refine ⟨_, rfl, ?_⟩
      simp only [scanReads_append, scanReads_frameReads, scanReads_formatRegisters,
        scanReads_postFaultDispatch, hcb, List.nil_append, List.append_nil, hE, or_true,
        if_true]
      simp [recordedEntries, scanReads]
    · have hT : TOS s excRet ≤ W32 - 4 := by
        rcases h with h | h
        · exact absurd h hE
        · exact h
      obtain ⟨tr, h1, h2⟩ := scanLoop_terminates c s hw.mem (TOS s excRet) hT fuel
        ((stack + 32) % W32) 0 hfuel (by norm_num)
      have hs : callStackScan c fuel s hw.mem stack excRet = some tr := by
        simp only [callStackScan, if_pos (Nat.pos_of_ne_zero hE)]
        exact h1
      rw [hs]
      refine ⟨_, rfl, ?_⟩
      simp only [scanReads_append, scanReads_frameReads, scanReads_formatRegisters,
        scanReads_postFaultDispatch, hcb, List.nil_append, List.append_nil]
      rw [h2]
      simp [hE]

/-! ## The sample dump of the header comment -/

set_option maxRecDepth 100000 in
theorem sampleDump_eq :
    sampleDump.toList ++ [NUL]
      = dumpRecord 3 sampleHardware 0x2001FFF0 0x2001FFD0 0xFFFFFFF9
          [(0x20000FE4, 0x00000317), (0x20000FEC, 0x000002ED),
           (0x20000FF4, 0x000002AF), (0x20000FFC, 0x00000127)] := by
  decide

/-! ## Recorded entries and qualifying addresses -/

theorem recordedEntries_candidates (s : Statics) (mem : Memory) (start tos : Nat) :
    recordedEntries s mem (scanCandidates start tos)
      = (qualifyingAddresses s mem start tos).map fun a => (a, load mem a) := rfl

theorem callStackRowText_zero : callStackRowText (0, 0) = "00000000 00000000\n".toList := by
  decide

theorem scanCandidates_pairwise (start tos : Nat) :
    (scanCandidates start tos).Pairwise (· < ·) := by
  unfold scanCandidates
  apply List.Pairwise.map _ _ (List.pairwise_lt_range _)
  intro a b h
  omega

/-- Row `j` of the padded list of the first four recorded entries. -/
theorem padded_entries_getD (q : List Nat) (f : Nat → Nat × Nat) (j : Nat) (hj : j < 4) :
    (((q.map f).take 4) ++ List.replicate (4 - ((q.map f).take 4).length) (0, 0)).getD j (0, 0)
      = if j < q.length then f (q.getD j 0) else (0, 0) := by
  have hlen : ((q.map f).take 4).length = min 4 q.length := by simp
  by_cases h : j < q.length
  · rw [if_pos h]
    have hj2 : j < ((q.map f).take 4).length := by rw [hlen]; omega
    rw [List.getD_eq_getElem _ _ (by rw [List.length_append]; omega),
      List.getElem_append_left hj2, List.getElem_take, List.getElem_map,
      List.getD_eq_getElem _ _ h]
  · rw [if_neg h]
    have hj2 : ((q.map f).take 4).length ≤ j := by rw [hlen]; omega
    by_cases hj3 : j < (((q.map f).take 4)
        ++ List.replicate (4 - ((q.map f).take 4).length) (0, 0)).length
    · rw [List.getD_eq_getElem _ _ hj3, List.getElem_append_right hj2]
      simp
    · rw [List.getD_eq_default _ _ (by omega)]

/-! ## Callback and post-fault action in a run -/

theorem callbackCount_append (t1 t2 : List Event) :
    callbackCount (t1 ++ t2) = callbackCount t1 + callbackCount t2 := by
  induction t1 with
  | nil => simp [callbackCount]
  | cons e t ih =>
    cases e <;> simp [callbackCount, ih]
    omega

theorem actionEvents_append (t1 t2 : List Event) :
    actionEvents (t1 ++ t2) = actionEvents t1 ++ actionEvents t2 := by
  induction t1 with
  | nil => rfl
  | cons e t ih => cases e <;> simp [actionEvents, ih]

theorem quiet_formatRegValue (index v : Nat) :
    callbackCount (formatRegValue index v) = 0 ∧ actionEvents (formatRegValue index v) = [] := by
  rw [formatRegValue_eq]
  simp [List.range_succ, callbackCount, actionEvents]

theorem quiet_formatCallStackPair (c index a v : Nat) :
    callbackCount (formatCallStackPair c index a v) = 0
      ∧ actionEvents (formatCallStackPair c index a v) = [] := by
  rw [formatCallStackPair_eq]
  simp [List.range_succ, callbackCount, actionEvents]

theorem quiet_formatRegisters (c : Nat) (regs : List (faultHandlingRegIndex × Nat)) :
    callbackCount (formatRegisters c regs) = 0 ∧ actionEvents (formatRegisters c regs) = [] := by
  induction regs with
  | nil => exact ⟨rfl, rfl⟩
  | cons rv rest ih =>
    rw [formatRegisters_cons, callbackCount_append, actionEvents_append,
      (quiet_formatRegValue _ _).1, (quiet_formatRegValue _ _).2, ih.1, ih.2]
    exact ⟨rfl, rfl⟩

theorem quiet_frameReads (stack : Nat) :
    callbackCount (frameReads stack) = 0 ∧ actionEvents (frameReads stack) = [] := by
  simp [frameReads, List.range_succ, callbackCount, actionEvents]

theorem callbackCount_cons_readScan (a : Nat) (tr : List Event) :
    callbackCount (Event.readScan a :: tr) = callbackCount tr := rfl

theorem actionEvents_cons_readScan (a : Nat) (tr : List Event) :
    actionEvents (Event.readScan a :: tr) = actionEvents tr := rfl

theorem quiet_scanLoop (c : Nat) (s : Statics) (mem : Memory) (tos fuel : Nat) :
    ∀ fp found tr, scanLoop c s mem tos fuel fp found = some tr →
      callbackCount tr = 0 ∧ actionEvents tr = [] := by
  induction fuel with
  | zero => intro fp found tr h; simp [scanLoop_zero] at h
  | succ n ih =>
    intro fp found tr h
    rw [scanLoop_succ] at h
    split_ifs at h with h1 h2 h3 h4
    · simp only [Option.map_eq_some'] at h
      obtain ⟨t, ht, rfl⟩ := h
      rw [callbackCount_cons_readScan, actionEvents_cons_readScan]
      exact ih _ _ _ ht
    · simp only [Option.map_eq_some'] at h
      obtain ⟨t, ht, rfl⟩ := h
      rw [callbackCount_cons_readScan, actionEvents_cons_readScan]
      exact ih _ _ _ ht
    · simp only [Option.some.injEq] at h
      subst h
      rw [callbackCount_cons_readScan, actionEvents_cons_readScan]
      exact quiet_formatCallStackPair _ _ _ _
    · simp only [Option.map_eq_some'] at h
      obtain ⟨t, ht, rfl⟩ := h
      rw [callbackCount_cons_readScan, actionEvents_cons_readScan, callbackCount_append,
        actionEvents_append, (quiet_formatCallStackPair _ _ _ _).1,
        (quiet_formatCallStackPair _ _ _ _).2, (ih _ _ _ ht).1, (ih _ _ _ ht).2]
      exact ⟨rfl, rfl⟩
    · simp only [Option.some.injEq] at h
      subst h
      exact ⟨rfl, rfl⟩

theorem quiet_callStackScan (c fuel : Nat) (s : Statics) (mem : Memory) (stack excRet : Nat)
    (scan : List Event) (h : callStackScan c fuel s mem stack excRet = some scan) :
    callbackCount scan = 0 ∧ actionEvents scan = [] := by
  unfold callStackScan at h
  split_ifs at h
  · exact quiet_scanLoop c s mem _ fuel _ _ scan h
  · simp only [Option.some.injEq] at h
    subst h
    exact ⟨rfl, rfl⟩

theorem postFaultDispatch_events (pfa : Nat) :
    callbackCount (postFaultDispatch pfa).1 = 0
      ∧ actionEvents (postFaultDispatch pfa).1 = (postFaultDispatch pfa).1 := by
  unfold postFaultDispatch
  split_ifs <;> exact ⟨rfl, rfl⟩

/-- A completed run with a dump processor: everything before the call of the processor, the
call, then the events of the post-fault action. -/
theorem FaultHandler_C_shape (c fuel : Nat) (s : Statics) (hw : Hardware)
    (r7 stack excRet p : Nat) (r : Result) (hp : s.dumpProcessor = some p)
    (h : FaultHandler_C c fuel s hw r7 stack excRet = some r) :
    ∃ pre, r.trace = pre ++ [Event.callback p] ++ (postFaultDispatch s.postFaultAction).1
      ∧ r.outcome = (postFaultDispatch s.postFaultAction).2
      ∧ callbackCount pre = 0 ∧ actionEvents pre = []
      ∧ stores pre = stores r.trace
      ∧ scanReads pre = scanReads r.trace := by
  rw [FaultHandler_C_of_some c fuel s hw r7 stack excRet p hp] at h
  simp only [Option.map_eq_some'] at h
  obtain ⟨scan, hs, rfl⟩ := h
  have hq := quiet_callStackScan c fuel s hw.mem stack excRet scan hs
  have hcb : stores [Event.callback p] = [] := rfl
  have hcb2 : scanReads [Event.callback p] = [] := rfl
  refine ⟨frameReads stack ++ formatRegisters c (capturedRegisters c hw r7 stack excRet) ++ scan,
    rfl, rfl, ?_, ?_, ?_, ?_⟩
  · rw [callbackCount_append, callbackCount_append, (quiet_frameReads _).1,
      (quiet_formatRegisters _ _).1, hq.1]
  · rw [actionEvents_append, actionEvents_append, (quiet_frameReads _).2,
      (quiet_formatRegisters _ _).2, hq.2]
    rfl
  · simp only [stores_append, hcb, stores_postFaultDispatch, List.append_nil]
  · simp only [scanReads_append, hcb2, scanReads_postFaultDispatch, List.append_nil]

/-! ## The skeleton of the record and the holes -/

theorem getD_append_drop (E calls : List (Nat × Nat)) (j : Nat) :
    (E ++ calls.drop E.length).getD j (0, 0)
      = if j < E.length then E.getD j (0, 0) else calls.getD j (0, 0) := by
  simp only [List.getD_eq_getElem?_getD]
  by_cases h : j < E.length
  · rw [if_pos h, List.getElem?_append_left h]
  · rw [if_neg h, List.getElem?_append_right (by omega), List.getElem?_drop]
    congr 2
    omega

theorem mem_bufferSlice (buf : Buffer) (start len off : Nat) (h1 : start ≤ off)
    (h2 : off < start + len) : buf off ∈ bufferSlice buf start len := by
  unfold bufferSlice
  rw [List.mem_map]
  exact ⟨off - start, List.mem_range.mpr (by omega), by congr 1; omega⟩

/-- The stores of one fault touch only value holes: of a register row, or of one of the
call-stack rows that receive an entry. -/
theorem fault_stores_in_holes (c : Nat) (hc : c = 0 ∨ c = 3) (hw : Hardware)
    (r7 stack excRet : Nat) (E : List (Nat × Nat)) (off : Nat)
    (h : off ∈ storeOffsets (formatRegisters c (capturedRegisters c hw r7 stack excRet)
      ++ callEntriesTrace c 0 E)) :
    (∃ i, i < FAULT_HANDLING_CPUREG_COUNT c ∧ 15 * i + 6 ≤ off ∧ off < 15 * i + 14)
      ∨ ∃ m, m < E.length
          ∧ ((15 * FAULT_HANDLING_CPUREG_COUNT c + 18 * m ≤ off
              ∧ off < 15 * FAULT_HANDLING_CPUREG_COUNT c + 18 * m + 8)
            ∨ (15 * FAULT_HANDLING_CPUREG_COUNT c + 18 * m + 9 ≤ off
              ∧ off < 15 * FAULT_HANDLING_CPUREG_COUNT c + 18 * m + 17)) := by
  rw [storeOffsets_append, List.mem_append] at h
  rcases h with h | h
  · exact Or.inl (storeOffsets_registers_bound c hc hw r7 stack excRet off h)
  · obtain ⟨m, hm, hb⟩ := mem_storeOffsets_callEntriesTrace c E 0 off h
    rw [Nat.zero_add] at hb
    exact Or.inr ⟨m, hm, hb⟩

/-- The parts of a call-stack row that reads a given entry. -/
theorem callRow_parts (buf : Buffer) (start : Nat) (e : Nat × Nat)
    (h : bufferSlice buf start 18 = callStackRowText e) :
    bufferSlice buf start 8 = hex8 e.1 ∧ bufferSlice buf (start + 8) 1 = [' ']
      ∧ bufferSlice buf (start + 9) 8 = hex8 e.2 ∧ bufferSlice buf (start + 17) 1 = ['\n'] := by
  rw [bufferSlice_split18] at h
  unfold callStackRowText at h
  have l1 : (bufferSlice buf start 8).length = (hex8 e.1).length := by simp [bufferSlice, hex8]
  have l2 : (bufferSlice buf (start + 8) 1).length = [' '].length := by simp [bufferSlice]
  have l3 : (bufferSlice buf (start + 9) 8).length = (hex8 e.2).length := by
    simp [bufferSlice, hex8]
  have h3 := List.append_inj' h (by simp [bufferSlice])
  have h2 := List.append_inj' h3.1 (by simp [bufferSlice, hex8])
  have h1 := List.append_inj h2.1 l1
  exact ⟨h1.1, h1.2, h2.2, h3.2⟩

/-- The template is a skeleton with all call-stack rows zero. -/
theorem skeleton_template (c : Nat) (hc : c = 0 ∨ c = 3) (buf0 : Buffer) :
    Skeleton c (applyTrace buf0 (faultDumpPrepare c)) [] := by
  obtain ⟨h1, h2, h3⟩ := template_rows c hc buf0
  exact ⟨h1, fun j hj => by simpa using (h2 j hj).1, h3⟩

/-- The stores of one fault keep the skeleton: the rows that receive an entry read it, the
others keep what they read before. -/
theorem skeleton_step (c : Nat) (hc : c = 0 ∨ c = 3) (buf : Buffer) (calls : List (Nat × Nat))
    (hsk : Skeleton c buf calls) (hw : Hardware) (r7 stack excRet : Nat)
    (E : List (Nat × Nat)) (hE : E.length ≤ 4) :
    Skeleton c (applyTrace buf (formatRegisters c (capturedRegisters c hw r7 stack excRet)
        ++ callEntriesTrace c 0 E)) (E ++ calls.drop E.length) := by
  obtain ⟨s1, s2, s3⟩ := hsk
  have hframe : ∀ start len,
      (∀ off, start ≤ off → off < start + len →
        (∀ i, i < FAULT_HANDLING_CPUREG_COUNT c → ¬(15 * i + 6 ≤ off ∧ off < 15 * i + 14))
          ∧ ∀ m, m < E.length →
              ¬(15 * FAULT_HANDLING_CPUREG_COUNT c + 18 * m ≤ off
                  ∧ off < 15 * FAULT_HANDLING_CPUREG_COUNT c + 18 * m + 8)
                ∧ ¬(15 * FAULT_HANDLING_CPUREG_COUNT c + 18 * m + 9 ≤ off
                  ∧ off < 15 * FAULT_HANDLING_CPUREG_COUNT c + 18 * m + 17)) →
      bufferSlice (applyTrace buf (formatRegisters c (capturedRegisters c hw r7 stack excRet)
        ++ callEntriesTrace c 0 E)) start len = bufferSlice buf start len := by
    intro start len hfree
    apply bufferSlice_frame
    intro off hoff
    by_contra hcon
    have hin := hfree off (by omega) (by omega)
    rcases fault_stores_in_holes c hc hw r7 stack excRet E off hoff with ⟨i, hi, hb⟩ | ⟨m, hm, hb⟩
    · exact hin.1 i hi hb
    · rcases hb with hb | hb
      · exact (hin.2 m hm).1 hb
      · exact (hin.2 m hm).2 hb
  refine ⟨?_, ?_, ?_⟩
  · intro i hi
    constructor
    · rw [hframe, (s1 i hi).1]
      intro off h1 h2
      refine ⟨fun i2 _ => by omega, fun m _ => ⟨by omega, by omega⟩⟩
    · rw [hframe, (s1 i hi).2]
      intro off h1 h2
      refine ⟨fun i2 _ => by omega, fun m _ => ⟨by omega, by omega⟩⟩
  · intro j hj
    rw [getD_append_drop]
    obtain ⟨p1, p2, p3, p4⟩ := callRow_parts buf _ _ (s2 j hj)
    by_cases hlt : j < E.length
    · rw [if_pos hlt, List.getD_eq_getElem _ _ hlt]
      have hh := slice_callEntriesTrace c E 0
        (applyTrace buf (formatRegisters c (capturedRegisters c hw r7 stack excRet))) j hlt
      rw [Nat.zero_add, ← applyTrace_append] at hh
      have hs8 : bufferSlice (applyTrace buf
          (formatRegisters c (capturedRegisters c hw r7 stack excRet)
            ++ callEntriesTrace c 0 E))
          (15 * FAULT_HANDLING_CPUREG_COUNT c + 18 * j + 8) 1 = [' '] := by
        rw [hframe, p2]
        intro off h1 h2
        refine ⟨fun i2 _ => by omega, fun m _ => ⟨by omega, by omega⟩⟩
      have hs17 : bufferSlice (applyTrace buf
          (formatRegisters c (capturedRegisters c hw r7 stack excRet)
            ++ callEntriesTrace c 0 E))
          (15 * FAULT_HANDLING_CPUREG_COUNT c + 18 * j + 17) 1 = ['\n'] := by
        rw [hframe, p4]
        intro off h1 h2
        refine ⟨fun i2 _ => by omega, fun m _ => ⟨by omega, by omega⟩⟩
      rw [bufferSlice_split18, hh.1, hh.2, hs8, hs17]
      rfl
    · rw [if_neg hlt, hframe, s2 j hj]
      intro off h1 h2
      refine ⟨fun i2 _ => by omega, fun m _ => ⟨by omega, by omega⟩⟩
  · rw [hframe, s3]
    intro off h1 h2
    refine ⟨fun i2 _ => by omega, fun m _ => ⟨by omega, by omega⟩⟩

/-- A skeleton whose register holes hold the captured values is the dump record. -/
theorem skeleton_record (c : Nat) (hc : c = 0 ∨ c = 3) (buf : Buffer)
    (calls : List (Nat × Nat)) (hsk : Skeleton c buf calls) (hw : Hardware)
    (r7 stack excRet : Nat)
    (hholes : ∀ i (hi : i < (dumpOrder c).length),
      bufferSlice buf (15 * i + 6) 8
        = hex8 (capturedValue hw r7 stack excRet (dumpOrder c)[i])) :
    bufferBytes buf (FAULT_HANDLING_DUMP_SIZE c)
      = dumpRecord c hw r7 stack excRet ((List.range 4).map fun j => calls.getD j (0, 0)) := by
  obtain ⟨s1, s2, s3⟩ := hsk
  have hn := dumpOrder_length c hc
  have hsize : FAULT_HANDLING_DUMP_SIZE c
      = 15 * ((dumpOrder c).map fun r => registerRowText (dumpLabel r)
            (capturedValue hw r7 stack excRet r)).length
        + 18 * (((List.range 4).map fun j => calls.getD j (0, 0)).map callStackRowText).length
        + 1 := by
    simp only [List.length_map, hn, List.length_range,
      FAULT_HANDLING_DUMP_SIZE, FAULT_HANDLING_CPUREG_ROWSIZE, FAULT_HANDLING_CALLSTACK_ENTRIES,
      FAULT_HANDLING_CALLSTACK_ROWSIZE]
    omega
  rw [bufferBytes_eq_slice, hsize, bufferSlice_add, bufferSlice_add, dumpRecord,
    List.flatMap_def, List.flatMap_def]
  congr 1
  · congr 1
    · apply bufferSlice_rows
      intro i hi
      have hi' : i < (dumpOrder c).length := by simpa using hi
      have hi2 : i < FAULT_HANDLING_CPUREG_COUNT c := hn ▸ hi'
      rw [Nat.zero_add, List.getElem_map]
      have e15 : bufferSlice buf (15 * i) 15
          = bufferSlice buf (15 * i) 6 ++ bufferSlice buf (15 * i + 6) 8
              ++ bufferSlice buf (15 * i + 14) 1 := by
        simp [bufferSlice, List.range_succ]
      rw [e15, (s1 i hi2).1, (s1 i hi2).2, hholes i hi', List.getD_eq_getElem _ _ hi']
      rfl
    · apply bufferSlice_rows
      intro j hj
      have hj' : j < 4 := by simpa using hj
      rw [List.getElem_map, List.getElem_map, List.getElem_range]
      simp only [Nat.zero_add, List.length_map, hn]
      exact s2 j hj'
  · simp only [Nat.zero_add, List.length_map, hn, List.length_range]
    exact s3

/-! ## Consecutive captures -/

theorem scanLoop_config (c : Nat) (s s' : Statics) (mem : Memory) (tos : Nat)
    (h1 : s'.startText = s.startText) (h2 : s'.endText = s.endText) :
    ∀ fuel fp found, scanLoop c s' mem tos fuel fp found = scanLoop c s mem tos fuel fp found := by
  intro fuel
  induction fuel with
  | zero => intro fp found; rfl
  | succ n ih =>
    intro fp found
    rw [scanLoop_succ, scanLoop_succ, h1, h2, ih, ih]

/-- The handler reads the configuration, not the contents of the buffer: a run is the same
whatever the buffer holds. -/
theorem FaultHandler_C_config (c fuel : Nat) (s s' : Statics) (hw : Hardware)
    (r7 stack excRet : Nat) (hp : s'.dumpProcessor = s.dumpProcessor)
    (h1 : s'.startText = s.startText) (h2 : s'.endText = s.endText)
    (h3 : s'.mspTop = s.mspTop) (h4 : s'.pspTop = s.pspTop)
    (h5 : s'.postFaultAction = s.postFaultAction) :
    FaultHandler_C c fuel s' hw r7 stack excRet = FaultHandler_C c fuel s hw r7 stack excRet := by
  have hT : TOS s' excRet = TOS s excRet := by simp only [TOS, h3, h4]
  have hs : callStackScan c fuel s' hw.mem stack excRet
      = callStackScan c fuel s hw.mem stack excRet := by
    simp only [callStackScan, h2, hT, scanLoop_config c s s' hw.mem _ h1 h2]
  simp only [FaultHandler_C, hp, hs, h5]

theorem FaultHandler_C_afterFault (c fuel : Nat) (s : Statics) (r : Result) (hw : Hardware)
    (r7 stack excRet : Nat) :
    FaultHandler_C c fuel (afterFault s r) hw r7 stack excRet
      = FaultHandler_C c fuel s hw r7 stack excRet :=
  FaultHandler_C_config c fuel s (afterFault s r) hw r7 stack excRet rfl rfl rfl rfl rfl rfl

/-- The hole of register row `i` after the stores of one fault, whatever the buffer held. -/
theorem hole_after_fault (c : Nat) (hc : c = 0 ∨ c = 3) (buf : Buffer) (hw : Hardware)
    (r7 stack excRet : Nat) (E : List (Nat × Nat)) (i : Nat) (hi : i < (dumpOrder c).length) :
    bufferSlice (applyTrace buf (formatRegisters c (capturedRegisters c hw r7 stack excRet)
        ++ callEntriesTrace c 0 E)) (15 * i + 6) 8
      = hex8 (capturedValue hw r7 stack excRet (dumpOrder c)[i]) := by
  have hi' : i < FAULT_HANDLING_CPUREG_COUNT c := dumpOrder_length c hc ▸ hi
  rw [applyTrace_append, bufferSlice_frame, slice_registers c hc hw r7 stack excRet _ i hi]
  intro off hoff
  obtain ⟨m, _, hb⟩ := mem_storeOffsets_callEntriesTrace c E 0 off hoff
  omega

/-- The buffer after a completed run with a dump processor, in terms of the stores. -/
theorem afterFault_buffer (c fuel : Nat) (s : Statics) (hw : Hardware)
    (r7 stack excRet p : Nat) (r : Result) (hp : s.dumpProcessor = some p)
    (h : FaultHandler_C c fuel s hw r7 stack excRet = some r) :
    (afterFault s r).dumpBuffer
        = applyTrace s.dumpBuffer
            (formatRegisters c (capturedRegisters c hw r7 stack excRet)
              ++ callEntriesTrace c 0 (recordedEntries s hw.mem (scanReads r.trace)))
      ∧ (recordedEntries s hw.mem (scanReads r.trace)).length ≤ 4 := by
  obtain ⟨h1, h2⟩ := FaultHandler_C_stores c fuel s hw r7 stack excRet p r hp h
  refine ⟨?_, h2⟩
  simp only [afterFault]
  rw [applyTrace_stores, h1]

theorem registerRow_of_skeleton (c : Nat) (buf : Buffer) (calls : List (Nat × Nat))
    (hsk : Skeleton c buf calls) (i : Nat) (hi : i < FAULT_HANDLING_CPUREG_COUNT c) :
    registerRow buf i
      = (dumpLabel ((dumpOrder c).getD i R7)).toList ++ [' ']
          ++ bufferSlice buf (15 * i + 6) 8 ++ ['\n'] := by
  have e15 : bufferSlice buf (15 * i) 15
      = bufferSlice buf (15 * i) 6 ++ bufferSlice buf (15 * i + 6) 8
          ++ bufferSlice buf (15 * i + 14) 1 := by
    simp [bufferSlice, List.range_succ]
  unfold registerRow
  rw [e15, (hsk.1 i hi).1, (hsk.1 i hi).2]

/-- Two consecutive captures on an initialised buffer, for the variants 0 and 3. -/
theorem two_captures_core (c : Nat) (hc : c = 0 ∨ c = 3) (s : Statics) (buf0 : Buffer) (p : Nat)
    (hw1 : Hardware) (r7a stacka excReta : Nat) (hw2 : Hardware) (r7b stackb excRetb : Nat)
    (fuel1 fuel2 : Nat) (r1 r2 : Result)
    (hinit : s.dumpBuffer = applyTrace buf0 (faultDumpPrepare c))
    (hp : s.dumpProcessor = some p)
    (h1 : FaultHandler_C c fuel1 s hw1 r7a stacka excReta = some r1)
    (h2 : FaultHandler_C c fuel2 (afterFault s r1) hw2 r7b stackb excRetb = some r2) :
    FaultHandler_C c fuel2 s hw2 r7b stackb excRetb = some r2
      ∧ bufferBytes (afterFault (afterFault s r1) r2).dumpBuffer (FAULT_HANDLING_DUMP_SIZE c)
          = dumpRecord c hw2 r7b stackb excRetb
              ((List.range 4).map fun j =>
                (recordedEntries s hw2.mem (scanReads r2.trace)
                  ++ (recordedEntries s hw1.mem (scanReads r1.trace)).drop
                      (recordedEntries s hw2.mem (scanReads r2.trace)).length).getD j (0, 0))
      ∧ bufferBytes (afterFault s r2).dumpBuffer (FAULT_HANDLING_DUMP_SIZE c)
          = dumpRecord c hw2 r7b stackb excRetb
              ((List.range 4).map fun j =>
                (recordedEntries s hw2.mem (scanReads r2.trace)).getD j (0, 0))
      ∧ (∀ i, i < FAULT_HANDLING_CPUREG_COUNT c →
          registerRow (afterFault (afterFault s r1) r2).dumpBuffer i
            = registerRow (afterFault s r2).dumpBuffer i)
      ∧ (∀ j, j < 4 →
          callStackRow c (afterFault (afterFault s r1) r2).dumpBuffer j
            = if j < (recordedEntries s hw2.mem (scanReads r2.trace)).length then
                callStackRow c (afterFault s r2).dumpBuffer j
              else callStackRow c (afterFault s r1).dumpBuffer j) := by
  have h2' : FaultHandler_C c fuel2 s hw2 r7b stackb excRetb = some r2 := by
    rw [← FaultHandler_C_afterFault c fuel2 s r1]; exact h2
  obtain ⟨b1, l1⟩ := afterFault_buffer c fuel1 s hw1 r7a stacka excReta p r1 hp h1
  obtain ⟨b2, l2⟩ := afterFault_buffer c fuel2 s hw2 r7b stackb excRetb p r2 hp h2'
  obtain ⟨b12, -⟩ := afterFault_buffer c fuel2 (afterFault s r1) hw2 r7b stackb excRetb p r2
    hp h2
  have hrec : recordedEntries (afterFault s r1) hw2.mem (scanReads r2.trace)
      = recordedEntries s hw2.mem (scanReads r2.trace) := rfl
  rw [hrec] at b12
  have sk0 := skeleton_template c hc buf0
  rw [← hinit] at sk0
  have sk1 := skeleton_step c hc _ _ sk0 hw1 r7a stacka excReta _ l1
  rw [← b1] at sk1
  have sk12 := skeleton_step c hc _ _ sk1 hw2 r7b stackb excRetb _ l2
  rw [← b12] at sk12
  have sk2 := skeleton_step c hc _ _ sk0 hw2 r7b stackb excRetb _ l2
  rw [← b2] at sk2
  have hole12 : ∀ i (hi : i < (dumpOrder c).length),
      bufferSlice (afterFault (afterFault s r1) r2).dumpBuffer (15 * i + 6) 8
        = hex8 (capturedValue hw2 r7b stackb excRetb (dumpOrder c)[i]) := by
    intro i hi
    rw [b12]
    exact hole_after_fault c hc _ hw2 r7b stackb excRetb _ i hi
  have hole2 : ∀ i (hi : i < (dumpOrder c).length),
      bufferSlice (afterFault s r2).dumpBuffer (15 * i + 6) 8
        = hex8 (capturedValue hw2 r7b stackb excRetb (dumpOrder c)[i]) := by
    intro i hi
    rw [b2]
    exact hole_after_fault c hc _ hw2 r7b stackb excRetb _ i hi
  refine ⟨h2', ?_, ?_, ?_, ?_⟩
  · have := skeleton_record c hc _ _ sk12 hw2 r7b stackb excRetb hole12
    simpa only [List.drop_nil, List.append_nil] using this
  · have := skeleton_record c hc _ _ sk2 hw2 r7b stackb excRetb hole2
    simpa only [List.drop_nil, List.append_nil] using this
  · intro i hi
    have hi' : i < (dumpOrder c).length := (dumpOrder_length c hc).symm ▸ hi
    rw [registerRow_of_skeleton c _ _ sk12 i hi, registerRow_of_skeleton c _ _ sk2 i hi,
      hole12 i hi', hole2 i hi']
  · intro j hj
    unfold callStackRow
    rw [sk12.2.1 j hj, sk2.2.1 j hj, sk1.2.1 j hj]
    simp only [getD_append_drop, List.drop_nil, List.append_nil]
    split_ifs <;> rfl

theorem callStackRow_of_pos {c : Nat} (h : c > 0) : callStackRow c = callStackRow 3 := by
  funext buf j
  simp only [callStackRow, cpuregCount_of_pos h]

/-- Two consecutive captures on an initialised buffer, for every value of `__CORTEX_M`. -/
theorem two_captures_any (c : Nat) (s : Statics) (buf0 : Buffer) (p : Nat)
    (hw1 : Hardware) (r7a stacka excReta : Nat) (hw2 : Hardware) (r7b stackb excRetb : Nat)
    (fuel1 fuel2 : Nat) (r1 r2 : Result)
    (hinit : s.dumpBuffer = applyTrace buf0 (faultDumpPrepare c))
    (hp : s.dumpProcessor = some p)
    (h1 : FaultHandler_C c fuel1 s hw1 r7a stacka excReta = some r1)
    (h2 : FaultHandler_C c fuel2 (afterFault s r1) hw2 r7b stackb excRetb = some r2) :
    FaultHandler_C c fuel2 s hw2 r7b stackb excRetb = some r2
      ∧ bufferBytes (afterFault (afterFault s r1) r2).dumpBuffer (FAULT_HANDLING_DUMP_SIZE c)
          = dumpRecord c hw2 r7b stackb excRetb
              ((List.range 4).map fun j =>
                (recordedEntries s hw2.mem (scanReads r2.trace)
                  ++ (recordedEntries s hw1.mem (scanReads r1.trace)).drop
                      (recordedEntries s hw2.mem (scanReads r2.trace)).length).getD j (0, 0))
      ∧ bufferBytes (afterFault s r2).dumpBuffer (FAULT_HANDLING_DUMP_SIZE c)
          = dumpRecord c hw2 r7b stackb excRetb
              ((List.range 4).map fun j =>
                (recordedEntries s hw2.mem (scanReads r2.trace)).getD j (0, 0))
      ∧ (∀ i, i < FAULT_HANDLING_CPUREG_COUNT c →
          registerRow (afterFault (afterFault s r1) r2).dumpBuffer i
            = registerRow (afterFault s r2).dumpBuffer i)
      ∧ (∀ j, j < 4 →
          callStackRow c (afterFault (afterFault s r1) r2).dumpBuffer j
            = if j < (recordedEntries s hw2.mem (scanReads r2.trace)).length then
                callStackRow c (afterFault s r2).dumpBuffer j
              else callStackRow c (afterFault s r1).dumpBuffer j) := by
  rcases variant_cases c with rfl | h
  · exact two_captures_core 0 (Or.inl rfl) s buf0 p hw1 r7a stacka excReta hw2 r7b stackb
      excRetb fuel1 fuel2 r1 r2 hinit hp h1 h2
  · rw [faultDumpPrepare_of_pos h] at hinit
    rw [FaultHandler_C_of_pos h] at h1 h2
    rw [FaultHandler_C_of_pos h, dumpSize_of_pos h, dumpRecord_of_pos h, cpuregCount_of_pos h,
      callStackRow_of_pos h]
    exact two_captures_core 3 (Or.inr rfl) s buf0 p hw1 r7a stacka excReta hw2 r7b stackb
      excRetb fuel1 fuel2 r1 r2 hinit hp h1 h2

theorem replicate_getD_zero (E : List (Nat × Nat)) (j : Nat) (h : E.length ≤ j) :
    E.getD j (0, 0) = (0, 0) := List.getD_eq_default _ _ h

theorem bufferSlice_of_bufferBytes_eq (b b' : Buffer) (n start len : Nat)
    (h : bufferBytes b n = bufferBytes b' n) (hle : start + len ≤ n) :
    bufferSlice b start len = bufferSlice b' start len := by
  unfold bufferBytes at h
  rw [List.map_inj_left] at h
  unfold bufferSlice
  apply List.map_congr_left
  intro k hk
  exact h _ (List.mem_range.mpr (by have := List.mem_range.mp hk; omega))

theorem getD_append_replicate (E : List (Nat × Nat)) (k j : Nat) :
    (E ++ List.replicate k (0, 0)).getD j (0, 0) = E.getD j (0, 0) := by
  by_cases hlt : j < E.length
  · simp only [List.getD_eq_getElem?_getD, List.getElem?_append_left hlt]
  · rw [List.getD_eq_default E _ (Nat.le_of_not_lt hlt)]
    by_cases h2 : j < (E ++ List.replicate k (0, 0)).length
    · rw [List.getD_eq_getElem _ _ h2, List.getElem_append_right (Nat.le_of_not_lt hlt)]
      simp
    · rw [List.getD_eq_default _ _ (Nat.le_of_not_lt h2)]

/-- Call-stack row `j` after one capture on an initialised buffer. -/
theorem callStackRow_afterFault (c fuel : Nat) (s : Statics) (buf0 : Buffer) (hw : Hardware)
    (r7 stack excRet p : Nat) (r : Result)
    (hinit : s.dumpBuffer = applyTrace buf0 (faultDumpPrepare c))
    (hp : s.dumpProcessor = some p)
    (h : FaultHandler_C c fuel s hw r7 stack excRet = some r) (j : Nat) (hj : j < 4) :
    callStackRow c (afterFault s r).dumpBuffer j
      = callStackRowText ((recordedEntries s hw.mem (scanReads r.trace)).getD j (0, 0)) := by
  obtain ⟨b, -⟩ := afterFault_buffer c fuel s hw r7 stack excRet p r hp h
  rw [b, hinit, callStackRow_layout_any c buf0 hw r7 stack excRet _ j hj,
    getD_append_replicate]

/-! ## Consecutive captures against a single capture -/

theorem twoCaptures_eq (c fuel : Nat) (s : Statics) (hw1 : Hardware) (r7a stacka excReta : Nat)
    (hw2 : Hardware) (r7b stackb excRetb : Nat) (r1 r2 : Result)
    (h1 : FaultHandler_C c fuel s hw1 r7a stacka excReta = some r1)
    (h2 : FaultHandler_C c fuel (afterFault s r1) hw2 r7b stackb excRetb = some r2) :
    twoCaptures c fuel s hw1 r7a stacka excReta hw2 r7b stackb excRetb
      = some (afterFault (afterFault s r1) r2).dumpBuffer := by
  unfold twoCaptures
  rw [h1, Option.some_bind, h2, Option.map_some']

theorem oneCapture_eq (c fuel : Nat) (s : Statics) (hw : Hardware) (r7 stack excRet : Nat)
    (r : Result) (h : FaultHandler_C c fuel s hw r7 stack excRet = some r) :
    oneCapture c fuel s hw r7 stack excRet = some (afterFault s r).dumpBuffer := by
  unfold oneCapture
  rw [h, Option.map_some']

/-- A call-stack row after two consecutive captures against the same row after the second
capture alone, in terms of the entries the two scans record. -/
theorem two_captures_row (c fuel : Nat) (s : Statics) (buf0 : Buffer) (p : Nat)
    (hw1 : Hardware) (r7a stacka excReta : Nat) (hw2 : Hardware) (r7b stackb excRetb : Nat)
    (r1 r2 : Result) (E1 E2 : List (Nat × Nat)) (j : Nat) (txt12 txt2 : List Char)
    (hinit : s.dumpBuffer = applyTrace buf0 (faultDumpPrepare c))
    (hp : s.dumpProcessor = some p)
    (h1 : FaultHandler_C c fuel s hw1 r7a stacka excReta = some r1)
    (h2 : FaultHandler_C c fuel s hw2 r7b stackb excRetb = some r2)
    (hE1 : recordedEntries s hw1.mem (scanReads r1.trace) = E1)
    (hE2 : recordedEntries s hw2.mem (scanReads r2.trace) = E2)
    (hj : j < 4)
    (ht12 : callStackRowText ((E2 ++ E1.drop E2.length).getD j (0, 0)) = txt12)
    (ht2 : callStackRowText (E2.getD j (0, 0)) = txt2)
    (hne : txt12 ≠ txt2) :
    (twoCaptures c fuel s hw1 r7a stacka excReta hw2 r7b stackb excRetb).map
        (fun b => callStackRow c b j) = some txt12
      ∧ (oneCapture c fuel s hw2 r7b stackb excRetb).map (fun b => callStackRow c b j)
          = some txt2
      ∧ (twoCaptures c fuel s hw1 r7a stacka excReta hw2 r7b stackb excRetb).map
            (fun b => bufferBytes b (FAULT_HANDLING_DUMP_SIZE c))
          ≠ (oneCapture c fuel s hw2 r7b stackb excRetb).map
              (fun b => bufferBytes b (FAULT_HANDLING_DUMP_SIZE c)) := by
  have h2' : FaultHandler_C c fuel (afterFault s r1) hw2 r7b stackb excRetb = some r2 :=
    (FaultHandler_C_afterFault c fuel s r1 hw2 r7b stackb excRetb).trans h2
  obtain ⟨-, -, -, -, t5⟩ := two_captures_any c s buf0 p hw1 r7a stacka excReta hw2 r7b stackb
    excRetb fuel fuel r1 r2 hinit hp h1 h2'
  have hrow1 := callStackRow_afterFault c fuel s buf0 hw1 r7a stacka excReta p r1 hinit hp h1 j hj
  have hrow2 := callStackRow_afterFault c fuel s buf0 hw2 r7b stackb excRetb p r2 hinit hp h2 j hj
  have hrow12 : callStackRow c (afterFault (afterFault s r1) r2).dumpBuffer j = txt12 := by
    rw [t5 j hj, hrow1, hrow2, hE1, hE2, ← ht12, getD_append_drop]
    split_ifs <;> rfl
  rw [hE2, ht2] at hrow2
  rw [twoCaptures_eq c fuel s hw1 r7a stacka excReta hw2 r7b stackb excRetb r1 r2 h1 h2',
    oneCapture_eq c fuel s hw2 r7b stackb excRetb r2 h2]
  refine ⟨by rw [Option.map_some', hrow12], by rw [Option.map_some', hrow2], ?_⟩
  rw [Option.map_some', Option.map_some']
  intro heq
  have hb := Option.some.inj heq
  have hsize : 15 * FAULT_HANDLING_CPUREG_COUNT c + 18 * j + 18 ≤ FAULT_HANDLING_DUMP_SIZE c := by
    simp only [FAULT_HANDLING_DUMP_SIZE, FAULT_HANDLING_CPUREG_ROWSIZE,
      FAULT_HANDLING_CALLSTACK_ENTRIES, FAULT_HANDLING_CALLSTACK_ROWSIZE]
    omega
  have hs := bufferSlice_of_bufferBytes_eq _ _ _
    (15 * FAULT_HANDLING_CPUREG_COUNT c + 18 * j) 18 hb hsize
  apply hne
  rw [← hrow12, ← hrow2]
  exact hs

/-! ## What the template writes and what it leaves -/

set_option maxRecDepth 100000 in
theorem template_offsets_cm0 :
    (∀ off ∈ storeOffsets (faultDumpPrepare 0), inRegisterHole 0 off = false)
      ∧ (∀ off, off < FAULT_HANDLING_DUMP_SIZE 0 - 1 →
          (inRegisterHole 0 off || storedPrintable (faultDumpPrepare 0) off) = true)
      ∧ (∀ off, off < FAULT_HANDLING_DUMP_SIZE 0 →
          (inRegisterHole 0 off || decide (off ∈ storeOffsets (faultDumpPrepare 0))) = true) := by
  decide

set_option maxRecDepth 100000 in
theorem template_offsets_cm3 :
    (∀ off ∈ storeOffsets (faultDumpPrepare 3), inRegisterHole 3 off = false)
      ∧ (∀ off, off < FAULT_HANDLING_DUMP_SIZE 3 - 1 →
          (inRegisterHole 3 off || storedPrintable (faultDumpPrepare 3) off) = true)
      ∧ (∀ off, off < FAULT_HANDLING_DUMP_SIZE 3 →
          (inRegisterHole 3 off || decide (off ∈ storeOffsets (faultDumpPrepare 3))) = true) := by
  decide

set_option maxRecDepth 100000 in
theorem template_row_stores_cm0 :
    ∀ i, i < 13 →
      storesInRange (faultDumpPrepare 0) (15 * i) (15 * i + 15)
          = strcpy (15 * i) ((cpuRegLabels 0).getD i "").toList
              ++ [Event.store (15 * i + 5) ' ', Event.store (15 * i + 14) '\n']
        ∧ ((cpuRegLabels 0).getD i "").toList.length = 5
        ∧ (strcpy (15 * i) ((cpuRegLabels 0).getD i "").toList).getLast?
            = some (Event.store (15 * i + 5) NUL)
        ∧ (cpuRegLabels 0).getD i "" = dumpLabel ((dumpOrder 0).getD i R7) := by
  decide

set_option maxRecDepth 100000 in
theorem template_row_stores_cm3 :
    ∀ i, i < 17 →
      storesInRange (faultDumpPrepare 3) (15 * i) (15 * i + 15)
          = strcpy (15 * i) ((cpuRegLabels 3).getD i "").toList
              ++ [Event.store (15 * i + 5) ' ', Event.store (15 * i + 14) '\n']
        ∧ ((cpuRegLabels 3).getD i "").toList.length = 5
        ∧ (strcpy (15 * i) ((cpuRegLabels 3).getD i "").toList).getLast?
            = some (Event.store (15 * i + 5) NUL)
        ∧ (cpuRegLabels 3).getD i "" = dumpLabel ((dumpOrder 3).getD i R7) := by
  decide

theorem isPrintable_ne_NUL (ch : Char) (h : isPrintable ch = true) : ch ≠ NUL := by
  intro e
  rw [e] at h
  exact absurd h (by decide)

theorem inRegisterHole_of_pos {c : Nat} (h : c > 0) : inRegisterHole c = inRegisterHole 3 := by
  funext off
  simp only [inRegisterHole, cpuregCount_of_pos h]

theorem inCallStackHole_of_pos {c : Nat} (h : c > 0) :
    inCallStackHole c = inCallStackHole 3 := by
  funext off
  simp only [inCallStackHole, cpuregCount_of_pos h]

theorem template_offsets (c : Nat) (hc : c = 0 ∨ c = 3) :
    (∀ off ∈ storeOffsets (faultDumpPrepare c), inRegisterHole c off = false)
      ∧ (∀ off, off < FAULT_HANDLING_DUMP_SIZE c - 1 →
          (inRegisterHole c off || storedPrintable (faultDumpPrepare c) off) = true)
      ∧ (∀ off, off < FAULT_HANDLING_DUMP_SIZE c →
          (inRegisterHole c off || decide (off ∈ storeOffsets (faultDumpPrepare c))) = true) := by
  rcases hc with rfl | rfl
  · exact template_offsets_cm0
  · exact template_offsets_cm3

/-- The template leaves the register holes as they were, stores a printable character
everywhere else before the terminator, and stores the terminator. -/
theorem template_bytes (c : Nat) (buf0 : Buffer) :
    (∀ off, inRegisterHole c off = true → applyTrace buf0 (faultDumpPrepare c) off = buf0 off)
      ∧ (∀ off, off < FAULT_HANDLING_DUMP_SIZE c - 1 → inRegisterHole c off = false →
          isPrintable (applyTrace buf0 (faultDumpPrepare c) off) = true)
      ∧ (∀ off, off < FAULT_HANDLING_DUMP_SIZE c →
          off ∈ storeOffsets (faultDumpPrepare c) ∨ inRegisterHole c off = true)
      ∧ (∀ off ∈ storeOffsets (faultDumpPrepare c), inRegisterHole c off = false) := by
  have key : ∀ c', (c' = 0 ∨ c' = 3) →
      (∀ off, inRegisterHole c' off = true →
          applyTrace buf0 (faultDumpPrepare c') off = buf0 off)
      ∧ (∀ off, off < FAULT_HANDLING_DUMP_SIZE c' - 1 → inRegisterHole c' off = false →
          isPrintable (applyTrace buf0 (faultDumpPrepare c') off) = true)
      ∧ (∀ off, off < FAULT_HANDLING_DUMP_SIZE c' →
          off ∈ storeOffsets (faultDumpPrepare c') ∨ inRegisterHole c' off = true)
      ∧ (∀ off ∈ storeOffsets (faultDumpPrepare c'), inRegisterHole c' off = false) := by
    intro c' hc
    obtain ⟨t1, t2, t3⟩ := template_offsets c' hc
    refine ⟨?_, ?_, ?_, t1⟩
    · intro off hoff
      apply applyTrace_of_not_mem
      intro hmem
      rw [t1 off hmem] at hoff
      exact absurd hoff (by decide)
    · intro off hlt hno
      have := t2 off hlt
      rw [hno, Bool.false_or] at this
      unfold storedPrintable at this
      rw [applyTrace_eq_lastStore]
      cases hl : lastStore (faultDumpPrepare c') off with
      | none => rw [hl] at this; exact absurd this (by decide)
      | some ch => rw [hl] at this; exact this
    · intro off hlt
      have := t3 off hlt
      rw [Bool.or_eq_true, decide_eq_true_eq] at this
      exact this.symm
  rcases variant_cases c with rfl | h
  · exact key 0 (Or.inl rfl)
  · rw [faultDumpPrepare_of_pos h, dumpSize_of_pos h, inRegisterHole_of_pos h]
    exact key 3 (Or.inr rfl)

theorem template_nul_any (c : Nat) (buf0 : Buffer) :
    applyTrace buf0 (faultDumpPrepare c) (FAULT_HANDLING_DUMP_SIZE c - 1) = NUL := by
  have key : ∀ c', (c' = 0 ∨ c' = 3) →
      applyTrace buf0 (faultDumpPrepare c') (FAULT_HANDLING_DUMP_SIZE c' - 1) = NUL := by
    intro c' hc
    have h := (template_rows c' hc buf0).2.2
    have e : FAULT_HANDLING_DUMP_SIZE c' - 1 = 15 * FAULT_HANDLING_CPUREG_COUNT c' + 72 + 0 := by
      simp only [FAULT_HANDLING_DUMP_SIZE, FAULT_HANDLING_CPUREG_ROWSIZE,
        FAULT_HANDLING_CALLSTACK_ENTRIES, FAULT_HANDLING_CALLSTACK_ROWSIZE]
      omega
    rw [e]
    simp only [bufferSlice, List.range_succ, List.range_zero, List.nil_append, List.map_cons,
      List.map_nil, List.cons.injEq, and_true] at h
    exact h
  rcases variant_cases c with rfl | h
  · exact key 0 (Or.inl rfl)
  · rw [faultDumpPrepare_of_pos h, dumpSize_of_pos h]
    exact key 3 (Or.inr rfl)

theorem template_row_stores (c : Nat) (i : Nat) (hi : i < FAULT_HANDLING_CPUREG_COUNT c) :
    storesInRange (faultDumpPrepare c) (15 * i) (15 * i + 15)
        = strcpy (15 * i) ((cpuRegLabels c).getD i "").toList
            ++ [Event.store (15 * i + 5) ' ', Event.store (15 * i + 14) '\n']
      ∧ ((cpuRegLabels c).getD i "").toList.length = 5
      ∧ (strcpy (15 * i) ((cpuRegLabels c).getD i "").toList).getLast?
          = some (Event.store (15 * i + 5) NUL)
      ∧ (cpuRegLabels c).getD i "" = dumpLabel ((dumpOrder c).getD i R7) := by
  rcases variant_cases c with rfl | h
  · exact template_row_stores_cm0 i hi
  · rw [cpuregCount_of_pos h] at hi
    rw [faultDumpPrepare_of_pos h, cpuRegLabels_of_pos h, dumpOrder_of_pos h]
    exact template_row_stores_cm3 i hi

theorem template_rows_any (c : Nat) (buf0 : Buffer) (i : Nat)
    (hi : i < FAULT_HANDLING_CPUREG_COUNT c) :
    bufferSlice (applyTrace buf0 (faultDumpPrepare c)) (15 * i) 6
        = (dumpLabel ((dumpOrder c).getD i R7)).toList ++ [' ']
      ∧ bufferSlice (applyTrace buf0 (faultDumpPrepare c)) (15 * i + 14) 1 = ['\n'] := by
  rcases variant_cases c with rfl | h
  · exact (template_rows 0 (Or.inl rfl) buf0).1 i hi
  · rw [cpuregCount_of_pos h] at hi
    rw [faultDumpPrepare_of_pos h, dumpOrder_of_pos h]
    exact (template_rows 3 (Or.inr rfl) buf0).1 i hi

theorem inRegisterHole_iff (c off : Nat) :
    inRegisterHole c off = true
      ↔ ∃ i, i < FAULT_HANDLING_CPUREG_COUNT c ∧ 15 * i + 6 ≤ off ∧ off < 15 * i + 14 := by
  simp only [inRegisterHole, decide_eq_true_eq]
  constructor
  · intro h
    exact ⟨off / 15, by omega, by omega, by omega⟩
  · rintro ⟨i, h1, h2, h3⟩
    omega

/-! ## The buffer after registration -/

theorem dumpBuffer_setDumpProcessor (c : Nat) (s0 : Statics) (buf0 : Buffer) (p : Option Nat) :
    (faultHandlingSetDumpProcessor c s0 buf0 p).dumpBuffer
      = applyTrace buf0 (faultDumpPrepare c) := rfl

/-! ## Every hole is written at fault time -/

theorem storeOffsets_formatRegisters_of_mem (c : Nat)
    (regs : List (faultHandlingRegIndex × Nat)) (rv : faultHandlingRegIndex × Nat)
    (hrv : rv ∈ regs) (off : Nat)
    (h : off ∈ storeOffsets (formatRegValue (regIndexValue c rv.1) rv.2)) :
    off ∈ storeOffsets (formatRegisters c regs) := by
  induction regs with
  | nil => cases hrv
  | cons hd rest ih =>
    rw [formatRegisters_cons, storeOffsets_append, List.mem_append]
    rcases List.mem_cons.mp hrv with e | hin
    · left; rw [← e]; exact h
    · right; exact ih hin

theorem register_holes_written_core (c : Nat) (hc : c = 0 ∨ c = 3) (hw : Hardware)
    (r7 stack excRet off : Nat) (h : inRegisterHole c off = true) :
    off ∈ storeOffsets (formatRegisters c (capturedRegisters c hw r7 stack excRet)) := by
  obtain ⟨i, hi, h1, h2⟩ := (inRegisterHole_iff c off).mp h
  have hi' : i < (dumpOrder c).length := (dumpOrder_length c hc).symm ▸ hi
  have hmem : ((dumpOrder c)[i], capturedValue hw r7 stack excRet (dumpOrder c)[i])
      ∈ capturedRegisters c hw r7 stack excRet := by
    rw [capturedRegisters_eq c hc]
    exact List.mem_map_of_mem _ (List.getElem_mem hi')
  apply storeOffsets_formatRegisters_of_mem c _ _ hmem
  simp only [regIndexValue_dumpOrder c hc i hi', storeOffsets_formatRegValue,
    List.mem_range'_1]
  omega

theorem register_holes_written (c : Nat) (hw : Hardware) (r7 stack excRet off : Nat)
    (h : inRegisterHole c off = true) :
    off ∈ storeOffsets (formatRegisters c (capturedRegisters c hw r7 stack excRet)) := by
  rcases variant_cases c with rfl | hpos
  · exact register_holes_written_core 0 (Or.inl rfl) hw r7 stack excRet off h
  · rw [inRegisterHole_of_pos hpos] at h
    rw [formatRegisters_of_pos hpos, capturedRegisters_of_pos hpos]
    exact register_holes_written_core 3 (Or.inr rfl) hw r7 stack excRet off h

/-- The stores of one fault lie in value holes, for every value of `__CORTEX_M`. -/
theorem fault_stores_in_holes_any (c : Nat) (hw : Hardware) (r7 stack excRet : Nat)
    (E : List (Nat × Nat)) (hE : E.length ≤ 4) (off : Nat)
    (h : off ∈ storeOffsets (formatRegisters c (capturedRegisters c hw r7 stack excRet)
      ++ callEntriesTrace c 0 E)) :
    inRegisterHole c off = true ∨ inCallStackHole c off = true := by
  have key : ∀ c', (c' = 0 ∨ c' = 3) →
      off ∈ storeOffsets (formatRegisters c' (capturedRegisters c' hw r7 stack excRet)
        ++ callEntriesTrace c' 0 E) →
      inRegisterHole c' off = true ∨ inCallStackHole c' off = true := by
    intro c' hc hmem
    rcases fault_stores_in_holes c' hc hw r7 stack excRet E off hmem with
      ⟨i, hi, hb⟩ | ⟨m, hm, hb⟩
    · exact Or.inl ((inRegisterHole_iff c' off).mpr ⟨i, hi, hb⟩)
    · right
      simp only [inCallStackHole, decide_eq_true_eq]
      omega
  rcases variant_cases c with rfl | hpos
  · exact key 0 (Or.inl rfl) h
  · rw [formatRegisters_of_pos hpos, capturedRegisters_of_pos hpos,
      callEntriesTrace_of_pos hpos] at h
    rw [inRegisterHole_of_pos hpos, inCallStackHole_of_pos hpos]
    exact key 3 (Or.inr rfl) h

/-! ## The record is printable up to its terminator -/

theorem dumpLabel_printable (r : faultHandlingRegIndex) :
    ∀ ch ∈ (dumpLabel r).toList, isPrintable ch = true := by
  cases r <;> decide

theorem hex8_printable (v : Nat) : ∀ ch ∈ hex8 v, isPrintable ch = true := by
  intro ch hch
  simp only [hex8, List.mem_map] at hch
  obtain ⟨i, _, rfl⟩ := hch
  have hm := hexDigit_mem _ (nibbleAt_lt v (28 - 4 * i))
  revert hm
  generalize hexDigit (nibbleAt v (28 - 4 * i)) = d
  intro hm
  have hall : ∀ x ∈ "0123456789ABCDEF".toList, isPrintable x = true := by decide
  exact hall d hm

theorem registerRowText_printable (r : faultHandlingRegIndex) (v : Nat) :
    ∀ ch ∈ registerRowText (dumpLabel r) v, isPrintable ch = true := by
  intro ch hch
  simp only [registerRowText, List.mem_append, List.mem_singleton] at hch
  rcases hch with ((h | h) | h) | h
  · exact dumpLabel_printable r ch h
  · rw [h]; decide
  · exact hex8_printable v ch h
  · rw [h]; decide

theorem callStackRowText_printable (e : Nat × Nat) :
    ∀ ch ∈ callStackRowText e, isPrintable ch = true := by
  intro ch hch
  simp only [callStackRowText, List.mem_append, List.mem_singleton] at hch
  rcases hch with ((h | h) | h) | h
  · exact hex8_printable _ ch h
  · rw [h]; decide
  · exact hex8_printable _ ch h
  · rw [h]; decide

/-- A buffer whose first bytes are a dump record is a printable C string of that length less
one. -/
theorem record_is_string (c : Nat) (buf : Buffer) (hw : Hardware) (r7 stack excRet : Nat)
    (calls : List (Nat × Nat))
    (h : bufferBytes buf (FAULT_HANDLING_DUMP_SIZE c) = dumpRecord c hw r7 stack excRet calls) :
    (∀ off, off < FAULT_HANDLING_DUMP_SIZE c - 1 →
        isPrintable (buf off) = true ∧ buf off ≠ NUL)
      ∧ buf (FAULT_HANDLING_DUMP_SIZE c - 1) = NUL := by
  have hs : FAULT_HANDLING_DUMP_SIZE c = (FAULT_HANDLING_DUMP_SIZE c - 1) + 1 := by
    simp only [FAULT_HANDLING_DUMP_SIZE]
    omega
  rw [hs] at h
  generalize FAULT_HANDLING_DUMP_SIZE c - 1 = m at h ⊢
  unfold bufferBytes dumpRecord at h
  rw [List.range_succ, List.map_append, List.map_singleton] at h
  have hinj := List.append_inj' h rfl
  have hnul : buf m = NUL := by simpa using hinj.2
  refine ⟨?_, hnul⟩
  intro off hoff
  have hmem : buf off ∈ List.map buf (List.range m) :=
    List.mem_map_of_mem _ (List.mem_range.mpr hoff)
  rw [hinj.1, List.mem_append, List.mem_flatMap, List.mem_flatMap] at hmem
  have hp : isPrintable (buf off) = true := by
    rcases hmem with ⟨r, _, hr⟩ | ⟨e, _, he⟩
    · exact registerRowText_printable r _ _ hr
    · exact callStackRowText_printable e _ he
  exact ⟨hp, isPrintable_ne_NUL _ hp⟩

/-! ## Where the scan reads -/

/-- The scan reads consecutive words, starting at the word it is entered with. -/
theorem scanLoop_reads_consecutive (c : Nat) (s : Statics) (mem : Memory) (tos fuel : Nat) :
    ∀ fp found tr, fp < W32 → scanLoop c s mem tos fuel fp found = some tr →
      ∃ n, scanReads tr = (List.range n).map fun i => (fp + 4 * i) % W32 := by
  induction fuel with
  | zero => intro fp found tr _ h; simp [scanLoop_zero] at h
  | succ k ih =>
    intro fp found tr hfp h
    have hstep : ∀ t n, scanReads t = (List.range n).map (fun i => ((fp + 4) % W32 + 4 * i) % W32) →
        fp :: scanReads t = (List.range (n + 1)).map fun i => (fp + 4 * i) % W32 := by
      intro t n ht
      rw [List.range_succ_eq_map, List.map_cons, List.map_map, ht]
      congr 1
      · simp [Nat.mod_eq_of_lt hfp]
      · apply List.map_congr_left
        intro i _
        simp only [Function.comp, Nat.succ_eq_add_one]
        rw [Nat.mod_add_mod]
        congr 1
        omega
    have hlt : (fp + 4) % W32 < W32 := Nat.mod_lt _ (by decide)
    rw [scanLoop_succ] at h
    split_ifs at h with h1 h2 h3 h4
    · simp only [Option.map_eq_some'] at h
      obtain ⟨t, ht, rfl⟩ := h
      obtain ⟨n, hn⟩ := ih _ _ _ hlt ht
      exact ⟨n + 1, by rw [scanReads_cons_readScan]; exact hstep t n hn⟩
    · simp only [Option.map_eq_some'] at h
      obtain ⟨t, ht, rfl⟩ := h
      obtain ⟨n, hn⟩ := ih _ _ _ hlt ht
      exact ⟨n + 1, by rw [scanReads_cons_readScan]; exact hstep t n hn⟩
    · simp only [Option.some.injEq] at h
      subst h
      refine ⟨1, ?_⟩
      rw [scanReads_cons_readScan, scanReads_formatCallStackPair]
      show [fp] = [(fp + 4 * 0) % W32]
      rw [Nat.mul_zero, Nat.add_zero, Nat.mod_eq_of_lt hfp]
    · simp only [Option.map_eq_some'] at h
      obtain ⟨t, ht, rfl⟩ := h
      obtain ⟨n, hn⟩ := ih _ _ _ hlt ht
      refine ⟨n + 1, ?_⟩
      rw [scanReads_cons_readScan, scanReads_append, scanReads_formatCallStackPair,
        List.nil_append]
      exact hstep t n hn
    · simp only [Option.some.injEq] at h
      subst h
      exact ⟨0, rfl⟩

/-- A scan that cannot pass the end of the address space reads only at `fp`, `fp + 4`, .. -/
theorem scanLoop_reads_above (c : Nat) (s : Statics) (mem : Memory) (tos fuel : Nat)
    (ht : tos ≤ W32 - 4) :
    ∀ fp found tr, scanLoop c s mem tos fuel fp found = some tr →
      ∀ a ∈ scanReads tr, ∃ i, a = fp + 4 * i := by
  have hW : W32 = 4294967296 := rfl
  induction fuel with
  | zero => intro fp found tr h; simp [scanLoop_zero] at h
  | succ k ih =>
    intro fp found tr h a ha
    have hnext : ∀ t f, fp < tos → scanLoop c s mem tos k ((fp + 4) % W32) f = some t →
        a ∈ scanReads t → ∃ i, a = fp + 4 * i := by
      intro t f hlt ht2 hin
      rw [Nat.mod_eq_of_lt (by omega)] at ht2
      obtain ⟨i, hi⟩ := ih _ _ _ ht2 a hin
      exact ⟨i + 1, by omega⟩
    rw [scanLoop_succ] at h
    split_ifs at h with h1 h2 h3 h4
    · simp only [Option.map_eq_some'] at h
      obtain ⟨t, ht2, rfl⟩ := h
      rw [scanReads_cons_readScan, List.mem_cons] at ha
      rcases ha with rfl | ha
      · exact ⟨0, rfl⟩
      · exact hnext t _ h1 ht2 ha
    · simp only [Option.map_eq_some'] at h
      obtain ⟨t, ht2, rfl⟩ := h
      rw [scanReads_cons_readScan, List.mem_cons] at ha
      rcases ha with rfl | ha
      · exact ⟨0, rfl⟩
      · exact hnext t _ h1 ht2 ha
    · simp only [Option.some.injEq] at h
      subst h
      rw [scanReads_cons_readScan, scanReads_formatCallStackPair, List.mem_singleton] at ha
      exact ⟨0, by rw [ha]; rfl⟩
    · simp only [Option.map_eq_some'] at h
      obtain ⟨t, ht2, rfl⟩ := h
      rw [scanReads_cons_readScan, scanReads_append, scanReads_formatCallStackPair,
        List.nil_append, List.mem_cons] at ha
      rcases ha with rfl | ha
      · exact ⟨0, rfl⟩
      · exact hnext t _ h1 ht2 ha
    · simp only [Option.some.injEq] at h
      subst h
      cases ha

/-- When the scan has recorded its last entry, the word that produced it is the last word
read. -/
theorem scanLoop_last_read (c : Nat) (s : Statics) (mem : Memory) (tos fuel : Nat) :
    ∀ fp found tr, found < 4 → scanLoop c s mem tos fuel fp found = some tr →
      (recordedEntries s mem (scanReads tr)).length + found = 4 →
      ∃ a, (scanReads tr).getLast? = some a
        ∧ qualifies s.startText s.endText (load mem a) = true := by
  induction fuel with
  | zero => intro fp found tr _ h; simp [scanLoop_zero] at h
  | succ k ih =>
    intro fp found tr hf h hlen
    have hcons : ∀ (t : List Event) a, (scanReads t).getLast? = some a →
        (fp :: scanReads t).getLast? = some a := by
      intro t a hl
      cases hr : scanReads t with
      | nil => rw [hr] at hl; cases hl
      | cons x xs => rw [hr] at hl; rw [List.getLast?_cons_cons]; exact hl
    rw [scanLoop_succ] at h
    split_ifs at h with h1 h2 h3 h4
    · simp only [Option.map_eq_some'] at h
      obtain ⟨t, ht, rfl⟩ := h
      have hq : ¬ qualifies s.startText s.endText (load mem fp) = true := by
        rw [qualifies_iff]; tauto
      rw [scanReads_cons_readScan, recordedEntries_cons, if_neg hq] at hlen
      obtain ⟨a, ha, hqa⟩ := ih _ _ _ hf ht hlen
      exact ⟨a, by rw [scanReads_cons_readScan]; exact hcons t a ha, hqa⟩
    · simp only [Option.map_eq_some'] at h
      obtain ⟨t, ht, rfl⟩ := h
      have hq : ¬ qualifies s.startText s.endText (load mem fp) = true := by
        rw [qualifies_iff]; tauto
      rw [scanReads_cons_readScan, recordedEntries_cons, if_neg hq] at hlen
      obtain ⟨a, ha, hqa⟩ := ih _ _ _ hf ht hlen
      exact ⟨a, by rw [scanReads_cons_readScan]; exact hcons t a ha, hqa⟩
    · simp only [Option.some.injEq] at h
      subst h
      have hq : qualifies s.startText s.endText (load mem fp) = true := by
        rw [qualifies_iff]; exact ⟨h2, h3⟩
      refine ⟨fp, ?_, hq⟩
      rw [scanReads_cons_readScan, scanReads_formatCallStackPair]
      rfl
    · simp only [Option.map_eq_some'] at h
      obtain ⟨t, ht, rfl⟩ := h
      have hq : qualifies s.startText s.endText (load mem fp) = true := by
        rw [qualifies_iff]; exact ⟨h2, h3⟩
      have h4' : ¬ found + 1 = 4 := h4
      rw [scanReads_cons_readScan, scanReads_append, scanReads_formatCallStackPair,
        List.nil_append, recordedEntries_cons, if_pos hq, List.length_cons] at hlen
      obtain ⟨a, ha, hqa⟩ := ih _ (found + 1) _ (by omega) ht (by omega)
      refine ⟨a, ?_, hqa⟩
      rw [scanReads_cons_readScan, scanReads_append, scanReads_formatCallStackPair,
        List.nil_append]
      exact hcons t a ha
    · simp only [Option.some.injEq] at h
      subst h
      simp only [scanReads, recordedEntries, List.filter_nil, List.map_nil, List.length_nil,
        Nat.zero_add] at hlen
      omega

/-- The scan of a completed run with a dump processor. -/
theorem FaultHandler_C_scan (c fuel : Nat) (s : Statics) (hw : Hardware)
    (r7 stack excRet p : Nat) (r : Result) (hp : s.dumpProcessor = some p)
    (h : FaultHandler_C c fuel s hw r7 stack excRet = some r) :
    ∃ scan, callStackScan c fuel s hw.mem stack excRet = some scan
      ∧ scanReads r.trace = scanReads scan := by
  rw [FaultHandler_C_of_some c fuel s hw r7 stack excRet p hp] at h
  simp only [Option.map_eq_some'] at h
  obtain ⟨scan, hs, rfl⟩ := h
  have hcb : scanReads [Event.callback p] = [] := rfl
  exact ⟨scan, hs, by simp only [scanReads_append, scanReads_frameReads,
    scanReads_formatRegisters, scanReads_postFaultDispatch, hcb, List.nil_append,
    List.append_nil]⟩

/-! ## The record does not depend on what the buffer held before initialisation -/

theorem record_after_init (c fuel : Nat) (s : Statics) (buf : Buffer) (hw : Hardware)
    (r7 stack excRet p : Nat) (r : Result)
    (hb : s.dumpBuffer = applyTrace buf (faultDumpPrepare c))
    (hp : s.dumpProcessor = some p)
    (hr : FaultHandler_C c fuel s hw r7 stack excRet = some r) :
    bufferBytes (afterFault s r).dumpBuffer (FAULT_HANDLING_DUMP_SIZE c)
      = dumpRecord c hw r7 stack excRet
          (recordedEntries s hw.mem (scanReads r.trace)
            ++ List.replicate (4 - (recordedEntries s hw.mem (scanReads r.trace)).length)
                (0, 0)) := by
  obtain ⟨b, l⟩ := afterFault_buffer c fuel s hw r7 stack excRet p r hp hr
  have hrec := dump_layout_any c buf hw r7 stack excRet _ l
  rw [b, hb]
  exact hrec

theorem recordedEntries_config (s s' : Statics) (mem : Memory) (reads : List Nat)
    (h1 : s'.startText = s.startText) (h2 : s'.endText = s.endText) :
    recordedEntries s' mem reads = recordedEntries s mem reads := by
  simp only [recordedEntries, qualifies, h1, h2]

/-! ## Register rows only -/

theorem hexCharValue_hexDigit (d : Nat) (h : d < 16) : hexCharValue (hexDigit d) = d := by
  interval_cases d <;> decide

theorem hexCharValue_nibble (x : Nat) : hexCharValue (hexDigit (x % 16)) = x % 16 :=
  hexCharValue_hexDigit _ (Nat.mod_lt _ (by norm_num))

theorem readHex_hex8 (v : Nat) : readHex (hex8 v) = v % W32 := by
  have hW : W32 = 4294967296 := rfl
  simp only [readHex, hex8, List.range_succ, List.range_zero, List.nil_append, List.map_cons,
    List.map_nil, List.cons_append, List.foldl_cons, List.foldl_nil, nibbleAt_eq]
  norm_num
  simp only [hexCharValue_nibble]
  rw [hW]
  have h2 : v / 16 / 16 = v / 256 := Nat.div_div_eq_div_mul v 16 16
  have h3 : v / 256 / 16 = v / 4096 := Nat.div_div_eq_div_mul v 256 16
  have h4 : v / 4096 / 16 = v / 65536 := Nat.div_div_eq_div_mul v 4096 16
  have h5 : v / 65536 / 16 = v / 1048576 := Nat.div_div_eq_div_mul v 65536 16
  have h6 : v / 1048576 / 16 = v / 16777216 := Nat.div_div_eq_div_mul v 1048576 16
  have h7 : v / 16777216 / 16 = v / 268435456 := Nat.div_div_eq_div_mul v 16777216 16
  have h8 : v / 268435456 / 16 = v / 4294967296 := Nat.div_div_eq_div_mul v 268435456 16
  omega

theorem hex8_injective (v w : Nat) (h : hex8 v = hex8 w) : v % W32 = w % W32 := by
  rw [← readHex_hex8 v, ← readHex_hex8 w, h]

/-! ## How long the scan runs -/

/-- With a bound of at most `0xFFFFFFFC` the scan pointer never wraps: the loop ends within
the given fuel and reads at most one word per four bytes between `fp` and the bound. -/
theorem scanLoop_bounded (c : Nat) (s : Statics) (mem : Memory) (tos : Nat)
    (ht : tos ≤ W32 - 4) :
    ∀ fuel fp found, (tos - fp + 3) / 4 < fuel →
      ∃ tr, scanLoop c s mem tos fuel fp found = some tr
        ∧ (scanReads tr).length ≤ (tos - fp + 3) / 4 := by
  have hW : W32 = 4294967296 := rfl
  intro fuel
  induction fuel with
  | zero => intro fp found h; omega
  | succ n ih =>
    intro fp found hfuel
    rw [scanLoop_succ]
    by_cases h1 : fp < tos
    · have hmod : (fp + 4) % W32 = fp + 4 := Nat.mod_eq_of_lt (by omega)
      have hn : (tos - (fp + 4) + 3) / 4 < n := by omega
      have hb : (tos - (fp + 4) + 3) / 4 + 1 ≤ (tos - fp + 3) / 4 := by omega
      rw [if_pos h1, hmod]
      obtain ⟨t, ht1, ht2⟩ := ih (fp + 4) found hn
      obtain ⟨u, hu1, hu2⟩ := ih (fp + 4) (found + 1) hn
      split_ifs
      · refine ⟨_, by rw [ht1]; rfl, ?_⟩
        rw [scanReads_cons_readScan, List.length_cons]
        omega
      · refine ⟨_, by rw [ht1]; rfl, ?_⟩
        rw [scanReads_cons_readScan, List.length_cons]
        omega
      · refine ⟨_, rfl, ?_⟩
        rw [scanReads_cons_readScan, scanReads_formatCallStackPair, List.length_cons,
          List.length_nil]
        omega
      · refine ⟨_, by rw [hu1]; rfl, ?_⟩
        rw [scanReads_cons_readScan, scanReads_append, scanReads_formatCallStackPair,
          List.nil_append, List.length_cons]
        omega
    · rw [if_neg h1]
      exact ⟨[], rfl, Nat.zero_le _⟩

theorem qualifies_zero (lo hi : Nat) : qualifies lo hi 0 = false := by
  simp [qualifies]

/-- With a bound above `0xFFFFFFFC`, a word-aligned scan pointer and no qualifying word in
memory, the loop outlives every fuel: the pointer wraps to 0 below the bound. -/
theorem scanLoop_never_ends (c : Nat) (s : Statics) (mem : Memory) (tos : Nat)
    (ht : W32 - 4 < tos)
    (hq : ∀ a, qualifies s.startText s.endText (load mem a) = false) :
    ∀ fuel fp found, fp < W32 → fp % 4 = 0 → scanLoop c s mem tos fuel fp found = none := by
  have hW : W32 = 4294967296 := rfl
  intro fuel
  induction fuel with
  | zero => intro fp found _ _; exact scanLoop_zero c s mem tos fp found
  | succ n ih =>
    intro fp found hfp hal
    have h1 : fp < tos := by omega
    have hnext : ∀ f, scanLoop c s mem tos n ((fp + 4) % W32) f = none :=
      fun f => ih _ f (Nat.mod_lt _ (by omega)) (by rw [hW]; omega)
    have hnq : ¬(¬(load mem fp < s.startText ∨ load mem fp > s.endText)
        ∧ ¬(load mem fp &&& 1 = 0)) := by
      intro hh
      have := (qualifies_iff s _).mpr hh
      rw [hq fp] at this
      exact absurd this (by decide)
    rw [scanLoop_succ, if_pos h1]
    split_ifs with a1 a2
    · rw [hnext]; rfl
    · rw [hnext]; rfl
    · exact absurd ⟨a1, a2⟩ hnq
    · exact absurd ⟨a1, a2⟩ hnq

theorem FaultHandler_C_never_ends (c : Nat) (s : Statics) (hw : Hardware)
    (r7 stack excRet p : Nat) (hp : s.dumpProcessor = some p) (he : s.endText > 0)
    (ht : W32 - 4 < TOS s excRet) (hal : stack % 4 = 0)
    (hq : ∀ a, qualifies s.startText s.endText (load hw.mem a) = false) (fuel : Nat) :
    FaultHandler_C c fuel s hw r7 stack excRet = none := by
  have hW : W32 = 4294967296 := rfl
  rw [FaultHandler_C_of_some c fuel s hw r7 stack excRet p hp]
  unfold callStackScan
  rw [if_pos he, scanLoop_never_ends c s hw.mem _ ht hq fuel _ 0 (Nat.mod_lt _ (by omega))
    (by rw [hW]; omega)]
  rfl

theorem FaultHandler_C_bounded (c : Nat) (s : Statics) (hw : Hardware)
    (r7 stack excRet : Nat) (ht : TOS s excRet ≤ W32 - 4) (fuel : Nat)
    (hfuel : (TOS s excRet - (stack + 32) % W32 + 3) / 4 < fuel) :
    ∃ r, FaultHandler_C c fuel s hw r7 stack excRet = some r
      ∧ (scanReads r.trace).length ≤ (TOS s excRet - (stack + 32) % W32 + 3) / 4 := by
  obtain ⟨r, hr, -⟩ := FaultHandler_C_total c s hw r7 stack excRet (Or.inr ht) fuel hfuel
  refine ⟨r, hr, ?_⟩
  rcases FaultHandler_C_scanReads c fuel s hw r7 stack excRet r hr with h0 | ⟨scan, hs, he⟩
  · rw [h0]; exact Nat.zero_le _
  · rw [he]
    unfold callStackScan at hs
    split at hs
    · obtain ⟨tr, h1, h2⟩ := scanLoop_bounded c s hw.mem _ ht fuel ((stack + 4 * 8) % W32) 0
        hfuel
      rw [h1] at hs
      rw [← Option.some.inj hs]
      exact h2
    · rw [← Option.some.inj hs]
      exact Nat.zero_le _

/-! ## What the scan records -/

theorem recordedEntries_mem (s : Statics) (mem : Memory) (reads : List Nat) (e : Nat × Nat)
    (h : e ∈ recordedEntries s mem reads) :
    e.1 ∈ reads ∧ e.2 = load mem e.1 ∧ qualifies s.startText s.endText e.2 = true := by
  unfold recordedEntries at h
  rw [List.mem_map] at h
  obtain ⟨a, ha, rfl⟩ := h
  rw [List.mem_filter] at ha
  exact ⟨ha.1, rfl, ha.2⟩

theorem qualifies_odd (lo hi v : Nat) (h : qualifies lo hi v = true) : v % 2 = 1 := by
  simp only [qualifies, decide_eq_true_eq] at h
  exact h.2.2

theorem hex8_zero : hex8 0 = "00000000".toList := by decide

theorem hex8_ne_zero_of_odd (v : Nat) (h : v % 2 = 1) : hex8 v ≠ "00000000".toList := by
  have hW : W32 = 4294967296 := rfl
  intro he
  have := hex8_injective v 0 (he.trans hex8_zero.symm)
  rw [hW] at this
  omega

theorem callStackRowText_ne_zero_of_odd (e : Nat × Nat) (h : e.2 % 2 = 1) :
    callStackRowText e ≠ "00000000 00000000\n".toList := by
  intro he
  rw [← callStackRowText_zero] at he
  unfold callStackRowText at he
  have h3 := List.append_inj' he rfl
  have h2 := List.append_inj' h3.1 (by simp [hex8])
  exact hex8_ne_zero_of_odd e.2 h (h2.2.trans hex8_zero)

/-- The value hole of a call-stack row that a capture fills, on any buffer. -/
theorem valueHole_afterFault (c fuel : Nat) (s : Statics) (hw : Hardware)
    (r7 stack excRet p : Nat) (r : Result) (hp : s.dumpProcessor = some p)
    (h : FaultHandler_C c fuel s hw r7 stack excRet = some r) (j : Nat)
    (hj : j < (recordedEntries s hw.mem (scanReads r.trace)).length) :
    bufferSlice (afterFault s r).dumpBuffer (15 * FAULT_HANDLING_CPUREG_COUNT c + 18 * j + 9) 8
      = hex8 ((recordedEntries s hw.mem (scanReads r.trace)).getD j (0, 0)).2 := by
  obtain ⟨b, -⟩ := afterFault_buffer c fuel s hw r7 stack excRet p r hp h
  have hs := (slice_callEntriesTrace c _ 0 (applyTrace s.dumpBuffer
    (formatRegisters c (capturedRegisters c hw r7 stack excRet))) j hj).2
  rw [Nat.zero_add] at hs
  rw [b, applyTrace_append, hs, List.getD_eq_getElem _ _ hj]

/-! ## Configuration calls -/

theorem FaultHandler_C_of_scanLoop (c fuel : Nat) (s : Statics) (hw : Hardware)
    (r7 stack excRet p : Nat) (scan : List Event) (hp : s.dumpProcessor = some p)
    (he : s.endText > 0)
    (hs : scanLoop c s hw.mem (TOS s excRet) fuel ((stack + 4 * 8) % W32) 0 = some scan) :
    ∃ r, FaultHandler_C c fuel s hw r7 stack excRet = some r
      ∧ scanReads r.trace = scanReads scan := by
  have hcs : callStackScan c fuel s hw.mem stack excRet = some scan := by
    unfold callStackScan
    rw [if_pos he]
    exact hs
  have hF := FaultHandler_C_of_some c fuel s hw r7 stack excRet p hp
  rw [hcs] at hF
  refine ⟨_, hF, ?_⟩
  rcases FaultHandler_C_scanReads c fuel s hw r7 stack excRet _ hF with h0 | ⟨scan2, hs2, he2⟩
  · have hsc := FaultHandler_C_scan c fuel s hw r7 stack excRet p _ hp hF
    obtain ⟨scan3, h3, h4⟩ := hsc
    rw [hcs] at h3
    rw [h4, ← Option.some.inj h3]
  · rw [hcs] at hs2
    rw [he2, ← Option.some.inj hs2]

/-- Call-stack row `j` after a capture on an initialised buffer, from the addresses the scan
read. -/
theorem callStackRow_of_reads (c fuel : Nat) (s : Statics) (buf0 : Buffer) (hw : Hardware)
    (r7 stack excRet p : Nat) (r : Result)
    (hinit : s.dumpBuffer = applyTrace buf0 (faultDumpPrepare c))
    (hp : s.dumpProcessor = some p)
    (h : FaultHandler_C c fuel s hw r7 stack excRet = some r) (j : Nat) (hj : j < 4)
    (L : List Nat) (hL : scanReads r.trace = L) (e : Nat × Nat)
    (hE : (recordedEntries s hw.mem L).getD j (0, 0) = e) :
    callStackRow c (afterFault s r).dumpBuffer j = callStackRowText e := by
  rw [callStackRow_afterFault c fuel s buf0 hw r7 stack excRet p r hinit hp h j hj, hL, hE]

/-- A stretch of `n` words that lie below the bound and do not qualify is read and passed
over. -/
theorem scanLoop_skip (c : Nat) (s : Statics) (mem : Memory) (tos fuel found : Nat) :
    ∀ n fp fp2 tr, fp < W32 →
      (∀ i, i < n → (fp + 4 * i) % W32 < tos
        ∧ qualifies s.startText s.endText (load mem ((fp + 4 * i) % W32)) = false) →
      (fp + 4 * n) % W32 = fp2 →
      scanLoop c s mem tos fuel fp2 found = some tr →
      ∃ tr2, scanLoop c s mem tos (n + fuel) fp found = some tr2
        ∧ ∀ a ∈ scanReads tr, a ∈ scanReads tr2 := by
  intro n
  induction n with
  | zero =>
    intro fp fp2 tr hfp _ h2 h
    rw [Nat.mul_zero, Nat.add_zero, Nat.mod_eq_of_lt hfp] at h2
    rw [Nat.zero_add, h2]
    exact ⟨tr, h, fun a ha => ha⟩
  | succ k ih =>
    intro fp fp2 tr hfp hskip h2 h
    have hW : W32 = 4294967296 := rfl
    have h0 := hskip 0 (Nat.succ_pos k)
    rw [Nat.mul_zero, Nat.add_zero, Nat.mod_eq_of_lt hfp] at h0
    have hnext : ∀ i, i < k → ((fp + 4) % W32 + 4 * i) % W32 < tos
        ∧ qualifies s.startText s.endText (load mem (((fp + 4) % W32 + 4 * i) % W32))
            = false := by
      intro i hi
      have e : ((fp + 4) % W32 + 4 * i) % W32 = (fp + 4 * (i + 1)) % W32 := by
        rw [Nat.mod_add_mod]
        congr 1
        omega
      rw [e]
      exact hskip (i + 1) (by omega)
    have h2' : ((fp + 4) % W32 + 4 * k) % W32 = fp2 := by
      rw [Nat.mod_add_mod, ← h2]
      congr 1
      omega
    obtain ⟨t, ht1, ht2⟩ := ih ((fp + 4) % W32) fp2 tr (Nat.mod_lt _ (by omega)) hnext h2' h
    have hnq : ¬(¬(load mem fp < s.startText ∨ load mem fp > s.endText)
        ∧ ¬(load mem fp &&& 1 = 0)) := by
      intro hh
      have := (qualifies_iff s _).mpr hh
      rw [h0.2] at this
      exact absurd this (by decide)
    have hfuel : k + 1 + fuel = (k + fuel) + 1 := by omega
    rw [hfuel, scanLoop_succ, if_pos h0.1]
    have hmem : ∀ a ∈ scanReads tr, a ∈ scanReads (Event.readScan fp :: t) := by
      intro a ha
      rw [scanReads_cons_readScan]
      exact List.mem_cons_of_mem _ (ht2 a ha)
    split_ifs with a1 a2
    · exact ⟨_, by rw [ht1]; rfl, hmem⟩
    · exact ⟨_, by rw [ht1]; rfl, hmem⟩
    · exact absurd ⟨a1, a2⟩ hnq
    · exact absurd ⟨a1, a2⟩ hnq

theorem load_frameHitMemory (a : Nat) (h1 : a % W32 ≠ 0x2000FFD0) (h2 : a % W32 ≠ 0x2000FFD4)
    (h3 : a % W32 ≠ 0x2000FFD8) (h4 : a % W32 ≠ 0x2000FFDC) : load frameHitMemory a = 0 := by
  simp only [load, frameHitMemory, if_neg h1, if_neg h2, if_neg h3, if_neg h4, Nat.zero_mod]

/-! ## Hexadecimal formatting -/

/-- C2: `formatRegValue` stores, at offsets 6..13 of the row, the eight upper-case hexadecimal
digits of the value, digit `i` being that of bits `31-4i .. 28-4i`, most significant nibble
first; `0x0000002A` reads "0000002A" and `0xFFFFFFFF` reads "FFFFFFFF"; `formatCallStackPair`
formats its address (offsets 0..7 of the row) and its value (offsets 9..16) the same way. -/
theorem formatRegValue_hex_digits (cortexM index v a : Nat) (buf : Buffer) :
    formatRegValue index v
        = (List.range 8).map (fun i =>
            Event.store (15 * index + 6 + i) (hexDigit (nibbleAt v (28 - 4 * i))))
      ∧ (List.range 8).map (fun i => applyTrace buf (formatRegValue index v) (15 * index + 6 + i))
          = hex8 v
      ∧ (hex8 v).length = 8
      ∧ (∀ ch ∈ hex8 v, ch ∈ "0123456789ABCDEF".toList)
      ∧ hex8 0x0000002A = "0000002A".toList
      ∧ hex8 0xFFFFFFFF = "FFFFFFFF".toList
      ∧ formatCallStackPair cortexM index a v
          = (List.range 8).flatMap (fun i =>
              [Event.store (15 * FAULT_HANDLING_CPUREG_COUNT cortexM + 18 * index + i)
                 (hexDigit (nibbleAt a (28 - 4 * i))),
               Event.store (15 * FAULT_HANDLING_CPUREG_COUNT cortexM + 18 * index + 9 + i)
                 (hexDigit (nibbleAt v (28 - 4 * i)))])
      ∧ (List.range 8).map (fun i => applyTrace buf (formatCallStackPair cortexM index a v)
            (15 * FAULT_HANDLING_CPUREG_COUNT cortexM + 18 * index + i)) = hex8 a
      ∧ (List.range 8).map (fun i => applyTrace buf (formatCallStackPair cortexM index a v)
            (15 * FAULT_HANDLING_CPUREG_COUNT cortexM + 18 * index + 9 + i)) = hex8 v := by
  refine ⟨formatRegValue_eq index v, ?_, by simp [hex8], ?_, by decide, by decide,
    formatCallStackPair_eq cortexM index a v, ?_, ?_⟩
  · rw [formatRegValue_eq]
    simp [hex8, List.range_succ, applyTrace, applyEvent, Nat.add_assoc]
  · intro ch hch
    simp only [hex8, List.mem_map] at hch
    obtain ⟨i, _, rfl⟩ := hch
    exact hexDigit_mem _ (nibbleAt_lt _ _)
  · rw [formatCallStackPair_eq]
    simp [hex8, List.range_succ, applyTrace, applyEvent, Nat.add_assoc]
  · rw [formatCallStackPair_eq]
    simp [hex8, List.range_succ, applyTrace, applyEvent, Nat.add_assoc]

/-! ## Size of the dump -/

/-- C3: for either variant `FAULT_HANDLING_DUMP_SIZE` is the register-row count times 15, plus
4 times 18, plus 1, the register-row count being the number of labels laid out and the number of
rows formatted at fault time (rows 0, 1, .. in order); 17 rows and 328 bytes on CM3/CM4, 13 rows
and 268 bytes on CM0+. -/
theorem dump_size_formula (cortexM : Nat) (hw : Hardware) (r7 stack excRet : Nat) :
    FAULT_HANDLING_DUMP_SIZE cortexM = FAULT_HANDLING_CPUREG_COUNT cortexM * 15 + 4 * 18 + 1
      ∧ (cpuRegLabels cortexM).length = FAULT_HANDLING_CPUREG_COUNT cortexM
      ∧ (capturedRegisters cortexM hw r7 stack excRet).map (fun rv => regIndexValue cortexM rv.1)
          = List.range (FAULT_HANDLING_CPUREG_COUNT cortexM)
      ∧ FAULT_HANDLING_CPUREG_COUNT cortexM = (if cortexM > 0 then 17 else 13)
      ∧ FAULT_HANDLING_DUMP_SIZE cortexM = (if cortexM > 0 then 328 else 268) := by
  rcases variant_cases cortexM with h | h
  · subst h
    exact ⟨by decide, by decide, rfl, by decide, by decide⟩
  · rw [dumpSize_of_pos h, cpuregCount_of_pos h, cpuRegLabels_of_pos h,
      capturedRegisters_of_pos h, regIndexValue_of_pos h, if_pos h, if_pos h]
    exact ⟨by decide, by decide, rfl, by decide, by decide⟩

/-! ## Bounds of the stores -/

/-- C4: for either variant, every offset stored to by `faultDumpPrepare` (the terminator that
`strcpy` copies after each label included), by `formatRegValue` for a row index below
`FAULT_HANDLING_CPUREG_COUNT`, and by `formatCallStackPair` for an index below 4, is below
`FAULT_HANDLING_DUMP_SIZE`; the last store of `faultDumpPrepare` puts the NUL at offset
`FAULT_HANDLING_DUMP_SIZE - 1`. -/
theorem stores_within_dump (cortexM : Nat) :
    (∀ off ∈ storeOffsets (faultDumpPrepare cortexM), off < FAULT_HANDLING_DUMP_SIZE cortexM)
      ∧ (∀ i, i < FAULT_HANDLING_CPUREG_COUNT cortexM →
          Event.store (15 * i + 5) NUL ∈ faultDumpPrepare cortexM)
      ∧ (∀ index v, index < FAULT_HANDLING_CPUREG_COUNT cortexM →
          ∀ off ∈ storeOffsets (formatRegValue index v), off < FAULT_HANDLING_DUMP_SIZE cortexM)
      ∧ (∀ index a v, index < FAULT_HANDLING_CALLSTACK_ENTRIES →
          ∀ off ∈ storeOffsets (formatCallStackPair cortexM index a v),
            off < FAULT_HANDLING_DUMP_SIZE cortexM)
      ∧ (faultDumpPrepare cortexM).getLast?
          = some (Event.store (FAULT_HANDLING_DUMP_SIZE cortexM - 1) NUL) := by
  have hreg : ∀ index v off, off ∈ storeOffsets (formatRegValue index v) →
      off < 15 * index + 14 := by
    intro index v off h
    rw [formatRegValue_eq] at h
    simp only [List.range_succ, List.range_zero, List.nil_append, List.map_cons, List.map_nil,
      List.cons_append, List.map_append, storeOffsets, List.mem_cons, List.not_mem_nil,
      or_false] at h
    omega
  have hcall : ∀ c index a v off, off ∈ storeOffsets (formatCallStackPair c index a v) →
      off < 15 * FAULT_HANDLING_CPUREG_COUNT c + 18 * index + 17 := by
    intro c index a v off h
    rw [formatCallStackPair_eq] at h
    simp only [List.range_succ, List.range_zero, List.nil_append, List.flatMap_cons,
      List.flatMap_nil, List.cons_append, List.flatMap_append, List.append_nil,
      storeOffsets, List.mem_cons, List.not_mem_nil, or_false] at h
    omega
  have key : ∀ c, (c = 0 ∨ c = 3) →
      (∀ off ∈ storeOffsets (faultDumpPrepare c), off < FAULT_HANDLING_DUMP_SIZE c)
      ∧ (∀ i, i < FAULT_HANDLING_CPUREG_COUNT c → Event.store (15 * i + 5) NUL ∈ faultDumpPrepare c)
      ∧ (∀ index v, index < FAULT_HANDLING_CPUREG_COUNT c →
          ∀ off ∈ storeOffsets (formatRegValue index v), off < FAULT_HANDLING_DUMP_SIZE c)
      ∧ (∀ index a v, index < FAULT_HANDLING_CALLSTACK_ENTRIES →
          ∀ off ∈ storeOffsets (formatCallStackPair c index a v),
            off < FAULT_HANDLING_DUMP_SIZE c)
      ∧ (faultDumpPrepare c).getLast?
          = some (Event.store (FAULT_HANDLING_DUMP_SIZE c - 1) NUL) := by
    intro c hc
    have hsize : FAULT_HANDLING_DUMP_SIZE c = 15 * FAULT_HANDLING_CPUREG_COUNT c + 73 := by
      rcases hc with rfl | rfl <;> decide
    refine ⟨?_, ?_, ?_, ?_, ?_⟩
    · rcases hc with rfl | rfl
      · exact prepare_offsets_cm0
      · exact prepare_offsets_cm3
    · rcases hc with rfl | rfl
      · intro i hi
        have hi' : i < 13 := hi
        interval_cases i <;> decide
      · intro i hi
        have hi' : i < 17 := hi
        interval_cases i <;> decide
    · intro index v hi off hoff
      have := hreg index v off hoff
      omega
    · intro index a v hi off hoff
      have := hcall c index a v off hoff
      have hi' : index < 4 := hi
      omega
    · rcases hc with rfl | rfl <;> decide
  rcases variant_cases cortexM with h | h
  · exact key cortexM (Or.inl h)
  · rw [faultDumpPrepare_of_pos h, dumpSize_of_pos h, cpuregCount_of_pos h,
      formatCallStackPair_of_pos h]
    exact key 3 (Or.inr rfl)

/-- C4 at a concrete input: row 16 of the CM3 table and call-stack row 3. -/
theorem stores_within_dump_witness :
    (16 < FAULT_HANDLING_CPUREG_COUNT 3 ∧ 253 ∈ storeOffsets (formatRegValue 16 0xDEADBEEF)
        ∧ 253 < FAULT_HANDLING_DUMP_SIZE 3)
      ∧ (3 < FAULT_HANDLING_CALLSTACK_ENTRIES
        ∧ 325 ∈ storeOffsets (formatCallStackPair 3 3 0x20000FFC 0x127)
        ∧ 325 < FAULT_HANDLING_DUMP_SIZE 3) :=
  ⟨⟨by decide, by decide,
      (stores_within_dump 3).2.2.1 16 0xDEADBEEF (by decide) 253 (by decide)⟩,
    ⟨by decide, by decide,
      (stores_within_dump 3).2.2.2.1 3 0x20000FFC 0x127 (by decide) 325 (by decide)⟩⟩

/-! ## Stack-top selection -/

/-- C7: the upper bound of the scan is the process-stack top when bit 2 (mask 4) of the
exception-return value is set and the main-stack top otherwise: `0xFFFFFFFD` selects the
process-stack top, `0xFFFFFFF9` and `0xFFFFFFF1` the main-stack top; the scan loop runs against
that bound and every candidate a completed run reads lies below it. -/
theorem scan_bound_selection (cortexM fuel : Nat) (s : Statics) (hw : Hardware)
    (r7 stack excRet : Nat) :
    TOS s excRet = (if excRet.testBit 2 then s.pspTop else s.mspTop)
      ∧ TOS s 0xFFFFFFFD = s.pspTop
      ∧ TOS s 0xFFFFFFF9 = s.mspTop
      ∧ TOS s 0xFFFFFFF1 = s.mspTop
      ∧ callStackScan cortexM fuel s hw.mem stack excRet
          = (if s.endText > 0 then
              scanLoop cortexM s hw.mem (if excRet.testBit 2 then s.pspTop else s.mspTop) fuel
                ((stack + 32) % W32) 0
             else some [])
      ∧ ∀ r, FaultHandler_C cortexM fuel s hw r7 stack excRet = some r →
          ∀ a ∈ scanReads r.trace, a < (if excRet.testBit 2 then s.pspTop else s.mspTop) := by
  refine ⟨TOS_eq s excRet, ?_, ?_, ?_, ?_, ?_⟩
  · rw [TOS_eq]; rfl
  · rw [TOS_eq]; rfl
  · rw [TOS_eq]; rfl
  · simp only [callStackScan, TOS_eq]
  · intro r h a ha
    rw [← TOS_eq]
    exact FaultHandler_C_reads_lt cortexM fuel s hw r7 stack excRet r h a ha

/-! ## No dump processor -/

/-- C8: with no dump processor registered (never set, or set to `NULL`), `FaultHandler_C`
returns at once for every input and every configured action: the run has no event at all (no
store, no callback, no reset, no breakpoint), it ends by returning, and the buffer is
unchanged. -/
theorem no_processor_returns_at_once (cortexM fuel : Nat) (s : Statics) (hw : Hardware)
    (r7 stack excRet : Nat) (h : s.dumpProcessor = none) :
    FaultHandler_C cortexM fuel s hw r7 stack excRet
        = some { trace := [], outcome := Outcome.returned }
      ∧ (∀ r, FaultHandler_C cortexM fuel s hw r7 stack excRet = some r →
          r.trace = [] ∧ r.outcome = Outcome.returned
            ∧ (afterFault s r).dumpBuffer = s.dumpBuffer)
      ∧ (∀ buf, (initialStatics buf).dumpProcessor = none)
      ∧ (∀ s0 buf, (faultHandlingSetDumpProcessor cortexM s0 buf none).dumpProcessor = none)
      ∧ (∀ lo hi msp psp,
          (faultHandlingSetCallStackParameters s lo hi msp psp).dumpProcessor = none)
      ∧ (∀ pfa, (faultHandlingSetPostFaultAction s pfa).dumpProcessor = none) := by
  have h0 := FaultHandler_C_of_none cortexM fuel s hw r7 stack excRet h
  refine ⟨h0, ?_, fun _ => rfl, fun _ _ => rfl, fun _ _ _ _ => h, fun _ => h⟩
  intro r hr
  rw [h0] at hr
  simp only [Option.some.injEq] at hr
  subst hr
  exact ⟨rfl, rfl, rfl⟩

/-- C8 at a concrete input: processor set to `NULL`, scan configured, action Reset. -/
theorem no_processor_returns_at_once_witness :
    (faultHandlingSetPostFaultAction
        (faultHandlingSetCallStackParameters
          (faultHandlingSetDumpProcessor 3 (initialStatics (fun _ => 'x')) (fun _ => 'x') none)
          4 0x1000 0x20010000 0) POSTHANDLER_RESET).dumpProcessor = none
      ∧ FaultHandler_C 3 0
          (faultHandlingSetPostFaultAction
            (faultHandlingSetCallStackParameters
              (faultHandlingSetDumpProcessor 3 (initialStatics (fun _ => 'x')) (fun _ => 'x')
                none)
              4 0x1000 0x20010000 0) POSTHANDLER_RESET)
          ⟨0, 0, 0, 0, 0, 3, fun _ => 0x101⟩ 0 0x2000FFD0 0xFFFFFFF9
        = some { trace := [], outcome := Outcome.returned } :=
  ⟨rfl, (no_processor_returns_at_once 3 0 _ ⟨0, 0, 0, 0, 0, 3, fun _ => 0x101⟩ 0 0x2000FFD0
    0xFFFFFFF9 rfl).1⟩

/-! ## Call-stack parameters -/

/-- C10: after `faultHandlingSetCallStackParameters(textLo, textHi, mspTop, pspTop)` with 32-bit
arguments, the stored process-stack top is the main-stack top of that same call when `pspTop`
is 0 and `pspTop` otherwise; the code bounds and the main-stack top are stored as given. -/
theorem callStackParameters_stored (s : Statics) (textLo textHi mspTop_ pspTop_ : Nat)
    (hLo : textLo < W32) (hHi : textHi < W32) (hMsp : mspTop_ < W32) (hPsp : pspTop_ < W32) :
    (faultHandlingSetCallStackParameters s textLo textHi mspTop_ pspTop_).pspTop
        = (if pspTop_ = 0 then mspTop_ else pspTop_)
      ∧ (faultHandlingSetCallStackParameters s textLo textHi mspTop_ pspTop_).startText = textLo
      ∧ (faultHandlingSetCallStackParameters s textLo textHi mspTop_ pspTop_).endText = textHi
      ∧ (faultHandlingSetCallStackParameters s textLo textHi mspTop_ pspTop_).mspTop = mspTop_ := by
  simp only [faultHandlingSetCallStackParameters, Nat.mod_eq_of_lt hLo, Nat.mod_eq_of_lt hHi,
    Nat.mod_eq_of_lt hMsp, Nat.mod_eq_of_lt hPsp, and_self]

/-- C10 at concrete inputs: `pspTop` zero, as in the test programs. -/
theorem callStackParameters_stored_witness :
    (faultHandlingSetCallStackParameters (initialStatics (fun _ => 'x'))
        0 0x8000 0x20020000 0).pspTop = 0x20020000
      ∧ (faultHandlingSetCallStackParameters (initialStatics (fun _ => 'x'))
        0 0x8000 0x20020000 0).endText = 0x8000 :=
  have h := callStackParameters_stored (initialStatics (fun _ => 'x')) 0 0x8000 0x20020000 0
    (by decide) (by decide) (by decide) (by decide)
  ⟨h.1, h.2.2.1⟩

/-! ## The dump record -/

/-- C1: for either variant, on a buffer initialised by `faultHandlingSetDumpProcessor` with a
non-null callback, and for every input, the buffer after a completed `FaultHandler_C` is: one
row per register in the fixed order, each row its label, a space, the eight hexadecimal
characters of that register's captured value and a line end; then four call-stack rows (eight
hexadecimal characters, space, eight hexadecimal characters, line end); then one NUL. The
handler completes whenever the scan is disabled or its bound is at most `0xFFFFFFFC`. The
sample dump of the header comment is such a record. -/
theorem dump_record_layout (cortexM : Nat) (s s0 : Statics) (buf0 : Buffer) (p : Nat)
    (hw : Hardware) (r7 stack excRet : Nat)
    (hinit : s.dumpBuffer = (faultHandlingSetDumpProcessor cortexM s0 buf0 (some p)).dumpBuffer)
    (hp : s.dumpProcessor = some p) :
    (∀ fuel r, FaultHandler_C cortexM fuel s hw r7 stack excRet = some r →
        ∃ calls : List (Nat × Nat), calls.length = 4
          ∧ bufferBytes (afterFault s r).dumpBuffer (FAULT_HANDLING_DUMP_SIZE cortexM)
              = dumpRecord cortexM hw r7 stack excRet calls)
      ∧ (∀ fuel, (s.endText = 0 ∨ TOS s excRet ≤ W32 - 4) →
          (TOS s excRet - (stack + 32) % W32 + 3) / 4 < fuel →
          ∃ r, FaultHandler_C cortexM fuel s hw r7 stack excRet = some r)
      ∧ sampleDump.toList ++ [NUL]
          = dumpRecord 3 sampleHardware 0x2001FFF0 0x2001FFD0 0xFFFFFFF9
              [(0x20000FE4, 0x00000317), (0x20000FEC, 0x000002ED),
               (0x20000FF4, 0x000002AF), (0x20000FFC, 0x00000127)] := by
  refine ⟨?_, ?_, sampleDump_eq⟩
  · intro fuel r hr
    obtain ⟨h1, h2⟩ := FaultHandler_C_stores cortexM fuel s hw r7 stack excRet p r hp hr
    refine ⟨recordedEntries s hw.mem (scanReads r.trace)
      ++ List.replicate (4 - (recordedEntries s hw.mem (scanReads r.trace)).length) (0, 0),
      ?_, ?_⟩
    · rw [List.length_append, List.length_replicate]
      omega
    · have hb : (afterFault s r).dumpBuffer
          = applyTrace (applyTrace buf0 (faultDumpPrepare cortexM)) (stores r.trace) := by
        simp only [afterFault, hinit, faultHandlingSetDumpProcessor]
        exact applyTrace_stores _ _
      rw [hb, h1]
      exact dump_layout_any cortexM buf0 hw r7 stack excRet _ h2
  · intro fuel h hfuel
    obtain ⟨r, hr, -⟩ := FaultHandler_C_total cortexM s hw r7 stack excRet h fuel hfuel
    exact ⟨r, hr⟩

/-- C1 at a concrete fault on the CM3 variant. -/
theorem dump_record_layout_witness :
    ∃ r calls, FaultHandler_C 3 8 witnessStatics witnessHardware 0x2001FFF0 0x2000FFD0 0xFFFFFFF9
        = some r
      ∧ calls.length = 4
      ∧ bufferBytes (afterFault witnessStatics r).dumpBuffer (FAULT_HANDLING_DUMP_SIZE 3)
          = dumpRecord 3 witnessHardware 0x2001FFF0 0x2000FFD0 0xFFFFFFF9 calls := by
  have h := dump_record_layout 3 witnessStatics (initialStatics fun _ => '#') (fun _ => '#') 1
    witnessHardware 0x2001FFF0 0x2000FFD0 0xFFFFFFF9 rfl rfl
  obtain ⟨r, hr⟩ := h.2.1 8 (Or.inr (by decide)) (by decide)
  obtain ⟨calls, h1, h2⟩ := h.1 8 r hr
  exact ⟨r, calls, hr, h1, h2⟩

/-! ## The call-stack scan -/

/-- C5, as stated, fails: on a freshly initialised buffer with `endText > 0`, a frame at
`0xFFFFFFC0` and the stack top `0xFFFFFFFF`, no word at an address from `stack + 8` words below
the stack top qualifies (`k = 0`), yet the completed run leaves
"00000000 00000101" in call-stack row 0, not "00000000 00000000": the scan pointer wrapped to
address 0 and recorded the odd word there. -/
theorem scan_records_wrapped_address :
    lastWordStatics.endText > 0
      ∧ lastWordStatics.dumpBuffer
          = (faultHandlingSetDumpProcessor 3 (initialStatics fun _ => '#') (fun _ => '#')
              (some 1)).dumpBuffer
      ∧ TOS lastWordStatics 0xFFFFFFF9 = 0xFFFFFFFF
      ∧ qualifyingAddresses lastWordStatics wrapHardware.mem ((0xFFFFFFC0 + 32) % W32)
          (TOS lastWordStatics 0xFFFFFFF9) = []
      ∧ ∃ r, FaultHandler_C 3 13 lastWordStatics wrapHardware 0x2001FFF0 0xFFFFFFC0 0xFFFFFFF9
            = some r
          ∧ callStackRow 3 (afterFault lastWordStatics r).dumpBuffer 0
              = "00000000 00000101\n".toList
          ∧ callStackRow 3 (afterFault lastWordStatics r).dumpBuffer 0
              ≠ "00000000 00000000\n".toList := by
  have hreads : (scanLoop 3 lastWordStatics wrapHardware.mem (TOS lastWordStatics 0xFFFFFFF9)
      13 ((0xFFFFFFC0 + 4 * 8) % W32) 0).map scanReads
        = some [0xFFFFFFE0, 0xFFFFFFE4, 0xFFFFFFE8, 0xFFFFFFEC, 0xFFFFFFF0, 0xFFFFFFF4,
            0xFFFFFFF8, 0xFFFFFFFC, 0x0, 0x4, 0x8, 0xC, 0x10] := by decide
  rw [Option.map_eq_some'] at hreads
  obtain ⟨scan, hscan, hL⟩ := hreads
  obtain ⟨r, hr, hrs⟩ := FaultHandler_C_of_scanLoop 3 13 lastWordStatics wrapHardware
    0x2001FFF0 0xFFFFFFC0 0xFFFFFFF9 1 scan rfl (by decide) hscan
  have hrow := callStackRow_of_reads 3 13 lastWordStatics (fun _ => '#') wrapHardware
    0x2001FFF0 0xFFFFFFC0 0xFFFFFFF9 1 r rfl rfl hr 0 (by decide) _ (hrs.trans hL)
    (0x0, 0x101) (by decide)
  have htxt : callStackRowText (0x0, 0x101) = "00000000 00000101\n".toList := by decide
  refine ⟨by decide, rfl, by decide, by decide, r, hr, hrow.trans htxt, ?_⟩
  rw [hrow.trans htxt]
  decide

/-- C5, amended: on a freshly initialised buffer, with `endText > 0` and a stack top of at most
`0xFFFFFFFC`, for every stack memory content: with `q` the increasing list of the word
addresses from `stack + 8` words below the selected stack top whose word qualifies, a run with
enough fuel completes, call-stack row `j` reads the hexadecimal address `q[j]` and the word
stored there for every `j` below `min(k, 4)`, and every later row still reads
"00000000 00000000". -/
theorem scan_records_first_qualifying (cortexM : Nat) (s s0 : Statics) (buf0 : Buffer)
    (p : Nat) (hw : Hardware) (r7 stack excRet : Nat)
    (hinit : s.dumpBuffer = (faultHandlingSetDumpProcessor cortexM s0 buf0 (some p)).dumpBuffer)
    (hp : s.dumpProcessor = some p) (hHigh : s.endText > 0)
    (hTop : TOS s excRet ≤ W32 - 4) :
    (qualifyingAddresses s hw.mem ((stack + 32) % W32) (TOS s excRet)).Pairwise (· < ·)
      ∧ (∀ a, a ∈ qualifyingAddresses s hw.mem ((stack + 32) % W32) (TOS s excRet) ↔
          (∃ i, a = (stack + 32) % W32 + 4 * i) ∧ a < TOS s excRet
            ∧ qualifies s.startText s.endText (load hw.mem a) = true)
      ∧ ∀ fuel, (TOS s excRet - (stack + 32) % W32 + 3) / 4 < fuel →
          ∃ r, FaultHandler_C cortexM fuel s hw r7 stack excRet = some r
            ∧ ∀ j, j < 4 →
                callStackRow cortexM (afterFault s r).dumpBuffer j
                  = if j < (qualifyingAddresses s hw.mem ((stack + 32) % W32)
                        (TOS s excRet)).length then
                      callStackRowText
                        ((qualifyingAddresses s hw.mem ((stack + 32) % W32)
                            (TOS s excRet)).getD j 0,
                          load hw.mem
                            ((qualifyingAddresses s hw.mem ((stack + 32) % W32)
                              (TOS s excRet)).getD j 0))
                    else "00000000 00000000\n".toList := by
  refine ⟨List.Pairwise.filter _ (scanCandidates_pairwise _ _), ?_, ?_⟩
  · intro a
    simp only [qualifyingAddresses, List.mem_filter, scanCandidates, List.mem_map,
      List.mem_range]
    constructor
    · rintro ⟨⟨i, hi, rfl⟩, hq⟩
      exact ⟨⟨i, rfl⟩, by omega, hq⟩
    · rintro ⟨⟨i, rfl⟩, hlt, hq⟩
      exact ⟨⟨i, by omega, rfl⟩, hq⟩
  · intro fuel hfuel
    obtain ⟨r, hr, hrec⟩ :=
      FaultHandler_C_total cortexM s hw r7 stack excRet (Or.inr hTop) fuel hfuel
    refine ⟨r, hr, ?_⟩
    intro j hj
    obtain ⟨h1, h2⟩ := FaultHandler_C_stores cortexM fuel s hw r7 stack excRet p r hp hr
    have hb : (afterFault s r).dumpBuffer
        = applyTrace (applyTrace buf0 (faultDumpPrepare cortexM)) (stores r.trace) := by
      simp only [afterFault, hinit, faultHandlingSetDumpProcessor]
      exact applyTrace_stores _ _
    have hne : ¬(s.dumpProcessor = none ∨ s.endText = 0) := by
      rw [hp]
      simp only [reduceCtorEq, false_or]
      omega
    rw [if_neg hne, recordedEntries_candidates] at hrec
    rw [hb, h1, callStackRow_layout_any cortexM buf0 hw r7 stack excRet _ j hj, hrec,
      padded_entries_getD _ _ j hj]
    split_ifs with hlt
    · rfl
    · exact callStackRowText_zero

/-- C5 amended, at a concrete fault: two of the four words above the frame qualify. -/
theorem scan_records_first_qualifying_witness :
    ∃ r, FaultHandler_C 3 8 witnessStatics witnessHardware 0x2001FFF0 0x2000FFD0 0xFFFFFFF9
        = some r
      ∧ callStackRow 3 (afterFault witnessStatics r).dumpBuffer 0
          = "2000FFF4 00000317\n".toList
      ∧ callStackRow 3 (afterFault witnessStatics r).dumpBuffer 1
          = "2000FFFC 000002ED\n".toList
      ∧ callStackRow 3 (afterFault witnessStatics r).dumpBuffer 2
          = "00000000 00000000\n".toList
      ∧ callStackRow 3 (afterFault witnessStatics r).dumpBuffer 3
          = "00000000 00000000\n".toList := by
  have h := scan_records_first_qualifying 3 witnessStatics (initialStatics fun _ => '#')
    (fun _ => '#') 1 witnessHardware 0x2001FFF0 0x2000FFD0 0xFFFFFFF9 rfl rfl
    (by decide) (by decide)
  obtain ⟨r, hr, hrows⟩ := h.2.2 8 (by decide)
  have hq : qualifyingAddresses witnessStatics witnessHardware.mem ((0x2000FFD0 + 32) % W32)
      (TOS witnessStatics 0xFFFFFFF9) = [0x2000FFF4, 0x2000FFFC] := by decide
  refine ⟨r, hr, ?_, ?_, ?_, ?_⟩
  · rw [hrows 0 (by decide)]
    simp only [hq]
    decide
  · rw [hrows 1 (by decide)]
    simp only [hq]
    decide
  · rw [hrows 2 (by decide)]
    simp only [hq]
    decide
  · rw [hrows 3 (by decide)]
    simp only [hq]
    decide

/-- C6: a word read by the scan is recorded exactly when it lies within `startText..endText`,
both inclusive, as 32-bit unsigned numbers, and its lowest bit is 1; any other word is skipped
and the scan goes on to the next word. So the stores of a completed run are those of the
register rows followed by one call-stack entry per qualifying word examined, in the order
examined. -/
theorem scan_acceptance_test (cortexM : Nat) (s : Statics) (hw : Hardware)
    (r7 stack excRet p : Nat) (hp : s.dumpProcessor = some p) :
    (∀ val, qualifies s.startText s.endText val = true
        ↔ s.startText ≤ val ∧ val ≤ s.endText ∧ val.testBit 0 = true)
      ∧ (∀ a, load hw.mem a < W32)
      ∧ (∀ tos fuel fp found,
          scanLoop cortexM s hw.mem tos (fuel + 1) fp found
            = if fp < tos then
                if qualifies s.startText s.endText (load hw.mem fp) = true then
                  if found + 1 = 4 then
                    some (Event.readScan fp
                      :: formatCallStackPair cortexM found fp (load hw.mem fp))
                  else
                    (scanLoop cortexM s hw.mem tos fuel ((fp + 4) % W32) (found + 1)).map
                      fun tr => Event.readScan fp
                        :: (formatCallStackPair cortexM found fp (load hw.mem fp) ++ tr)
                else
                  (scanLoop cortexM s hw.mem tos fuel ((fp + 4) % W32) found).map
                    fun tr => Event.readScan fp :: tr
              else some [])
      ∧ (∀ fuel r, FaultHandler_C cortexM fuel s hw r7 stack excRet = some r →
          stores r.trace
            = formatRegisters cortexM (capturedRegisters cortexM hw r7 stack excRet)
                ++ callEntriesTrace cortexM 0
                    ((List.filter
                        (fun a => qualifies s.startText s.endText (load hw.mem a))
                        (scanReads r.trace)).map fun a => (a, load hw.mem a))) := by
  refine ⟨?_, ?_, ?_, ?_⟩
  · intro val
    simp only [qualifies, decide_eq_true_eq, Nat.testBit_zero]
  · intro a
    exact Nat.mod_lt _ (by decide)
  · intro tos fuel fp found
    rw [scanLoop_succ]
    by_cases h1 : fp < tos
    · simp only [if_pos h1]
      by_cases hq : qualifies s.startText s.endText (load hw.mem fp) = true
      · have hq' := (qualifies_iff s _).mp hq
        rw [if_neg hq'.1, if_neg hq'.2, if_pos hq]
        rfl
      · have hq' : ¬(¬(load hw.mem fp < s.startText ∨ load hw.mem fp > s.endText)
            ∧ ¬(load hw.mem fp &&& 1 = 0)) := fun hh => hq ((qualifies_iff s _).mpr hh)
        rw [if_neg hq]
        split_ifs with a1 a2
        · rfl
        · rfl
        · exact absurd ⟨a1, a2⟩ hq'
        · exact absurd ⟨a1, a2⟩ hq'
    · simp only [if_neg h1]
  · intro fuel r hr
    exact (FaultHandler_C_stores cortexM fuel s hw r7 stack excRet p r hp hr).1

/-- C6 at a concrete fault: of the four words examined, the in-range odd ones are recorded; the
out-of-range word and the in-range even word are not. -/
theorem scan_acceptance_test_witness :
    ∃ r, FaultHandler_C 3 8 witnessStatics witnessHardware 0x2001FFF0 0x2000FFD0 0xFFFFFFF9
        = some r
      ∧ stores r.trace
          = formatRegisters 3
              (capturedRegisters 3 witnessHardware 0x2001FFF0 0x2000FFD0 0xFFFFFFF9)
            ++ callEntriesTrace 3 0 [(0x2000FFF4, 0x00000317), (0x2000FFFC, 0x000002ED)] := by
  obtain ⟨r, hr, hrec⟩ := FaultHandler_C_total 3 witnessStatics witnessHardware 0x2001FFF0
    0x2000FFD0 0xFFFFFFF9 (Or.inr (by decide)) 8 (by decide)
  have h := (scan_acceptance_test 3 witnessStatics witnessHardware 0x2001FFF0 0x2000FFD0
    0xFFFFFFF9 1 rfl).2.2.2 8 r hr
  have hq : recordedEntries witnessStatics witnessHardware.mem (scanReads r.trace)
      = [(0x2000FFF4, 0x00000317), (0x2000FFFC, 0x000002ED)] := by
    rw [hrec]
    decide
  refine ⟨r, hr, ?_⟩
  rw [h]
  exact congrArg (fun E => formatRegisters 3
    (capturedRegisters 3 witnessHardware 0x2001FFF0 0x2000FFD0 0xFFFFFFF9)
      ++ callEntriesTrace 3 0 E) hq

/-! ## Scan disabled -/

/-- C9: with `endText` zero (as when `faultHandlingSetCallStackParameters` was never called),
`FaultHandler_C` completes on any fuel, reads no scan candidate and leaves every byte of the
four call-stack rows, and every byte after them, unchanged, whatever the stack contents and
bounds; on a freshly initialised buffer each of the four rows reads "00000000 00000000". -/
theorem scan_disabled_leaves_rows (cortexM fuel : Nat) (s : Statics) (hw : Hardware)
    (r7 stack excRet : Nat) (hE : s.endText = 0) :
    (∀ buf s0 buf0 p, (initialStatics buf).endText = 0
        ∧ (faultHandlingSetDumpProcessor cortexM s0 buf0 p).endText = s0.endText)
      ∧ ∃ r, FaultHandler_C cortexM fuel s hw r7 stack excRet = some r
        ∧ scanReads r.trace = []
        ∧ (∀ off, 15 * FAULT_HANDLING_CPUREG_COUNT cortexM ≤ off →
            (afterFault s r).dumpBuffer off = s.dumpBuffer off)
        ∧ (∀ j, j < 4 →
            callStackRow cortexM (afterFault s r).dumpBuffer j = callStackRow cortexM s.dumpBuffer j)
        ∧ (∀ s0 buf0 p,
            s.dumpBuffer = (faultHandlingSetDumpProcessor cortexM s0 buf0 p).dumpBuffer →
            ∀ j, j < 4 →
              callStackRow cortexM (afterFault s r).dumpBuffer j
                = "00000000 00000000\n".toList) := by
  refine ⟨fun _ _ _ _ => ⟨rfl, rfl⟩, ?_⟩
  have hoff : ∀ r', FaultHandler_C cortexM fuel s hw r7 stack excRet = some r' →
      scanReads r'.trace = [] ∧ ∀ off ∈ storeOffsets r'.trace,
        off < 15 * FAULT_HANDLING_CPUREG_COUNT cortexM := by
    intro r' hr'
    cases hp : s.dumpProcessor with
    | none =>
      rw [FaultHandler_C_of_none cortexM fuel s hw r7 stack excRet hp] at hr'
      simp only [Option.some.injEq] at hr'
      subst hr'
      exact ⟨rfl, fun off h => by cases h⟩
    | some p =>
      have hst := (FaultHandler_C_stores cortexM fuel s hw r7 stack excRet p r' hp hr').1
      have hrd : scanReads r'.trace = [] := by
        rcases FaultHandler_C_scanReads cortexM fuel s hw r7 stack excRet r' hr' with h0 | h0
        · exact h0
        · obtain ⟨scan, hs, he⟩ := h0
          simp only [callStackScan, hE, gt_iff_lt, Nat.lt_irrefl, if_false,
            Option.some.injEq] at hs
          rw [he, ← hs]
          rfl
      refine ⟨hrd, ?_⟩
      intro off hoff
      rw [← storeOffsets_stores, hst, hrd] at hoff
      simp only [recordedEntries, List.filter_nil, List.map_nil, callEntriesTrace,
        List.append_nil] at hoff
      exact storeOffsets_registers_lt cortexM hw r7 stack excRet off hoff
  have hsome : ∃ r', FaultHandler_C cortexM fuel s hw r7 stack excRet = some r' := by
    cases hp : s.dumpProcessor with
    | none => exact ⟨_, FaultHandler_C_of_none cortexM fuel s hw r7 stack excRet hp⟩
    | some p =>
      rw [FaultHandler_C_of_some cortexM fuel s hw r7 stack excRet p hp]
      have hs : callStackScan cortexM fuel s hw.mem stack excRet = some [] := by
        simp [callStackScan, hE]
      rw [hs]
      exact ⟨_, rfl⟩
  obtain ⟨r', hr'⟩ := hsome
  obtain ⟨hrd, hlt⟩ := hoff r' hr'
  have hframe : ∀ off, 15 * FAULT_HANDLING_CPUREG_COUNT cortexM ≤ off →
      (afterFault s r').dumpBuffer off = s.dumpBuffer off := by
    intro off hge
    apply applyTrace_of_not_mem
    intro hmem
    have := hlt off hmem
    omega
  have hrow : ∀ j, j < 4 →
      callStackRow cortexM (afterFault s r').dumpBuffer j = callStackRow cortexM s.dumpBuffer j := by
    intro j _
    unfold callStackRow bufferSlice
    apply List.map_congr_left
    intro k _
    exact hframe _ (by omega)
  refine ⟨r', hr', hrd, hframe, hrow, ?_⟩
  intro s0 buf0 p hinit j hj
  rw [hrow j hj, hinit]
  simp only [faultHandlingSetDumpProcessor]
  rw [template_callRow_any cortexM buf0 j hj, callStackRowText_zero]

/-- C9 at a concrete fault: the processor is registered, no call-stack parameters were set, and
the stack holds words that would qualify under any non-zero bound. -/
theorem scan_disabled_leaves_rows_witness :
    (faultHandlingSetDumpProcessor 3 (initialStatics fun _ => '#') (fun _ => '#')
        (some 1)).endText = 0
      ∧ ∃ r, FaultHandler_C 3 0
            (faultHandlingSetDumpProcessor 3 (initialStatics fun _ => '#') (fun _ => '#')
              (some 1)) witnessHardware 0x2001FFF0 0x2000FFD0 0xFFFFFFF9 = some r
          ∧ callStackRow 3
              (afterFault (faultHandlingSetDumpProcessor 3 (initialStatics fun _ => '#')
                (fun _ => '#') (some 1)) r).dumpBuffer 0 = "00000000 00000000\n".toList := by
  refine ⟨rfl, ?_⟩
  obtain ⟨r, hr, -, -, -, h⟩ := (scan_disabled_leaves_rows 3 0
    (faultHandlingSetDumpProcessor 3 (initialStatics fun _ => '#') (fun _ => '#') (some 1))
    witnessHardware 0x2001FFF0 0x2000FFD0 0xFFFFFFF9 rfl).2
  exact ⟨r, hr, h (initialStatics fun _ => '#') (fun _ => '#') (some 1) rfl 0 (by decide)⟩

/-! ## The post-fault action -/

/-- C11: after the callback returns the dispatcher performs the configured action and no
other: `POSTHANDLER_LOOP` spins forever with neither reset nor trap, `POSTHANDLER_RESET`
requests a system reset, `POSTHANDLER_DEBUG` executes the breakpoint trap,
`POSTHANDLER_RETURN` returns with neither reset nor trap, and any value outside these four
does nothing and returns. No reset or trap occurs before the callback. -/
theorem dispatch_performs_configured_action (cortexM fuel : Nat) (s : Statics) (hw : Hardware)
    (r7 stack excRet p : Nat) (r : Result) (hp : s.dumpProcessor = some p)
    (hr : FaultHandler_C cortexM fuel s hw r7 stack excRet = some r) :
    (∃ pre, r.trace = pre ++ [Event.callback p] ++ actionEvents r.trace
        ∧ actionEvents pre = [] ∧ callbackCount pre = 0)
      ∧ (s.postFaultAction = POSTHANDLER_LOOP →
          actionEvents r.trace = [] ∧ r.outcome = Outcome.spinning)
      ∧ (s.postFaultAction = POSTHANDLER_RESET →
          actionEvents r.trace = [Event.reset] ∧ r.outcome = Outcome.resetting)
      ∧ (s.postFaultAction = POSTHANDLER_DEBUG →
          actionEvents r.trace = [Event.bkpt] ∧ r.outcome = Outcome.returned)
      ∧ (s.postFaultAction = POSTHANDLER_RETURN →
          actionEvents r.trace = [] ∧ r.outcome = Outcome.returned)
      ∧ (s.postFaultAction > 3 →
          actionEvents r.trace = [] ∧ r.outcome = Outcome.returned) := by
  obtain ⟨pre, htr, hout, hcb, hact, -, -⟩ :=
    FaultHandler_C_shape cortexM fuel s hw r7 stack excRet p r hp hr
  have hcb2 : actionEvents [Event.callback p] = [] := rfl
  have hae : actionEvents r.trace = (postFaultDispatch s.postFaultAction).1 := by
    rw [htr, actionEvents_append, actionEvents_append, hact, hcb2,
      (postFaultDispatch_events _).2]
    rfl
  refine ⟨⟨pre, by rw [hae]; exact htr, hact, hcb⟩, ?_, ?_, ?_, ?_, ?_⟩
  · intro h
    rw [hae, hout, h]
    exact ⟨rfl, rfl⟩
  · intro h
    rw [hae, hout, h]
    exact ⟨rfl, rfl⟩
  · intro h
    rw [hae, hout, h]
    exact ⟨rfl, rfl⟩
  · intro h
    rw [hae, hout, h]
    exact ⟨rfl, rfl⟩
  · intro h
    rw [hae, hout]
    have h0 : ¬ s.postFaultAction = POSTHANDLER_LOOP := by
      intro e; rw [e] at h; exact absurd h (by decide)
    have h1 : ¬ s.postFaultAction = POSTHANDLER_RESET := by
      intro e; rw [e] at h; exact absurd h (by decide)
    have h2 : ¬ s.postFaultAction = POSTHANDLER_DEBUG := by
      intro e; rw [e] at h; exact absurd h (by decide)
    have h3 : ¬ s.postFaultAction = POSTHANDLER_RETURN := by
      intro e; rw [e] at h; exact absurd h (by decide)
    simp only [postFaultDispatch, if_neg h0, if_neg h1, if_neg h2, if_neg h3, and_self]

/-- C11 at a concrete fault with the action set to `POSTHANDLER_DEBUG`. -/
theorem dispatch_performs_configured_action_witness :
    ∃ r, FaultHandler_C 3 8 (faultHandlingSetPostFaultAction witnessStatics POSTHANDLER_DEBUG)
          witnessHardware 0x2001FFF0 0x2000FFD0 0xFFFFFFF9 = some r
      ∧ actionEvents r.trace = [Event.bkpt] ∧ r.outcome = Outcome.returned := by
  obtain ⟨r, hr, -⟩ := FaultHandler_C_total 3
    (faultHandlingSetPostFaultAction witnessStatics POSTHANDLER_DEBUG) witnessHardware
    0x2001FFF0 0x2000FFD0 0xFFFFFFF9 (Or.inr (by decide)) 8 (by decide)
  exact ⟨r, hr, (dispatch_performs_configured_action 3 8 _ witnessHardware 0x2001FFF0
    0x2000FFD0 0xFFFFFFF9 1 r rfl hr).2.2.2.1 rfl⟩

/-! ## The callback -/

/-- C16, as stated, fails: with no callback registered and the default action
`POSTHANDLER_LOOP`, `FaultHandler_C` returns to its caller. -/
theorem returns_without_return_action :
    ¬ (∀ (cortexM fuel : Nat) (s : Statics) (hw : Hardware) (r7 stack excRet : Nat)
        (r : Result), FaultHandler_C cortexM fuel s hw r7 stack excRet = some r →
        r.outcome = Outcome.returned → s.postFaultAction = POSTHANDLER_RETURN) := by
  intro h
  have := h 3 0 (initialStatics fun _ => '#') witnessHardware 0x2001FFF0 0x2000FFD0 0xFFFFFFF9
    { trace := [], outcome := Outcome.returned } rfl rfl
  exact absurd this (by decide)

/-- C16, amended: if `FaultHandler_C` returns to its caller then no callback is registered, or
the configured action is `POSTHANDLER_RETURN`, or it is `POSTHANDLER_DEBUG` (the return
follows the breakpoint trap), or it is a value outside the four; with a callback registered
and action `POSTHANDLER_LOOP` or `POSTHANDLER_RESET` a completed run does not return. -/
theorem returns_only_by_guard_return_debug_or_unknown (cortexM fuel : Nat) (s : Statics)
    (hw : Hardware) (r7 stack excRet : Nat) (r : Result)
    (hr : FaultHandler_C cortexM fuel s hw r7 stack excRet = some r) :
    (r.outcome = Outcome.returned →
        s.dumpProcessor = none ∨ s.postFaultAction = POSTHANDLER_RETURN
          ∨ s.postFaultAction = POSTHANDLER_DEBUG ∨ s.postFaultAction > 3)
      ∧ (s.dumpProcessor ≠ none →
          s.postFaultAction = POSTHANDLER_LOOP ∨ s.postFaultAction = POSTHANDLER_RESET →
          r.outcome ≠ Outcome.returned) := by
  cases hp : s.dumpProcessor with
  | none => exact ⟨fun _ => Or.inl rfl, fun h => absurd rfl h⟩
  | some p =>
    obtain ⟨pre, -, hout, -⟩ := FaultHandler_C_shape cortexM fuel s hw r7 stack excRet p r hp hr
    rw [hout]
    refine ⟨?_, ?_⟩
    · intro h
      right
      unfold postFaultDispatch at h
      split_ifs at h with h0 h1 h2 h3
      · exact Or.inr (Or.inl h2)
      · exact Or.inl h3
      · right; right
        simp only [POSTHANDLER_LOOP, POSTHANDLER_RESET, POSTHANDLER_DEBUG,
          POSTHANDLER_RETURN] at h0 h1 h2 h3
        omega
    · intro _ h
      rcases h with h | h
      · rw [h]; decide
      · rw [h]; decide

/-- C16 amended, at a concrete fault with a callback and the action `POSTHANDLER_DEBUG`: the
run returns. -/
theorem returns_only_by_guard_return_debug_or_unknown_witness :
    ∃ r, FaultHandler_C 3 8 (faultHandlingSetPostFaultAction witnessStatics POSTHANDLER_DEBUG)
          witnessHardware 0x2001FFF0 0x2000FFD0 0xFFFFFFF9 = some r
      ∧ (r.outcome = Outcome.returned →
          (faultHandlingSetPostFaultAction witnessStatics POSTHANDLER_DEBUG).dumpProcessor = none
            ∨ (faultHandlingSetPostFaultAction witnessStatics POSTHANDLER_DEBUG).postFaultAction
                = POSTHANDLER_RETURN
            ∨ (faultHandlingSetPostFaultAction witnessStatics POSTHANDLER_DEBUG).postFaultAction
                = POSTHANDLER_DEBUG
            ∨ (faultHandlingSetPostFaultAction witnessStatics POSTHANDLER_DEBUG).postFaultAction
                > 3) := by
  obtain ⟨r, hr, -⟩ := FaultHandler_C_total 3
    (faultHandlingSetPostFaultAction witnessStatics POSTHANDLER_DEBUG) witnessHardware
    0x2001FFF0 0x2000FFD0 0xFFFFFFF9 (Or.inr (by decide)) 8 (by decide)
  exact ⟨r, hr, (returns_only_by_guard_return_debug_or_unknown 3 8 _ witnessHardware
    0x2001FFF0 0x2000FFD0 0xFFFFFFF9 r hr).1⟩

/-! ## Consecutive captures -/

/-- C14, as stated, fails: after a first capture that records two call-stack entries and a
second capture whose scan records none (callback set, action Return, no re-initialisation),
call-stack row 0 still reads the entry of the first capture, where capturing the second fault
alone on a fresh buffer leaves "00000000 00000000"; the two buffers differ. -/
theorem second_capture_shows_stale_row :
    witnessStatics.dumpProcessor = some 1
      ∧ witnessStatics.postFaultAction = POSTHANDLER_RETURN
      ∧ (twoCaptures 3 8 witnessStatics witnessHardware 0x2001FFF0 0x2000FFD0 0xFFFFFFF9
            quietHardware 0x2001FFE8 0x2000FFD0 0xFFFFFFF9).map (fun b => callStackRow 3 b 0)
          = some "2000FFF4 00000317\n".toList
      ∧ (oneCapture 3 8 witnessStatics quietHardware 0x2001FFE8 0x2000FFD0 0xFFFFFFF9).map
            (fun b => callStackRow 3 b 0)
          = some "00000000 00000000\n".toList
      ∧ (twoCaptures 3 8 witnessStatics witnessHardware 0x2001FFF0 0x2000FFD0 0xFFFFFFF9
            quietHardware 0x2001FFE8 0x2000FFD0 0xFFFFFFF9).map
            (fun b => bufferBytes b (FAULT_HANDLING_DUMP_SIZE 3))
          ≠ (oneCapture 3 8 witnessStatics quietHardware 0x2001FFE8 0x2000FFD0 0xFFFFFFF9).map
              (fun b => bufferBytes b (FAULT_HANDLING_DUMP_SIZE 3)) := by
  obtain ⟨r1, hr1, hrec1⟩ := FaultHandler_C_total 3 witnessStatics witnessHardware 0x2001FFF0
    0x2000FFD0 0xFFFFFFF9 (Or.inr (by decide)) 8 (by decide)
  obtain ⟨r2, hr2, hrec2⟩ := FaultHandler_C_total 3 witnessStatics quietHardware 0x2001FFE8
    0x2000FFD0 0xFFFFFFF9 (Or.inr (by decide)) 8 (by decide)
  have hE1 : recordedEntries witnessStatics witnessHardware.mem (scanReads r1.trace)
      = [(0x2000FFF4, 0x00000317), (0x2000FFFC, 0x000002ED)] :=
    hrec1.trans (by decide)
  have hE2 : recordedEntries witnessStatics quietHardware.mem (scanReads r2.trace) = [] :=
    hrec2.trans (by decide)
  exact ⟨rfl, rfl, two_captures_row 3 8 witnessStatics (fun _ => '#') 1 witnessHardware
    0x2001FFF0 0x2000FFD0 0xFFFFFFF9 quietHardware 0x2001FFE8 0x2000FFD0 0xFFFFFFF9 r1 r2
    [(0x2000FFF4, 0x00000317), (0x2000FFFC, 0x000002ED)] [] 0
    "2000FFF4 00000317\n".toList "00000000 00000000\n".toList rfl rfl hr1 hr2 hE1 hE2
    (by decide) (by decide) (by decide) (by decide)⟩

/-- C14, amended: for two consecutive completed captures on one initialised buffer (callback
set, action Return, no re-initialisation), the second run is the run of the second fault
alone, and the buffer after it agrees with the buffer the second fault alone produces in every
register row and in every call-stack row the second scan fills; it is the dump record of the
second fault whose call-stack rows beyond those keep what the first capture left there; so the
two buffers are equal whenever the second scan records at least as many entries as the
first. -/
theorem second_capture_overwrites_reached_rows (cortexM : Nat) (s s0 : Statics) (buf0 : Buffer)
    (p : Nat) (hw1 : Hardware) (r7a stacka excReta : Nat) (hw2 : Hardware)
    (r7b stackb excRetb : Nat) (fuel1 fuel2 : Nat) (r1 r2 : Result)
    (hinit : s.dumpBuffer = (faultHandlingSetDumpProcessor cortexM s0 buf0 (some p)).dumpBuffer)
    (hp : s.dumpProcessor = some p) (hret : s.postFaultAction = POSTHANDLER_RETURN)
    (h1 : FaultHandler_C cortexM fuel1 s hw1 r7a stacka excReta = some r1)
    (h2 : FaultHandler_C cortexM fuel2 (afterFault s r1) hw2 r7b stackb excRetb = some r2) :
    r1.outcome = Outcome.returned
      ∧ FaultHandler_C cortexM fuel2 s hw2 r7b stackb excRetb = some r2
      ∧ bufferBytes (afterFault (afterFault s r1) r2).dumpBuffer
            (FAULT_HANDLING_DUMP_SIZE cortexM)
          = dumpRecord cortexM hw2 r7b stackb excRetb
              ((List.range 4).map fun j =>
                (recordedEntries s hw2.mem (scanReads r2.trace)
                  ++ (recordedEntries s hw1.mem (scanReads r1.trace)).drop
                      (recordedEntries s hw2.mem (scanReads r2.trace)).length).getD j (0, 0))
      ∧ (∀ i, i < FAULT_HANDLING_CPUREG_COUNT cortexM →
          registerRow (afterFault (afterFault s r1) r2).dumpBuffer i
            = registerRow (afterFault s r2).dumpBuffer i)
      ∧ (∀ j, j < 4 →
          callStackRow cortexM (afterFault (afterFault s r1) r2).dumpBuffer j
            = if j < (recordedEntries s hw2.mem (scanReads r2.trace)).length then
                callStackRow cortexM (afterFault s r2).dumpBuffer j
              else callStackRow cortexM (afterFault s r1).dumpBuffer j)
      ∧ ((recordedEntries s hw1.mem (scanReads r1.trace)).length
            ≤ (recordedEntries s hw2.mem (scanReads r2.trace)).length →
          bufferBytes (afterFault (afterFault s r1) r2).dumpBuffer
              (FAULT_HANDLING_DUMP_SIZE cortexM)
            = bufferBytes (afterFault s r2).dumpBuffer (FAULT_HANDLING_DUMP_SIZE cortexM)) := by
  have hinit' : s.dumpBuffer = applyTrace buf0 (faultDumpPrepare cortexM) := hinit
  obtain ⟨t1, t2, t3, t4, t5⟩ := two_captures_any cortexM s buf0 p hw1 r7a stacka excReta hw2
    r7b stackb excRetb fuel1 fuel2 r1 r2 hinit' hp h1 h2
  obtain ⟨pre, -, hout, -⟩ := FaultHandler_C_shape cortexM fuel1 s hw1 r7a stacka excReta p r1
    hp h1
  refine ⟨by rw [hout, hret]; rfl, t1, t2, t4, t5, ?_⟩
  intro hle
  rw [t2, t3]
  congr 1
  apply List.map_congr_left
  intro j _
  rw [getD_append_drop]
  split_ifs with hlt
  · rfl
  · rw [List.getD_eq_default _ _ (by omega), List.getD_eq_default _ _ (by omega)]

/-- C14 amended, at two concrete faults: the second scan records nothing, so rows 0 and 1 keep
the two entries of the first capture while the register rows are those of the second fault. -/
theorem second_capture_overwrites_reached_rows_witness :
    ∃ r1 r2,
      FaultHandler_C 3 8 witnessStatics witnessHardware 0x2001FFF0 0x2000FFD0 0xFFFFFFF9
          = some r1
        ∧ FaultHandler_C 3 8 (afterFault witnessStatics r1) quietHardware 0x2001FFE8 0x2000FFD0
            0xFFFFFFF9 = some r2
        ∧ registerRow (afterFault (afterFault witnessStatics r1) r2).dumpBuffer 0
            = registerRow (afterFault witnessStatics r2).dumpBuffer 0
        ∧ callStackRow 3 (afterFault (afterFault witnessStatics r1) r2).dumpBuffer 1
            = callStackRow 3 (afterFault witnessStatics r1).dumpBuffer 1 := by
  obtain ⟨r1, hr1, -⟩ := FaultHandler_C_total 3 witnessStatics witnessHardware 0x2001FFF0
    0x2000FFD0 0xFFFFFFF9 (Or.inr (by decide)) 8 (by decide)
  obtain ⟨r2, hr2, hrec2⟩ := FaultHandler_C_total 3 witnessStatics quietHardware 0x2001FFE8
    0x2000FFD0 0xFFFFFFF9 (Or.inr (by decide)) 8 (by decide)
  have hr2' : FaultHandler_C 3 8 (afterFault witnessStatics r1) quietHardware 0x2001FFE8
      0x2000FFD0 0xFFFFFFF9 = some r2 :=
    (FaultHandler_C_afterFault 3 8 witnessStatics r1 quietHardware 0x2001FFE8 0x2000FFD0
      0xFFFFFFF9).trans hr2
  have hE2 : recordedEntries witnessStatics quietHardware.mem (scanReads r2.trace) = [] :=
    hrec2.trans (by decide)
  have hT := second_capture_overwrites_reached_rows 3 witnessStatics
    (initialStatics fun _ => '#') (fun _ => '#') 1 witnessHardware 0x2001FFF0
    0x2000FFD0 0xFFFFFFF9 quietHardware 0x2001FFE8 0x2000FFD0 0xFFFFFFF9 8 8 r1 r2 rfl rfl rfl
    hr1 hr2'
  have h := hT.2.2.2.2.1 1 (by decide)
  rw [hE2] at h
  exact ⟨r1, r2, hr1, hr2', hT.2.2.2.1 0 (by decide), h.trans (if_neg (by decide))⟩

/-! ## The template -/

/-- C13, as stated, fails: initialising a zero-filled buffer (a `static char` array before its
first use) leaves the value hole of register row 0 holding zero bytes, not "00000000", so the
C string in the buffer ends after "r7    ", at length 6. -/
theorem template_leaves_register_hole_unwritten :
    bufferSlice
        (faultHandlingSetDumpProcessor 3 (initialStatics zeroBuffer) zeroBuffer (some 1)).dumpBuffer
        6 8 ≠ "00000000".toList
      ∧ bufferSlice
          (faultHandlingSetDumpProcessor 3 (initialStatics zeroBuffer) zeroBuffer
            (some 1)).dumpBuffer 0 6 = "r7    ".toList
      ∧ (faultHandlingSetDumpProcessor 3 (initialStatics zeroBuffer) zeroBuffer
            (some 1)).dumpBuffer 6 = NUL := by
  have h1 := (template_bytes 3 zeroBuffer).1 6 (by decide)
  have h2 := (template_rows_any 3 zeroBuffer 0 (by decide)).1
  have hz : bufferSlice zeroBuffer 6 8 ≠ "00000000".toList := by decide
  have hfr := bufferSlice_frame (faultDumpPrepare 3) zeroBuffer 6 8 (by
    intro off hoff
    have := (template_bytes 3 zeroBuffer).2.2.2 off hoff
    simp only [inRegisterHole, decide_eq_false_iff_not] at this
    have hc : FAULT_HANDLING_CPUREG_COUNT 3 = 17 := rfl
    rw [hc] at this
    omega)
  rw [dumpBuffer_setDumpProcessor]
  refine ⟨?_, h2.trans (by decide), h1.trans rfl⟩
  rw [hfr]
  exact hz

/-- C13, amended: after `faultHandlingSetDumpProcessor` and before any fault, for any prior
contents of the buffer, the byte at `FAULT_HANDLING_DUMP_SIZE - 1` is NUL, every byte before it
outside the value holes of the register rows is printable ASCII or a line end, both holes of
each call-stack row read "00000000", and the 8-character hole of each register row keeps the
prior contents; so the buffer is a printable NUL-terminated string of length
`FAULT_HANDLING_DUMP_SIZE - 1` whenever the prior contents of those holes are printable. -/
theorem template_after_initialisation (cortexM : Nat) (s0 : Statics) (buf0 : Buffer)
    (p : Option Nat) :
    (faultHandlingSetDumpProcessor cortexM s0 buf0 p).dumpBuffer
        (FAULT_HANDLING_DUMP_SIZE cortexM - 1) = NUL
      ∧ (∀ off, off < FAULT_HANDLING_DUMP_SIZE cortexM - 1 →
          inRegisterHole cortexM off = false →
          isPrintable ((faultHandlingSetDumpProcessor cortexM s0 buf0 p).dumpBuffer off) = true
            ∧ (faultHandlingSetDumpProcessor cortexM s0 buf0 p).dumpBuffer off ≠ NUL)
      ∧ (∀ j, j < 4 →
          callStackRow cortexM (faultHandlingSetDumpProcessor cortexM s0 buf0 p).dumpBuffer j
            = "00000000 00000000\n".toList)
      ∧ (∀ off, inRegisterHole cortexM off = true →
          (faultHandlingSetDumpProcessor cortexM s0 buf0 p).dumpBuffer off = buf0 off)
      ∧ (∀ i, i < FAULT_HANDLING_CPUREG_COUNT cortexM →
          bufferSlice (faultHandlingSetDumpProcessor cortexM s0 buf0 p).dumpBuffer
            (15 * i + 6) 8 = bufferSlice buf0 (15 * i + 6) 8)
      ∧ ((∀ off, inRegisterHole cortexM off = true → isPrintable (buf0 off) = true) →
          ∀ off, off < FAULT_HANDLING_DUMP_SIZE cortexM - 1 →
            isPrintable ((faultHandlingSetDumpProcessor cortexM s0 buf0 p).dumpBuffer off) = true
              ∧ (faultHandlingSetDumpProcessor cortexM s0 buf0 p).dumpBuffer off ≠ NUL) := by
  obtain ⟨t1, t2, -, t4⟩ := template_bytes cortexM buf0
  have hB : (faultHandlingSetDumpProcessor cortexM s0 buf0 p).dumpBuffer
      = applyTrace buf0 (faultDumpPrepare cortexM) := rfl
  rw [hB]
  refine ⟨template_nul_any cortexM buf0, ?_, ?_, t1, ?_, ?_⟩
  · intro off hlt hno
    exact ⟨t2 off hlt hno, isPrintable_ne_NUL _ (t2 off hlt hno)⟩
  · intro j hj
    rw [template_callRow_any cortexM buf0 j hj, callStackRowText_zero]
  · intro i hi
    apply bufferSlice_frame
    intro off hoff
    have := t4 off hoff
    simp only [inRegisterHole, decide_eq_false_iff_not] at this
    omega
  · intro hprior off hlt
    cases hh : inRegisterHole cortexM off with
    | false => exact ⟨t2 off hlt hh, isPrintable_ne_NUL _ (t2 off hlt hh)⟩
    | true =>
      rw [t1 off hh]
      exact ⟨hprior off hh, isPrintable_ne_NUL _ (hprior off hh)⟩

/-- C20: for each register row, the stores of `faultDumpPrepare` into the row are, in order,
those of `strcpy` of the label (its 5 characters at offsets 0..4 and its terminator at offset
5), the space at offset 5 and the line end at offset 14; every label is 5 characters long; no
store goes to offsets 6..13, whose 8 bytes are afterwards as they were before the call. -/
theorem template_register_row_stores (cortexM : Nat) (i : Nat)
    (hi : i < FAULT_HANDLING_CPUREG_COUNT cortexM) :
    storesInRange (faultDumpPrepare cortexM) (15 * i) (15 * i + 15)
        = strcpy (15 * i) ((cpuRegLabels cortexM).getD i "").toList
            ++ [Event.store (15 * i + 5) ' ', Event.store (15 * i + 14) '\n']
      ∧ ((cpuRegLabels cortexM).getD i "").toList.length = 5
      ∧ strcpy (15 * i) ((cpuRegLabels cortexM).getD i "").toList
          = (List.range 6).map (fun k =>
              Event.store (15 * i + k) (((cpuRegLabels cortexM).getD i "").toList.getD k NUL))
      ∧ (strcpy (15 * i) ((cpuRegLabels cortexM).getD i "").toList).getLast?
          = some (Event.store (15 * i + 5) NUL)
      ∧ (∀ off ∈ storeOffsets (faultDumpPrepare cortexM),
          ¬(15 * i + 6 ≤ off ∧ off < 15 * i + 14))
      ∧ ∀ buf0 : Buffer,
          bufferSlice (applyTrace buf0 (faultDumpPrepare cortexM)) (15 * i) 5
              = ((cpuRegLabels cortexM).getD i "").toList
            ∧ applyTrace buf0 (faultDumpPrepare cortexM) (15 * i + 5) = ' '
            ∧ applyTrace buf0 (faultDumpPrepare cortexM) (15 * i + 14) = '\n'
            ∧ bufferSlice (applyTrace buf0 (faultDumpPrepare cortexM)) (15 * i + 6) 8
                = bufferSlice buf0 (15 * i + 6) 8 := by
  obtain ⟨r1, r2, r3, r4⟩ := template_row_stores cortexM i hi
  have hoffs : ∀ off ∈ storeOffsets (faultDumpPrepare cortexM),
      ¬(15 * i + 6 ≤ off ∧ off < 15 * i + 14) := by
    intro off hoff hin
    have h1 := (template_bytes cortexM (fun _ => ' ')).2.2.2 off hoff
    have h2 := (inRegisterHole_iff cortexM off).mpr ⟨i, hi, hin.1, hin.2⟩
    rw [h1] at h2
    exact absurd h2 (by decide)
  refine ⟨r1, r2, ?_, r3, hoffs, ?_⟩
  · unfold strcpy
    rw [r2]
  · intro buf0
    obtain ⟨t1, t2⟩ := template_rows_any cortexM buf0 i hi
    rw [← r4] at t1
    have e6 : bufferSlice (applyTrace buf0 (faultDumpPrepare cortexM)) (15 * i) 6
        = bufferSlice (applyTrace buf0 (faultDumpPrepare cortexM)) (15 * i) 5
            ++ [applyTrace buf0 (faultDumpPrepare cortexM) (15 * i + 5)] := by
      simp [bufferSlice, List.range_succ]
    rw [e6] at t1
    have hinj := List.append_inj' t1 rfl
    refine ⟨hinj.1, by simpa using hinj.2, ?_, ?_⟩
    · simpa [bufferSlice, List.range_succ] using t2
    · apply bufferSlice_frame
      intro off hoff
      have := hoffs off hoff
      omega

/-- C20 at row 16 of the CM3 template, "s.psr". -/
theorem template_register_row_stores_witness :
    16 < FAULT_HANDLING_CPUREG_COUNT 3
      ∧ storesInRange (faultDumpPrepare 3) (15 * 16) (15 * 16 + 15)
          = strcpy (15 * 16) ((cpuRegLabels 3).getD 16 "").toList
              ++ [Event.store (15 * 16 + 5) ' ', Event.store (15 * 16 + 14) '\n']
      ∧ ((cpuRegLabels 3).getD 16 "").toList.length = 5 :=
  ⟨by decide, (template_register_row_stores 3 16 (by decide)).1,
    (template_register_row_stores 3 16 (by decide)).2.1⟩

/-! ## What a fault changes in the buffer -/

/-- C15: for every input, the stores of a completed `FaultHandler_C` go to value holes only,
bytes 6..13 of a register row or bytes 0..7 and 9..16 of a call-stack row; so every other
byte, in particular every label byte, separator, line end and the terminating NUL, is
unchanged; and on an initialised buffer with a callback set the record after the fault has no
NUL before offset `FAULT_HANDLING_DUMP_SIZE - 1` and the NUL there, so its length is
`FAULT_HANDLING_DUMP_SIZE - 1`. -/
theorem fault_changes_only_value_holes (cortexM fuel : Nat) (s : Statics) (hw : Hardware)
    (r7 stack excRet : Nat) (r : Result)
    (hr : FaultHandler_C cortexM fuel s hw r7 stack excRet = some r) :
    (∀ off ∈ storeOffsets r.trace,
        inRegisterHole cortexM off = true ∨ inCallStackHole cortexM off = true)
      ∧ (∀ off, inRegisterHole cortexM off = false → inCallStackHole cortexM off = false →
          (afterFault s r).dumpBuffer off = s.dumpBuffer off)
      ∧ (∀ i k, i < FAULT_HANDLING_CPUREG_COUNT cortexM → k < 6 ∨ k = 14 →
          inRegisterHole cortexM (15 * i + k) = false
            ∧ inCallStackHole cortexM (15 * i + k) = false)
      ∧ (∀ j k, j < 4 → k = 8 ∨ k = 17 →
          inRegisterHole cortexM (15 * FAULT_HANDLING_CPUREG_COUNT cortexM + 18 * j + k) = false
            ∧ inCallStackHole cortexM
                (15 * FAULT_HANDLING_CPUREG_COUNT cortexM + 18 * j + k) = false)
      ∧ (inRegisterHole cortexM (FAULT_HANDLING_DUMP_SIZE cortexM - 1) = false
          ∧ inCallStackHole cortexM (FAULT_HANDLING_DUMP_SIZE cortexM - 1) = false)
      ∧ (∀ s0 buf0 p,
          s.dumpBuffer = (faultHandlingSetDumpProcessor cortexM s0 buf0 (some p)).dumpBuffer →
          s.dumpProcessor = some p →
          (∀ off, off < FAULT_HANDLING_DUMP_SIZE cortexM - 1 →
              (afterFault s r).dumpBuffer off ≠ NUL)
            ∧ (afterFault s r).dumpBuffer (FAULT_HANDLING_DUMP_SIZE cortexM - 1) = NUL) := by
  have hoffs : ∀ off ∈ storeOffsets r.trace,
      inRegisterHole cortexM off = true ∨ inCallStackHole cortexM off = true := by
    intro off hoff
    cases hp : s.dumpProcessor with
    | none =>
      rw [FaultHandler_C_of_none cortexM fuel s hw r7 stack excRet hp] at hr
      simp only [Option.some.injEq] at hr
      subst hr
      cases hoff
    | some p =>
      obtain ⟨h1, h2⟩ := FaultHandler_C_stores cortexM fuel s hw r7 stack excRet p r hp hr
      rw [← storeOffsets_stores, h1] at hoff
      exact fault_stores_in_holes_any cortexM hw r7 stack excRet _ h2 off hoff
  have hsize : FAULT_HANDLING_DUMP_SIZE cortexM
      = 15 * FAULT_HANDLING_CPUREG_COUNT cortexM + 73 := by
    simp only [FAULT_HANDLING_DUMP_SIZE, FAULT_HANDLING_CPUREG_ROWSIZE,
      FAULT_HANDLING_CALLSTACK_ENTRIES, FAULT_HANDLING_CALLSTACK_ROWSIZE]
    omega
  refine ⟨hoffs, ?_, ?_, ?_, ?_, ?_⟩
  · intro off h1 h2
    apply applyTrace_of_not_mem
    intro hmem
    rcases hoffs off hmem with h | h
    · rw [h1] at h; exact absurd h (by decide)
    · rw [h2] at h; exact absurd h (by decide)
  · intro i k hi hk
    simp only [inRegisterHole, inCallStackHole, decide_eq_false_iff_not]
    constructor <;> omega
  · intro j k hj hk
    simp only [inRegisterHole, inCallStackHole, decide_eq_false_iff_not]
    constructor <;> omega
  · rw [hsize]
    simp only [inRegisterHole, inCallStackHole, decide_eq_false_iff_not]
    constructor <;> omega
  · intro s0 buf0 p hinit hp
    obtain ⟨b, l⟩ := afterFault_buffer cortexM fuel s hw r7 stack excRet p r hp hr
    have hrec := dump_layout_any cortexM buf0 hw r7 stack excRet _ l
    rw [dumpBuffer_setDumpProcessor] at hinit
    rw [← hinit, ← b] at hrec
    obtain ⟨q1, q2⟩ := record_is_string cortexM _ hw r7 stack excRet _ hrec
    exact ⟨fun off hoff => (q1 off hoff).2, q2⟩

/-- C15 at a concrete fault: the separator of call-stack row 0 is as before the fault. -/
theorem fault_changes_only_value_holes_witness :
    ∃ r, FaultHandler_C 3 8 witnessStatics witnessHardware 0x2001FFF0 0x2000FFD0 0xFFFFFFF9
          = some r
      ∧ (afterFault witnessStatics r).dumpBuffer 263 = witnessStatics.dumpBuffer 263 := by
  obtain ⟨r, hr, -⟩ := FaultHandler_C_total 3 witnessStatics witnessHardware 0x2001FFF0
    0x2000FFD0 0xFFFFFFF9 (Or.inr (by decide)) 8 (by decide)
  exact ⟨r, hr, (fault_changes_only_value_holes 3 8 witnessStatics witnessHardware 0x2001FFF0
    0x2000FFD0 0xFFFFFFF9 r hr).2.1 263 (by decide) (by decide)⟩

/-- C19: every offset below `FAULT_HANDLING_DUMP_SIZE` is stored to by `faultDumpPrepare` or
lies in the value hole of a register row, and a completed run of `FaultHandler_C` with a
callback set stores to every offset of every such hole; so after initialisation and one fault
capture the record is the same whatever the buffer held before. The run completes whenever
the scan is disabled or its bound is at most `0xFFFFFFFC`. -/
theorem every_byte_written (cortexM : Nat) :
    (∀ off, off < FAULT_HANDLING_DUMP_SIZE cortexM →
        off ∈ storeOffsets (faultDumpPrepare cortexM) ∨ inRegisterHole cortexM off = true)
      ∧ (∀ fuel s hw r7 stack excRet p r, s.dumpProcessor = some p →
          FaultHandler_C cortexM fuel s hw r7 stack excRet = some r →
          ∀ off, inRegisterHole cortexM off = true → off ∈ storeOffsets r.trace)
      ∧ (∀ fuel s0 buf0 buf0' p hw r7 stack excRet r,
          FaultHandler_C cortexM fuel (faultHandlingSetDumpProcessor cortexM s0 buf0 (some p))
              hw r7 stack excRet = some r →
          FaultHandler_C cortexM fuel (faultHandlingSetDumpProcessor cortexM s0 buf0' (some p))
              hw r7 stack excRet = some r
            ∧ bufferBytes
                (afterFault (faultHandlingSetDumpProcessor cortexM s0 buf0' (some p)) r).dumpBuffer
                (FAULT_HANDLING_DUMP_SIZE cortexM)
              = bufferBytes
                  (afterFault (faultHandlingSetDumpProcessor cortexM s0 buf0 (some p)) r).dumpBuffer
                  (FAULT_HANDLING_DUMP_SIZE cortexM))
      ∧ (∀ fuel s hw r7 stack excRet, (s.endText = 0 ∨ TOS s excRet ≤ W32 - 4) →
          (TOS s excRet - (stack + 32) % W32 + 3) / 4 < fuel →
          ∃ r, FaultHandler_C cortexM fuel s hw r7 stack excRet = some r) := by
  refine ⟨(template_bytes cortexM (fun _ => ' ')).2.2.1, ?_, ?_, ?_⟩
  rotate_left 2
  · intro fuel s hw r7 stack excRet h hfuel
    obtain ⟨r, hr, -⟩ := FaultHandler_C_total cortexM s hw r7 stack excRet h fuel hfuel
    exact ⟨r, hr⟩
  · intro fuel s hw r7 stack excRet p r hp hr off hoff
    obtain ⟨h1, -⟩ := FaultHandler_C_stores cortexM fuel s hw r7 stack excRet p r hp hr
    rw [← storeOffsets_stores, h1, storeOffsets_append, List.mem_append]
    exact Or.inl (register_holes_written cortexM hw r7 stack excRet off hoff)
  · intro fuel s0 buf0 buf0' p hw r7 stack excRet r hr
    have hr' : FaultHandler_C cortexM fuel
        (faultHandlingSetDumpProcessor cortexM s0 buf0' (some p)) hw r7 stack excRet = some r :=
      (FaultHandler_C_config cortexM fuel
        (faultHandlingSetDumpProcessor cortexM s0 buf0 (some p))
        (faultHandlingSetDumpProcessor cortexM s0 buf0' (some p))
        hw r7 stack excRet rfl rfl rfl rfl rfl rfl).trans hr
    refine ⟨hr', ?_⟩
    have e := record_after_init cortexM fuel _ buf0 hw r7 stack excRet p r
      (dumpBuffer_setDumpProcessor cortexM s0 buf0 (some p)) rfl hr
    have e' := record_after_init cortexM fuel _ buf0' hw r7 stack excRet p r
      (dumpBuffer_setDumpProcessor cortexM s0 buf0' (some p)) rfl hr'
    rw [recordedEntries_config (faultHandlingSetDumpProcessor cortexM s0 buf0 (some p))
      (faultHandlingSetDumpProcessor cortexM s0 buf0' (some p)) hw.mem _ rfl rfl] at e'
    exact e'.trans e.symm

/-! ## Degenerate bounds -/

/-- C18, as stated, fails in its part on the eight saved-register words. First input: with the stack top at `0xFFFFFFFF`
and a frame at `0x2000FFD0` whose first four words are odd and within the code bounds, on a
stack that is zero elsewhere, the scan passes `0xFFFFFFFC`, wraps to 0, comes round to the
frame and reads `stack + 0`, the stacked `r0`, as a scan candidate; the run completes there
because the four frame words fill the four call-stack rows. Second input: with a frame at
`0xFFFFFFF0`, which extends past the end of the address space, and the stack top at
`0xFFFFFFF4`, the scan starts at address `0x10` and its last read is again `stack + 0`. -/
theorem scan_reads_stacked_word_after_wrap :
    (TOS lastWordStatics 0xFFFFFFF9 = 0xFFFFFFFF
      ∧ ∃ r, FaultHandler_C 3 (1073741816 + 4) lastWordStatics frameHitHardware 0x2001FFF0
            0x2000FFD0 0xFFFFFFF9 = some r
          ∧ (0x2000FFD0 + 4 * 0) % W32 ∈ scanReads r.trace
          ∧ Event.readFrame ((0x2000FFD0 + 4 * 0) % W32) ∈ frameReads 0x2000FFD0)
      ∧ (TOS highTopStatics 0xFFFFFFF9 = 0xFFFFFFF4
        ∧ ∃ r, FaultHandler_C 3 (1073741816 + 2) highTopStatics blankHardware 0x2001FFF0
              0xFFFFFFF0 0xFFFFFFF9 = some r
            ∧ (0xFFFFFFF0 + 4 * 0) % W32 ∈ scanReads r.trace
            ∧ Event.readFrame ((0xFFFFFFF0 + 4 * 0) % W32) ∈ frameReads 0xFFFFFFF0) := by
  have hW : W32 = 4294967296 := rfl
  constructor
  · have hT : TOS lastWordStatics 0xFFFFFFF9 = 0xFFFFFFFF := by decide
    have hlast : (scanLoop 3 lastWordStatics frameHitHardware.mem
        (TOS lastWordStatics 0xFFFFFFF9) 4 0x2000FFD0 0).map scanReads
          = some [0x2000FFD0, 0x2000FFD4, 0x2000FFD8, 0x2000FFDC] := by decide
    rw [Option.map_eq_some'] at hlast
    obtain ⟨tr, htr, hL⟩ := hlast
    have hskip : ∀ i, i < 1073741816 →
        ((0x2000FFD0 + 4 * 8) % W32 + 4 * i) % W32 < TOS lastWordStatics 0xFFFFFFF9
          ∧ qualifies lastWordStatics.startText lastWordStatics.endText
              (load frameHitHardware.mem (((0x2000FFD0 + 4 * 8) % W32 + 4 * i) % W32))
            = false := by
      intro i hi
      have hmm : (((0x2000FFD0 + 4 * 8) % W32 + 4 * i) % W32) % W32
          = ((0x2000FFD0 + 4 * 8) % W32 + 4 * i) % W32 := Nat.mod_mod _ _
      constructor
      · rw [hT, hW]
        omega
      · rw [show frameHitHardware.mem = frameHitMemory from rfl,
          load_frameHitMemory _ (by rw [hmm, hW]; omega) (by rw [hmm, hW]; omega)
            (by rw [hmm, hW]; omega) (by rw [hmm, hW]; omega)]
        exact qualifies_zero _ _
    obtain ⟨scan, hscan, hmem⟩ := scanLoop_skip 3 lastWordStatics frameHitHardware.mem
      (TOS lastWordStatics 0xFFFFFFF9) 4 0 1073741816 ((0x2000FFD0 + 4 * 8) % W32) 0x2000FFD0
      tr (Nat.mod_lt _ (by decide)) hskip (by decide) htr
    obtain ⟨r, hr, hrs⟩ := FaultHandler_C_of_scanLoop 3 (1073741816 + 4) lastWordStatics
      frameHitHardware 0x2001FFF0 0x2000FFD0 0xFFFFFFF9 1 scan rfl (by decide) hscan
    refine ⟨hT, r, hr, ?_, by decide⟩
    rw [hrs]
    apply hmem
    rw [hL]
    decide
  · have hT : TOS highTopStatics 0xFFFFFFF9 = 0xFFFFFFF4 := by decide
    have hlast : (scanLoop 3 highTopStatics blankHardware.mem
        (TOS highTopStatics 0xFFFFFFF9) 2 0xFFFFFFF0 0).map scanReads
          = some [0xFFFFFFF0] := by decide
    rw [Option.map_eq_some'] at hlast
    obtain ⟨tr, htr, hL⟩ := hlast
    have hskip : ∀ i, i < 1073741816 →
        ((0xFFFFFFF0 + 4 * 8) % W32 + 4 * i) % W32 < TOS highTopStatics 0xFFFFFFF9
          ∧ qualifies highTopStatics.startText highTopStatics.endText
              (load blankHardware.mem (((0xFFFFFFF0 + 4 * 8) % W32 + 4 * i) % W32))
            = false := by
      intro i hi
      constructor
      · rw [hT, hW]
        omega
      · exact qualifies_zero _ _
    obtain ⟨scan, hscan, hmem⟩ := scanLoop_skip 3 highTopStatics blankHardware.mem
      (TOS highTopStatics 0xFFFFFFF9) 2 0 1073741816 ((0xFFFFFFF0 + 4 * 8) % W32) 0xFFFFFFF0
      tr (Nat.mod_lt _ (by decide)) hskip (by decide) htr
    obtain ⟨r, hr, hrs⟩ := FaultHandler_C_of_scanLoop 3 (1073741816 + 2) highTopStatics
      blankHardware 0x2001FFF0 0xFFFFFFF0 0xFFFFFFF9 1 scan rfl (by decide) hscan
    refine ⟨hT, r, hr, ?_, by decide⟩
    rw [hrs]
    apply hmem
    rw [hL]
    decide

/-- C18, amended: in a completed run of `FaultHandler_C` the scan reads the words at
`stack + 8` words, `stack + 9` words, ... in that order (addresses modulo 2^32) and every
address read is strictly below the selected stack top; when four entries were recorded the
last word read is a qualifying one, so nothing is read after the word of the fourth entry; and
when the frame lies below 2^32 and the stack top is at most `0xFFFFFFFC` no address read is
that of one of the eight stacked registers. -/
theorem scan_reads_only_candidates (cortexM fuel : Nat) (s : Statics) (hw : Hardware)
    (r7 stack excRet : Nat) (r : Result)
    (hr : FaultHandler_C cortexM fuel s hw r7 stack excRet = some r) :
    (∃ n, scanReads r.trace = (List.range n).map fun i => (stack + 4 * (8 + i)) % W32)
      ∧ (∀ a ∈ scanReads r.trace, a < TOS s excRet)
      ∧ (recordedEntries s hw.mem (scanReads r.trace)).length ≤ 4
      ∧ ((recordedEntries s hw.mem (scanReads r.trace)).length = 4 →
          ∃ a, (scanReads r.trace).getLast? = some a
            ∧ qualifies s.startText s.endText (load hw.mem a) = true)
      ∧ (stack + 4 * 8 < W32 → TOS s excRet ≤ W32 - 4 →
          ∀ a ∈ scanReads r.trace,
            (∃ i, a = stack + 4 * (8 + i)) ∧ ∀ k, k < 8 → a ≠ (stack + 4 * k) % W32) := by
  have hlt := FaultHandler_C_reads_lt cortexM fuel s hw r7 stack excRet r hr
  have hempty : scanReads r.trace = [] →
      (∃ n, scanReads r.trace = (List.range n).map fun i => (stack + 4 * (8 + i)) % W32)
      ∧ (∀ a ∈ scanReads r.trace, a < TOS s excRet)
      ∧ (recordedEntries s hw.mem (scanReads r.trace)).length ≤ 4
      ∧ ((recordedEntries s hw.mem (scanReads r.trace)).length = 4 →
          ∃ a, (scanReads r.trace).getLast? = some a
            ∧ qualifies s.startText s.endText (load hw.mem a) = true)
      ∧ (stack + 4 * 8 < W32 → TOS s excRet ≤ W32 - 4 →
          ∀ a ∈ scanReads r.trace,
            (∃ i, a = stack + 4 * (8 + i)) ∧ ∀ k, k < 8 → a ≠ (stack + 4 * k) % W32) := by
    intro h0
    rw [h0]
    refine ⟨⟨0, rfl⟩, ?_, Nat.zero_le _, ?_, ?_⟩
    · intro a ha; cases ha
    · intro h
      have hz : (recordedEntries s hw.mem []).length = 0 := rfl
      omega
    · intro _ _ a ha; cases ha
  rcases FaultHandler_C_scanReads cortexM fuel s hw r7 stack excRet r hr with h0 | ⟨scan, hs, he⟩
  · exact hempty h0
  · have hscan : scan = [] ∨ scanLoop cortexM s hw.mem (TOS s excRet) fuel
        ((stack + 4 * 8) % W32) 0 = some scan := by
      unfold callStackScan at hs
      split at hs
      · exact Or.inr hs
      · exact Or.inl (Option.some.inj hs).symm
    have hnil : scanReads ([] : List Event) = [] := rfl
    rcases hscan with rfl | hl
    · exact hempty (he.trans hnil)
    · have hW : W32 = 4294967296 := rfl
      refine ⟨?_, hlt, ?_, ?_, ?_⟩
      · obtain ⟨n, hn⟩ := scanLoop_reads_consecutive cortexM s hw.mem (TOS s excRet) fuel
          _ 0 scan (Nat.mod_lt _ (by decide)) hl
        refine ⟨n, ?_⟩
        rw [he, hn]
        apply List.map_congr_left
        intro i _
        show ((stack + 4 * 8) % W32 + 4 * i) % W32 = (stack + 4 * (8 + i)) % W32
        rw [Nat.mod_add_mod, Nat.mul_add, Nat.add_assoc]
      · rw [he]
        have := (scanLoop_stores cortexM s hw.mem (TOS s excRet) fuel _ 0 scan (by decide)
          hl).2
        omega
      · intro h4
        rw [he] at h4 ⊢
        exact scanLoop_last_read cortexM s hw.mem (TOS s excRet) fuel _ 0 scan (by decide) hl
          (by omega)
      · intro hst ht a ha
        rw [he] at ha
        obtain ⟨i, hi⟩ := scanLoop_reads_above cortexM s hw.mem (TOS s excRet) fuel ht
          _ 0 scan hl a ha
        rw [Nat.mod_eq_of_lt hst] at hi
        refine ⟨⟨i, by omega⟩, ?_⟩
        intro k hk
        rw [Nat.mod_eq_of_lt (by omega)]
        omega

/-- C18 amended, at a concrete fault: the run completes and every word the scan reads lies at
`stack + 8` words or above, below the stack top `0x20010000`. -/
theorem scan_reads_only_candidates_witness :
    ∃ r, FaultHandler_C 3 8 witnessStatics witnessHardware 0x2001FFF0 0x2000FFD0 0xFFFFFFF9
          = some r
      ∧ ∀ a ∈ scanReads r.trace, a < TOS witnessStatics 0xFFFFFFF9
          ∧ (∃ i, a = 0x2000FFD0 + 4 * (8 + i)) := by
  obtain ⟨r, hr, -⟩ := FaultHandler_C_total 3 witnessStatics witnessHardware 0x2001FFF0
    0x2000FFD0 0xFFFFFFF9 (Or.inr (by decide)) 8 (by decide)
  have h := scan_reads_only_candidates 3 8 witnessStatics witnessHardware 0x2001FFF0
    0x2000FFD0 0xFFFFFFF9 r hr
  exact ⟨r, hr, fun a ha => ⟨h.2.1 a ha, (h.2.2.2.2 (by decide) (by decide) a ha).1⟩⟩

/-! ## The hexadecimal text determines the value -/

/-- C23: the 8 characters that `formatRegValue` writes for a 32-bit value `v`, read as a
base-16 numeral, give back `v`; so two 32-bit values for which the same 8 characters are
written, or for which `formatRegValue` performs the same stores, are equal. The same holds for
the address and the value that `formatCallStackPair` writes. -/
theorem hex_formatting_lossless (cortexM : Nat) (buf : Buffer) (index v w : Nat)
    (hv : v < W32) (hw : w < W32) :
    readHex (bufferSlice (applyTrace buf (formatRegValue index v)) (15 * index + 6) 8) = v
      ∧ (bufferSlice (applyTrace buf (formatRegValue index v)) (15 * index + 6) 8
            = bufferSlice (applyTrace buf (formatRegValue index w)) (15 * index + 6) 8 →
          v = w)
      ∧ (formatRegValue index v = formatRegValue index w → v = w)
      ∧ readHex (bufferSlice (applyTrace buf (formatCallStackPair cortexM index v w))
            (15 * FAULT_HANDLING_CPUREG_COUNT cortexM + 18 * index) 8) = v
      ∧ readHex (bufferSlice (applyTrace buf (formatCallStackPair cortexM index v w))
            (15 * FAULT_HANDLING_CPUREG_COUNT cortexM + 18 * index + 9) 8) = w := by
  have hslice : bufferSlice (applyTrace buf (formatRegValue index v)) (15 * index + 6) 8
        = bufferSlice (applyTrace buf (formatRegValue index w)) (15 * index + 6) 8 →
      v = w := by
    intro h
    rw [slice_formatRegValue, slice_formatRegValue] at h
    have := hex8_injective v w h
    rwa [Nat.mod_eq_of_lt hv, Nat.mod_eq_of_lt hw] at this
  refine ⟨?_, hslice, ?_, ?_, ?_⟩
  · rw [slice_formatRegValue, readHex_hex8, Nat.mod_eq_of_lt hv]
  · intro h
    exact hslice (by rw [h])
  · rw [slice_formatCallStackPair_addr, readHex_hex8, Nat.mod_eq_of_lt hv]
  · rw [slice_formatCallStackPair_val, readHex_hex8, Nat.mod_eq_of_lt hw]

/-- C23 at the values of the first call-stack row of the sample dump. -/
theorem hex_formatting_lossless_witness :
    readHex (bufferSlice (applyTrace zeroBuffer (formatRegValue 0 0x20000FE4)) 6 8)
      = 0x20000FE4 :=
  (hex_formatting_lossless 3 zeroBuffer 0 0x20000FE4 0x00000317 (by decide) (by decide)).1

/-! ## Termination of the scan -/

/-- C21, as stated, fails: with the stack top at `0xFFFFFFFF`, a word-aligned frame and a stack
of zero words, the scan pointer passes `0xFFFFFFFC`, wraps to 0 and stays below the top, so
neither the scan loop nor `FaultHandler_C` completes within any number of loop tests. -/
theorem scan_outlives_all_fuel_at_last_word_top :
    TOS lastWordStatics 0xFFFFFFF9 = 0xFFFFFFFF
      ∧ (¬ ∃ fuel tr, scanLoop 3 lastWordStatics blankMemory 0xFFFFFFFF fuel 0x2000FFF0 0
            = some tr)
      ∧ ¬ ∃ fuel r, FaultHandler_C 3 fuel lastWordStatics blankHardware 0x2001FFF0 0x2000FFD0
            0xFFFFFFF9 = some r := by
  have hq : ∀ a, qualifies lastWordStatics.startText lastWordStatics.endText
      (load blankHardware.mem a) = false := fun a => qualifies_zero _ _
  refine ⟨by decide, ?_, ?_⟩
  · rintro ⟨fuel, tr, h⟩
    rw [scanLoop_never_ends 3 lastWordStatics blankMemory 0xFFFFFFFF (by decide) hq fuel
      0x2000FFF0 0 (by decide) (by decide)] at h
    exact absurd h (by simp)
  · rintro ⟨fuel, r, h⟩
    rw [FaultHandler_C_never_ends 3 lastWordStatics blankHardware 0x2001FFF0 0x2000FFD0
      0xFFFFFFF9 1 rfl (by decide) (by decide) (by decide) hq fuel] at h
    exact absurd h (by simp)

/-- C21, amended: for every stack address, every memory content and every selected stack top
of at most `0xFFFFFFFC`, word-aligned or not, the scan loop terminates, having examined at most
`ceil((stack top - (stack + 32 bytes)) / 4)` words, and so does `FaultHandler_C`. -/
theorem scan_terminates_below_last_word (cortexM : Nat) (s : Statics) (hw : Hardware)
    (r7 stack excRet : Nat) (ht : TOS s excRet ≤ W32 - 4) :
    (∀ fuel fp found, (TOS s excRet - fp + 3) / 4 < fuel →
        ∃ tr, scanLoop cortexM s hw.mem (TOS s excRet) fuel fp found = some tr
          ∧ (scanReads tr).length ≤ (TOS s excRet - fp + 3) / 4)
      ∧ ∀ fuel, (TOS s excRet - (stack + 32) % W32 + 3) / 4 < fuel →
          ∃ r, FaultHandler_C cortexM fuel s hw r7 stack excRet = some r
            ∧ (scanReads r.trace).length ≤ (TOS s excRet - (stack + 32) % W32 + 3) / 4 :=
  ⟨scanLoop_bounded cortexM s hw.mem _ ht,
    FaultHandler_C_bounded cortexM s hw r7 stack excRet ht⟩

/-- C21 amended, at a stack top that is not word-aligned, `0x20010002`: the run completes
within 6 loop tests and the scan examines at most 5 words. -/
theorem scan_terminates_below_last_word_witness :
    ∃ r, FaultHandler_C 3 6 unalignedTopStatics witnessHardware 0x2001FFF0 0x2000FFD0
          0xFFFFFFF9 = some r
      ∧ (scanReads r.trace).length ≤ 5 := by
  obtain ⟨r, hr, hlen⟩ := (scan_terminates_below_last_word 3 unalignedTopStatics
    witnessHardware 0x2001FFF0 0x2000FFD0 0xFFFFFFF9 (by decide)).2 6 (by decide)
  exact ⟨r, hr, hlen.trans (by decide)⟩

/-! ## Recorded values are odd -/

/-- C22: every value that a completed fault capture records in a call-stack row is the word
read at the recorded address, is odd and therefore non-zero, whatever the lower code bound
(a zero word qualifies for no bounds, also not for `startText = 0`); so the value hole of a row
written by the scan never reads "00000000", the row never equals the template row
"00000000 00000000", and no address holding a zero word is recorded. -/
theorem recorded_values_are_odd (cortexM fuel : Nat) (s : Statics) (hw : Hardware)
    (r7 stack excRet p : Nat) (r : Result) (hp : s.dumpProcessor = some p)
    (hr : FaultHandler_C cortexM fuel s hw r7 stack excRet = some r) :
    stores r.trace
        = formatRegisters cortexM (capturedRegisters cortexM hw r7 stack excRet)
            ++ callEntriesTrace cortexM 0 (recordedEntries s hw.mem (scanReads r.trace))
      ∧ (∀ e ∈ recordedEntries s hw.mem (scanReads r.trace),
          e.2 = load hw.mem e.1 ∧ e.2 % 2 = 1 ∧ e.2 ≠ 0
            ∧ callStackRowText e ≠ "00000000 00000000\n".toList)
      ∧ (∀ a, load hw.mem a = 0 →
          ∀ e ∈ recordedEntries s hw.mem (scanReads r.trace), e.1 ≠ a)
      ∧ (∀ lo hi, qualifies lo hi 0 = false)
      ∧ (∀ j, j < (recordedEntries s hw.mem (scanReads r.trace)).length →
          bufferSlice (afterFault s r).dumpBuffer
              (15 * FAULT_HANDLING_CPUREG_COUNT cortexM + 18 * j + 9) 8
            ≠ "00000000".toList
          ∧ callStackRow cortexM (afterFault s r).dumpBuffer j
            ≠ "00000000 00000000\n".toList) := by
  have hodd : ∀ e ∈ recordedEntries s hw.mem (scanReads r.trace),
      e.2 = load hw.mem e.1 ∧ e.2 % 2 = 1 := by
    intro e he
    obtain ⟨-, h2, h3⟩ := recordedEntries_mem s hw.mem _ e he
    exact ⟨h2, qualifies_odd _ _ _ h3⟩
  refine ⟨(FaultHandler_C_stores cortexM fuel s hw r7 stack excRet p r hp hr).1, ?_, ?_,
    qualifies_zero, ?_⟩
  · intro e he
    obtain ⟨h1, h2⟩ := hodd e he
    exact ⟨h1, h2, by omega, callStackRowText_ne_zero_of_odd e h2⟩
  · intro a ha e he hea
    obtain ⟨h1, h2⟩ := hodd e he
    rw [h1, hea, ha] at h2
    exact absurd h2 (by decide)
  · intro j hj
    have hv := valueHole_afterFault cortexM fuel s hw r7 stack excRet p r hp hr j hj
    have hmem : (recordedEntries s hw.mem (scanReads r.trace)).getD j (0, 0)
        ∈ recordedEntries s hw.mem (scanReads r.trace) := by
      rw [List.getD_eq_getElem _ _ hj]
      exact List.getElem_mem hj
    have hne := hex8_ne_zero_of_odd _ (hodd _ hmem).2
    refine ⟨by rw [hv]; exact hne, ?_⟩
    intro hrow
    unfold callStackRow at hrow
    rw [← callStackRowText_zero] at hrow
    have hparts := (callRow_parts _ _ _ hrow).2.2.1
    rw [hv] at hparts
    exact hne (hparts.trans hex8_zero)

/-- C22 at a concrete fault with the lower code bound 0: the run completes and every recorded
value is odd. -/
theorem recorded_values_are_odd_witness :
    ∃ r, FaultHandler_C 3 8 zeroTextLoStatics witnessHardware 0x2001FFF0 0x2000FFD0 0xFFFFFFF9
          = some r
      ∧ ∀ e ∈ recordedEntries zeroTextLoStatics witnessHardware.mem (scanReads r.trace),
          e.2 % 2 = 1 := by
  obtain ⟨r, hr, -⟩ := FaultHandler_C_total 3 zeroTextLoStatics witnessHardware 0x2001FFF0
    0x2000FFD0 0xFFFFFFF9 (Or.inr (by decide)) 8 (by decide)
  exact ⟨r, hr, fun e he => ((recorded_values_are_odd 3 8 zeroTextLoStatics witnessHardware
    0x2001FFF0 0x2000FFD0 0xFFFFFFF9 1 r rfl hr).2.1 e he).2.1⟩

/-! ## The action in force -/

/-- C25, evaluated on the header: for both variants the struct `faultHandlingRegSet` has one
field fewer than `faultHandlingRegIndex` has register rows; its fields are, in order, the
enumerators other than `PSR`, so it has no field for the `psr` row, and from position 3 on
each field stands one place before the row of its register. -/
theorem regSet_lacks_psr_field (cortexM : Nat) :
    (faultHandlingRegSet cortexM).length + 1 = FAULT_HANDLING_CPUREG_COUNT cortexM
      ∧ faultHandlingRegSet cortexM
          = ((regIndexEnumerators cortexM).filter fun r => decide (r ≠ PSR)).map regIndexName
      ∧ faultHandlingRegSet cortexM ≠ (regIndexEnumerators cortexM).map regIndexName
      ∧ regIndexName PSR ∉ faultHandlingRegSet cortexM
      ∧ PSR ∈ regIndexEnumerators cortexM
      ∧ ((regIndexEnumerators cortexM).map regIndexName).getD 3 "" = "psr"
      ∧ (faultHandlingRegSet cortexM).getD 3 "" = if cortexM > 0 then "hfsr" else "shcsr" := by
  by_cases h : cortexM > 0
  · simp only [faultHandlingRegSet, regIndexEnumerators, FAULT_HANDLING_CPUREG_COUNT, if_pos h]
    decide
  · simp only [faultHandlingRegSet, regIndexEnumerators, FAULT_HANDLING_CPUREG_COUNT, if_neg h]
    decide

end FaultHandling
